import Mathlib

/-!
Receipt processor: points rules, score store and handlers.

A shallow embedding of `main.go`.  Go strings coming out of the JSON decoder are valid
UTF-8, so a Go `string` is a Lean `String` (a list of Unicode scalar values); `len` is the
UTF-8 byte length.  Go `int` is the 64-bit two's-complement integer: sums of points wrap
(`intAdd`).  `float64` is modelled exactly: a finite value is a sign, an integer
significand and a binary exponent, and every operation rounds to nearest, ties to even.
-/

namespace FetchAssignment

/-! ## Data model -/

/-- Item of a receipt (`type Item struct`). -/
structure Item where
  ShortDescription : String
  Price : String
deriving DecidableEq, Repr

/-- Receipt as decoded from the request body (`type Receipt struct`). -/
structure Receipt where
  Retailer : String
  PurchaseDate : String
  PurchaseTime : String
  Items : List Item
  Total : String
deriving DecidableEq, Repr

/-! ## Go `int` -/

/-- Reduction of an integer into the range of the 64-bit Go `int`, `[-2^63, 2^63)`. -/
def wrapInt (x : Int) : Int := (x + 2 ^ 63) % 2 ^ 64 - 2 ^ 63

/-- Addition on Go `int`: the exact sum, wrapped around on overflow. -/
def intAdd (a b : Int) : Int := wrapInt (a + b)

/-! ## Package `unicode` -/

/-- Table `unicode.Letter` above Latin-1: the code point ranges of general category L
(Lu, Ll, Lt, Lm, Lo) of the Unicode Character Database 15.0.0, the version of the tables
of package `unicode` from Go 1.21 on (`unicode.Version = "15.0.0"`). -/
def unicode.Letter : List (Nat × Nat) := [
  (0x100, 0x2C1), (0x2C6, 0x2D1), (0x2E0, 0x2E4), (0x2EC, 0x2EC), (0x2EE, 0x2EE), (0x370, 0x374),
  (0x376, 0x377), (0x37A, 0x37D), (0x37F, 0x37F), (0x386, 0x386), (0x388, 0x38A), (0x38C, 0x38C),
  (0x38E, 0x3A1), (0x3A3, 0x3F5), (0x3F7, 0x481), (0x48A, 0x52F), (0x531, 0x556), (0x559, 0x559),
  (0x560, 0x588), (0x5D0, 0x5EA), (0x5EF, 0x5F2), (0x620, 0x64A), (0x66E, 0x66F), (0x671, 0x6D3),
  (0x6D5, 0x6D5), (0x6E5, 0x6E6), (0x6EE, 0x6EF), (0x6FA, 0x6FC), (0x6FF, 0x6FF), (0x710, 0x710),
  (0x712, 0x72F), (0x74D, 0x7A5), (0x7B1, 0x7B1), (0x7CA, 0x7EA), (0x7F4, 0x7F5), (0x7FA, 0x7FA),
  (0x800, 0x815), (0x81A, 0x81A), (0x824, 0x824), (0x828, 0x828), (0x840, 0x858), (0x860, 0x86A),
  (0x870, 0x887), (0x889, 0x88E), (0x8A0, 0x8C9), (0x904, 0x939), (0x93D, 0x93D), (0x950, 0x950),
  (0x958, 0x961), (0x971, 0x980), (0x985, 0x98C), (0x98F, 0x990), (0x993, 0x9A8), (0x9AA, 0x9B0),
  (0x9B2, 0x9B2), (0x9B6, 0x9B9), (0x9BD, 0x9BD), (0x9CE, 0x9CE), (0x9DC, 0x9DD), (0x9DF, 0x9E1),
  (0x9F0, 0x9F1), (0x9FC, 0x9FC), (0xA05, 0xA0A), (0xA0F, 0xA10), (0xA13, 0xA28), (0xA2A, 0xA30),
  (0xA32, 0xA33), (0xA35, 0xA36), (0xA38, 0xA39), (0xA59, 0xA5C), (0xA5E, 0xA5E), (0xA72, 0xA74),
  (0xA85, 0xA8D), (0xA8F, 0xA91), (0xA93, 0xAA8), (0xAAA, 0xAB0), (0xAB2, 0xAB3), (0xAB5, 0xAB9),
  (0xABD, 0xABD), (0xAD0, 0xAD0), (0xAE0, 0xAE1), (0xAF9, 0xAF9), (0xB05, 0xB0C), (0xB0F, 0xB10),
  (0xB13, 0xB28), (0xB2A, 0xB30), (0xB32, 0xB33), (0xB35, 0xB39), (0xB3D, 0xB3D), (0xB5C, 0xB5D),
  (0xB5F, 0xB61), (0xB71, 0xB71), (0xB83, 0xB83), (0xB85, 0xB8A), (0xB8E, 0xB90), (0xB92, 0xB95),
  (0xB99, 0xB9A), (0xB9C, 0xB9C), (0xB9E, 0xB9F), (0xBA3, 0xBA4), (0xBA8, 0xBAA), (0xBAE, 0xBB9),
  (0xBD0, 0xBD0), (0xC05, 0xC0C), (0xC0E, 0xC10), (0xC12, 0xC28), (0xC2A, 0xC39), (0xC3D, 0xC3D),
  (0xC58, 0xC5A), (0xC5D, 0xC5D), (0xC60, 0xC61), (0xC80, 0xC80), (0xC85, 0xC8C), (0xC8E, 0xC90),
  (0xC92, 0xCA8), (0xCAA, 0xCB3), (0xCB5, 0xCB9), (0xCBD, 0xCBD), (0xCDD, 0xCDE), (0xCE0, 0xCE1),
  (0xCF1, 0xCF2), (0xD04, 0xD0C), (0xD0E, 0xD10), (0xD12, 0xD3A), (0xD3D, 0xD3D), (0xD4E, 0xD4E),
  (0xD54, 0xD56), (0xD5F, 0xD61), (0xD7A, 0xD7F), (0xD85, 0xD96), (0xD9A, 0xDB1), (0xDB3, 0xDBB),
  (0xDBD, 0xDBD), (0xDC0, 0xDC6), (0xE01, 0xE30), (0xE32, 0xE33), (0xE40, 0xE46), (0xE81, 0xE82),
  (0xE84, 0xE84), (0xE86, 0xE8A), (0xE8C, 0xEA3), (0xEA5, 0xEA5), (0xEA7, 0xEB0), (0xEB2, 0xEB3),
  (0xEBD, 0xEBD), (0xEC0, 0xEC4), (0xEC6, 0xEC6), (0xEDC, 0xEDF), (0xF00, 0xF00), (0xF40, 0xF47),
  (0xF49, 0xF6C), (0xF88, 0xF8C), (0x1000, 0x102A), (0x103F, 0x103F), (0x1050, 0x1055), (0x105A, 0x105D),
  (0x1061, 0x1061), (0x1065, 0x1066), (0x106E, 0x1070), (0x1075, 0x1081), (0x108E, 0x108E), (0x10A0, 0x10C5),
  (0x10C7, 0x10C7), (0x10CD, 0x10CD), (0x10D0, 0x10FA), (0x10FC, 0x1248), (0x124A, 0x124D), (0x1250, 0x1256),
  (0x1258, 0x1258), (0x125A, 0x125D), (0x1260, 0x1288), (0x128A, 0x128D), (0x1290, 0x12B0), (0x12B2, 0x12B5),
  (0x12B8, 0x12BE), (0x12C0, 0x12C0), (0x12C2, 0x12C5), (0x12C8, 0x12D6), (0x12D8, 0x1310), (0x1312, 0x1315),
  (0x1318, 0x135A), (0x1380, 0x138F), (0x13A0, 0x13F5), (0x13F8, 0x13FD), (0x1401, 0x166C), (0x166F, 0x167F),
  (0x1681, 0x169A), (0x16A0, 0x16EA), (0x16F1, 0x16F8), (0x1700, 0x1711), (0x171F, 0x1731), (0x1740, 0x1751),
  (0x1760, 0x176C), (0x176E, 0x1770), (0x1780, 0x17B3), (0x17D7, 0x17D7), (0x17DC, 0x17DC), (0x1820, 0x1878),
  (0x1880, 0x1884), (0x1887, 0x18A8), (0x18AA, 0x18AA), (0x18B0, 0x18F5), (0x1900, 0x191E), (0x1950, 0x196D),
  (0x1970, 0x1974), (0x1980, 0x19AB), (0x19B0, 0x19C9), (0x1A00, 0x1A16), (0x1A20, 0x1A54), (0x1AA7, 0x1AA7),
  (0x1B05, 0x1B33), (0x1B45, 0x1B4C), (0x1B83, 0x1BA0), (0x1BAE, 0x1BAF), (0x1BBA, 0x1BE5), (0x1C00, 0x1C23),
  (0x1C4D, 0x1C4F), (0x1C5A, 0x1C7D), (0x1C80, 0x1C88), (0x1C90, 0x1CBA), (0x1CBD, 0x1CBF), (0x1CE9, 0x1CEC),
  (0x1CEE, 0x1CF3), (0x1CF5, 0x1CF6), (0x1CFA, 0x1CFA), (0x1D00, 0x1DBF), (0x1E00, 0x1F15), (0x1F18, 0x1F1D),
  (0x1F20, 0x1F45), (0x1F48, 0x1F4D), (0x1F50, 0x1F57), (0x1F59, 0x1F59), (0x1F5B, 0x1F5B), (0x1F5D, 0x1F5D),
  (0x1F5F, 0x1F7D), (0x1F80, 0x1FB4), (0x1FB6, 0x1FBC), (0x1FBE, 0x1FBE), (0x1FC2, 0x1FC4), (0x1FC6, 0x1FCC),
  (0x1FD0, 0x1FD3), (0x1FD6, 0x1FDB), (0x1FE0, 0x1FEC), (0x1FF2, 0x1FF4), (0x1FF6, 0x1FFC), (0x2071, 0x2071),
  (0x207F, 0x207F), (0x2090, 0x209C), (0x2102, 0x2102), (0x2107, 0x2107), (0x210A, 0x2113), (0x2115, 0x2115),
  (0x2119, 0x211D), (0x2124, 0x2124), (0x2126, 0x2126), (0x2128, 0x2128), (0x212A, 0x212D), (0x212F, 0x2139),
  (0x213C, 0x213F), (0x2145, 0x2149), (0x214E, 0x214E), (0x2183, 0x2184), (0x2C00, 0x2CE4), (0x2CEB, 0x2CEE),
  (0x2CF2, 0x2CF3), (0x2D00, 0x2D25), (0x2D27, 0x2D27), (0x2D2D, 0x2D2D), (0x2D30, 0x2D67), (0x2D6F, 0x2D6F),
  (0x2D80, 0x2D96), (0x2DA0, 0x2DA6), (0x2DA8, 0x2DAE), (0x2DB0, 0x2DB6), (0x2DB8, 0x2DBE), (0x2DC0, 0x2DC6),
  (0x2DC8, 0x2DCE), (0x2DD0, 0x2DD6), (0x2DD8, 0x2DDE), (0x2E2F, 0x2E2F), (0x3005, 0x3006), (0x3031, 0x3035),
  (0x303B, 0x303C), (0x3041, 0x3096), (0x309D, 0x309F), (0x30A1, 0x30FA), (0x30FC, 0x30FF), (0x3105, 0x312F),
  (0x3131, 0x318E), (0x31A0, 0x31BF), (0x31F0, 0x31FF), (0x3400, 0x4DBF), (0x4E00, 0xA48C), (0xA4D0, 0xA4FD),
  (0xA500, 0xA60C), (0xA610, 0xA61F), (0xA62A, 0xA62B), (0xA640, 0xA66E), (0xA67F, 0xA69D), (0xA6A0, 0xA6E5),
  (0xA717, 0xA71F), (0xA722, 0xA788), (0xA78B, 0xA7CA), (0xA7D0, 0xA7D1), (0xA7D3, 0xA7D3), (0xA7D5, 0xA7D9),
  (0xA7F2, 0xA801), (0xA803, 0xA805), (0xA807, 0xA80A), (0xA80C, 0xA822), (0xA840, 0xA873), (0xA882, 0xA8B3),
  (0xA8F2, 0xA8F7), (0xA8FB, 0xA8FB), (0xA8FD, 0xA8FE), (0xA90A, 0xA925), (0xA930, 0xA946), (0xA960, 0xA97C),
  (0xA984, 0xA9B2), (0xA9CF, 0xA9CF), (0xA9E0, 0xA9E4), (0xA9E6, 0xA9EF), (0xA9FA, 0xA9FE), (0xAA00, 0xAA28),
  (0xAA40, 0xAA42), (0xAA44, 0xAA4B), (0xAA60, 0xAA76), (0xAA7A, 0xAA7A), (0xAA7E, 0xAAAF), (0xAAB1, 0xAAB1),
  (0xAAB5, 0xAAB6), (0xAAB9, 0xAABD), (0xAAC0, 0xAAC0), (0xAAC2, 0xAAC2), (0xAADB, 0xAADD), (0xAAE0, 0xAAEA),
  (0xAAF2, 0xAAF4), (0xAB01, 0xAB06), (0xAB09, 0xAB0E), (0xAB11, 0xAB16), (0xAB20, 0xAB26), (0xAB28, 0xAB2E),
  (0xAB30, 0xAB5A), (0xAB5C, 0xAB69), (0xAB70, 0xABE2), (0xAC00, 0xD7A3), (0xD7B0, 0xD7C6), (0xD7CB, 0xD7FB),
  (0xF900, 0xFA6D), (0xFA70, 0xFAD9), (0xFB00, 0xFB06), (0xFB13, 0xFB17), (0xFB1D, 0xFB1D), (0xFB1F, 0xFB28),
  (0xFB2A, 0xFB36), (0xFB38, 0xFB3C), (0xFB3E, 0xFB3E), (0xFB40, 0xFB41), (0xFB43, 0xFB44), (0xFB46, 0xFBB1),
  (0xFBD3, 0xFD3D), (0xFD50, 0xFD8F), (0xFD92, 0xFDC7), (0xFDF0, 0xFDFB), (0xFE70, 0xFE74), (0xFE76, 0xFEFC),
  (0xFF21, 0xFF3A), (0xFF41, 0xFF5A), (0xFF66, 0xFFBE), (0xFFC2, 0xFFC7), (0xFFCA, 0xFFCF), (0xFFD2, 0xFFD7),
  (0xFFDA, 0xFFDC), (0x10000, 0x1000B), (0x1000D, 0x10026), (0x10028, 0x1003A), (0x1003C, 0x1003D), (0x1003F, 0x1004D),
  (0x10050, 0x1005D), (0x10080, 0x100FA), (0x10280, 0x1029C), (0x102A0, 0x102D0), (0x10300, 0x1031F), (0x1032D, 0x10340),
  (0x10342, 0x10349), (0x10350, 0x10375), (0x10380, 0x1039D), (0x103A0, 0x103C3), (0x103C8, 0x103CF), (0x10400, 0x1049D),
  (0x104B0, 0x104D3), (0x104D8, 0x104FB), (0x10500, 0x10527), (0x10530, 0x10563), (0x10570, 0x1057A), (0x1057C, 0x1058A),
  (0x1058C, 0x10592), (0x10594, 0x10595), (0x10597, 0x105A1), (0x105A3, 0x105B1), (0x105B3, 0x105B9), (0x105BB, 0x105BC),
  (0x10600, 0x10736), (0x10740, 0x10755), (0x10760, 0x10767), (0x10780, 0x10785), (0x10787, 0x107B0), (0x107B2, 0x107BA),
  (0x10800, 0x10805), (0x10808, 0x10808), (0x1080A, 0x10835), (0x10837, 0x10838), (0x1083C, 0x1083C), (0x1083F, 0x10855),
  (0x10860, 0x10876), (0x10880, 0x1089E), (0x108E0, 0x108F2), (0x108F4, 0x108F5), (0x10900, 0x10915), (0x10920, 0x10939),
  (0x10980, 0x109B7), (0x109BE, 0x109BF), (0x10A00, 0x10A00), (0x10A10, 0x10A13), (0x10A15, 0x10A17), (0x10A19, 0x10A35),
  (0x10A60, 0x10A7C), (0x10A80, 0x10A9C), (0x10AC0, 0x10AC7), (0x10AC9, 0x10AE4), (0x10B00, 0x10B35), (0x10B40, 0x10B55),
  (0x10B60, 0x10B72), (0x10B80, 0x10B91), (0x10C00, 0x10C48), (0x10C80, 0x10CB2), (0x10CC0, 0x10CF2), (0x10D00, 0x10D23),
  (0x10E80, 0x10EA9), (0x10EB0, 0x10EB1), (0x10F00, 0x10F1C), (0x10F27, 0x10F27), (0x10F30, 0x10F45), (0x10F70, 0x10F81),
  (0x10FB0, 0x10FC4), (0x10FE0, 0x10FF6), (0x11003, 0x11037), (0x11071, 0x11072), (0x11075, 0x11075), (0x11083, 0x110AF),
  (0x110D0, 0x110E8), (0x11103, 0x11126), (0x11144, 0x11144), (0x11147, 0x11147), (0x11150, 0x11172), (0x11176, 0x11176),
  (0x11183, 0x111B2), (0x111C1, 0x111C4), (0x111DA, 0x111DA), (0x111DC, 0x111DC), (0x11200, 0x11211), (0x11213, 0x1122B),
  (0x1123F, 0x11240), (0x11280, 0x11286), (0x11288, 0x11288), (0x1128A, 0x1128D), (0x1128F, 0x1129D), (0x1129F, 0x112A8),
  (0x112B0, 0x112DE), (0x11305, 0x1130C), (0x1130F, 0x11310), (0x11313, 0x11328), (0x1132A, 0x11330), (0x11332, 0x11333),
  (0x11335, 0x11339), (0x1133D, 0x1133D), (0x11350, 0x11350), (0x1135D, 0x11361), (0x11400, 0x11434), (0x11447, 0x1144A),
  (0x1145F, 0x11461), (0x11480, 0x114AF), (0x114C4, 0x114C5), (0x114C7, 0x114C7), (0x11580, 0x115AE), (0x115D8, 0x115DB),
  (0x11600, 0x1162F), (0x11644, 0x11644), (0x11680, 0x116AA), (0x116B8, 0x116B8), (0x11700, 0x1171A), (0x11740, 0x11746),
  (0x11800, 0x1182B), (0x118A0, 0x118DF), (0x118FF, 0x11906), (0x11909, 0x11909), (0x1190C, 0x11913), (0x11915, 0x11916),
  (0x11918, 0x1192F), (0x1193F, 0x1193F), (0x11941, 0x11941), (0x119A0, 0x119A7), (0x119AA, 0x119D0), (0x119E1, 0x119E1),
  (0x119E3, 0x119E3), (0x11A00, 0x11A00), (0x11A0B, 0x11A32), (0x11A3A, 0x11A3A), (0x11A50, 0x11A50), (0x11A5C, 0x11A89),
  (0x11A9D, 0x11A9D), (0x11AB0, 0x11AF8), (0x11C00, 0x11C08), (0x11C0A, 0x11C2E), (0x11C40, 0x11C40), (0x11C72, 0x11C8F),
  (0x11D00, 0x11D06), (0x11D08, 0x11D09), (0x11D0B, 0x11D30), (0x11D46, 0x11D46), (0x11D60, 0x11D65), (0x11D67, 0x11D68),
  (0x11D6A, 0x11D89), (0x11D98, 0x11D98), (0x11EE0, 0x11EF2), (0x11F02, 0x11F02), (0x11F04, 0x11F10), (0x11F12, 0x11F33),
  (0x11FB0, 0x11FB0), (0x12000, 0x12399), (0x12480, 0x12543), (0x12F90, 0x12FF0), (0x13000, 0x1342F), (0x13441, 0x13446),
  (0x14400, 0x14646), (0x16800, 0x16A38), (0x16A40, 0x16A5E), (0x16A70, 0x16ABE), (0x16AD0, 0x16AED), (0x16B00, 0x16B2F),
  (0x16B40, 0x16B43), (0x16B63, 0x16B77), (0x16B7D, 0x16B8F), (0x16E40, 0x16E7F), (0x16F00, 0x16F4A), (0x16F50, 0x16F50),
  (0x16F93, 0x16F9F), (0x16FE0, 0x16FE1), (0x16FE3, 0x16FE3), (0x17000, 0x187F7), (0x18800, 0x18CD5), (0x18D00, 0x18D08),
  (0x1AFF0, 0x1AFF3), (0x1AFF5, 0x1AFFB), (0x1AFFD, 0x1AFFE), (0x1B000, 0x1B122), (0x1B132, 0x1B132), (0x1B150, 0x1B152),
  (0x1B155, 0x1B155), (0x1B164, 0x1B167), (0x1B170, 0x1B2FB), (0x1BC00, 0x1BC6A), (0x1BC70, 0x1BC7C), (0x1BC80, 0x1BC88),
  (0x1BC90, 0x1BC99), (0x1D400, 0x1D454), (0x1D456, 0x1D49C), (0x1D49E, 0x1D49F), (0x1D4A2, 0x1D4A2), (0x1D4A5, 0x1D4A6),
  (0x1D4A9, 0x1D4AC), (0x1D4AE, 0x1D4B9), (0x1D4BB, 0x1D4BB), (0x1D4BD, 0x1D4C3), (0x1D4C5, 0x1D505), (0x1D507, 0x1D50A),
  (0x1D50D, 0x1D514), (0x1D516, 0x1D51C), (0x1D51E, 0x1D539), (0x1D53B, 0x1D53E), (0x1D540, 0x1D544), (0x1D546, 0x1D546),
  (0x1D54A, 0x1D550), (0x1D552, 0x1D6A5), (0x1D6A8, 0x1D6C0), (0x1D6C2, 0x1D6DA), (0x1D6DC, 0x1D6FA), (0x1D6FC, 0x1D714),
  (0x1D716, 0x1D734), (0x1D736, 0x1D74E), (0x1D750, 0x1D76E), (0x1D770, 0x1D788), (0x1D78A, 0x1D7A8), (0x1D7AA, 0x1D7C2),
  (0x1D7C4, 0x1D7CB), (0x1DF00, 0x1DF1E), (0x1DF25, 0x1DF2A), (0x1E030, 0x1E06D), (0x1E100, 0x1E12C), (0x1E137, 0x1E13D),
  (0x1E14E, 0x1E14E), (0x1E290, 0x1E2AD), (0x1E2C0, 0x1E2EB), (0x1E4D0, 0x1E4EB), (0x1E7E0, 0x1E7E6), (0x1E7E8, 0x1E7EB),
  (0x1E7ED, 0x1E7EE), (0x1E7F0, 0x1E7FE), (0x1E800, 0x1E8C4), (0x1E900, 0x1E943), (0x1E94B, 0x1E94B), (0x1EE00, 0x1EE03),
  (0x1EE05, 0x1EE1F), (0x1EE21, 0x1EE22), (0x1EE24, 0x1EE24), (0x1EE27, 0x1EE27), (0x1EE29, 0x1EE32), (0x1EE34, 0x1EE37),
  (0x1EE39, 0x1EE39), (0x1EE3B, 0x1EE3B), (0x1EE42, 0x1EE42), (0x1EE47, 0x1EE47), (0x1EE49, 0x1EE49), (0x1EE4B, 0x1EE4B),
  (0x1EE4D, 0x1EE4F), (0x1EE51, 0x1EE52), (0x1EE54, 0x1EE54), (0x1EE57, 0x1EE57), (0x1EE59, 0x1EE59), (0x1EE5B, 0x1EE5B),
  (0x1EE5D, 0x1EE5D), (0x1EE5F, 0x1EE5F), (0x1EE61, 0x1EE62), (0x1EE64, 0x1EE64), (0x1EE67, 0x1EE6A), (0x1EE6C, 0x1EE72),
  (0x1EE74, 0x1EE77), (0x1EE79, 0x1EE7C), (0x1EE7E, 0x1EE7E), (0x1EE80, 0x1EE89), (0x1EE8B, 0x1EE9B), (0x1EEA1, 0x1EEA3),
  (0x1EEA5, 0x1EEA9), (0x1EEAB, 0x1EEBB), (0x20000, 0x2A6DF), (0x2A700, 0x2B739), (0x2B740, 0x2B81D), (0x2B820, 0x2CEA1),
  (0x2CEB0, 0x2EBE0), (0x2F800, 0x2FA1D), (0x30000, 0x3134A), (0x31350, 0x323AF)]

/-- Table `unicode.Number` above Latin-1: the code point ranges of general category N
(Nd, Nl, No) of the Unicode Character Database 15.0.0. -/
def unicode.Number : List (Nat × Nat) := [
  (0x660, 0x669), (0x6F0, 0x6F9), (0x7C0, 0x7C9), (0x966, 0x96F), (0x9E6, 0x9EF), (0x9F4, 0x9F9),
  (0xA66, 0xA6F), (0xAE6, 0xAEF), (0xB66, 0xB6F), (0xB72, 0xB77), (0xBE6, 0xBF2), (0xC66, 0xC6F),
  (0xC78, 0xC7E), (0xCE6, 0xCEF), (0xD58, 0xD5E), (0xD66, 0xD78), (0xDE6, 0xDEF), (0xE50, 0xE59),
  (0xED0, 0xED9), (0xF20, 0xF33), (0x1040, 0x1049), (0x1090, 0x1099), (0x1369, 0x137C), (0x16EE, 0x16F0),
  (0x17E0, 0x17E9), (0x17F0, 0x17F9), (0x1810, 0x1819), (0x1946, 0x194F), (0x19D0, 0x19DA), (0x1A80, 0x1A89),
  (0x1A90, 0x1A99), (0x1B50, 0x1B59), (0x1BB0, 0x1BB9), (0x1C40, 0x1C49), (0x1C50, 0x1C59), (0x2070, 0x2070),
  (0x2074, 0x2079), (0x2080, 0x2089), (0x2150, 0x2182), (0x2185, 0x2189), (0x2460, 0x249B), (0x24EA, 0x24FF),
  (0x2776, 0x2793), (0x2CFD, 0x2CFD), (0x3007, 0x3007), (0x3021, 0x3029), (0x3038, 0x303A), (0x3192, 0x3195),
  (0x3220, 0x3229), (0x3248, 0x324F), (0x3251, 0x325F), (0x3280, 0x3289), (0x32B1, 0x32BF), (0xA620, 0xA629),
  (0xA6E6, 0xA6EF), (0xA830, 0xA835), (0xA8D0, 0xA8D9), (0xA900, 0xA909), (0xA9D0, 0xA9D9), (0xA9F0, 0xA9F9),
  (0xAA50, 0xAA59), (0xABF0, 0xABF9), (0xFF10, 0xFF19), (0x10107, 0x10133), (0x10140, 0x10178), (0x1018A, 0x1018B),
  (0x102E1, 0x102FB), (0x10320, 0x10323), (0x10341, 0x10341), (0x1034A, 0x1034A), (0x103D1, 0x103D5), (0x104A0, 0x104A9),
  (0x10858, 0x1085F), (0x10879, 0x1087F), (0x108A7, 0x108AF), (0x108FB, 0x108FF), (0x10916, 0x1091B), (0x109BC, 0x109BD),
  (0x109C0, 0x109CF), (0x109D2, 0x109FF), (0x10A40, 0x10A48), (0x10A7D, 0x10A7E), (0x10A9D, 0x10A9F), (0x10AEB, 0x10AEF),
  (0x10B58, 0x10B5F), (0x10B78, 0x10B7F), (0x10BA9, 0x10BAF), (0x10CFA, 0x10CFF), (0x10D30, 0x10D39), (0x10E60, 0x10E7E),
  (0x10F1D, 0x10F26), (0x10F51, 0x10F54), (0x10FC5, 0x10FCB), (0x11052, 0x1106F), (0x110F0, 0x110F9), (0x11136, 0x1113F),
  (0x111D0, 0x111D9), (0x111E1, 0x111F4), (0x112F0, 0x112F9), (0x11450, 0x11459), (0x114D0, 0x114D9), (0x11650, 0x11659),
  (0x116C0, 0x116C9), (0x11730, 0x1173B), (0x118E0, 0x118F2), (0x11950, 0x11959), (0x11C50, 0x11C6C), (0x11D50, 0x11D59),
  (0x11DA0, 0x11DA9), (0x11F50, 0x11F59), (0x11FC0, 0x11FD4), (0x12400, 0x1246E), (0x16A60, 0x16A69), (0x16AC0, 0x16AC9),
  (0x16B50, 0x16B59), (0x16B5B, 0x16B61), (0x16E80, 0x16E96), (0x1D2C0, 0x1D2D3), (0x1D2E0, 0x1D2F3), (0x1D360, 0x1D378),
  (0x1D7CE, 0x1D7FF), (0x1E140, 0x1E149), (0x1E2F0, 0x1E2F9), (0x1E4F0, 0x1E4F9), (0x1E8C7, 0x1E8CF), (0x1E950, 0x1E959),
  (0x1EC71, 0x1ECAB), (0x1ECAD, 0x1ECAF), (0x1ECB1, 0x1ECB4), (0x1ED01, 0x1ED2D), (0x1ED2F, 0x1ED3D), (0x1F100, 0x1F10C),
  (0x1FBF0, 0x1FBF9)]

/-- Table `unicode.Digit` above Latin-1: the code point ranges of general category Nd
(decimal digits) of the Unicode Character Database 15.0.0. -/
def unicode.Digit : List (Nat × Nat) := [
  (0x660, 0x669), (0x6F0, 0x6F9), (0x7C0, 0x7C9), (0x966, 0x96F), (0x9E6, 0x9EF), (0xA66, 0xA6F),
  (0xAE6, 0xAEF), (0xB66, 0xB6F), (0xBE6, 0xBEF), (0xC66, 0xC6F), (0xCE6, 0xCEF), (0xD66, 0xD6F),
  (0xDE6, 0xDEF), (0xE50, 0xE59), (0xED0, 0xED9), (0xF20, 0xF29), (0x1040, 0x1049), (0x1090, 0x1099),
  (0x17E0, 0x17E9), (0x1810, 0x1819), (0x1946, 0x194F), (0x19D0, 0x19D9), (0x1A80, 0x1A89), (0x1A90, 0x1A99),
  (0x1B50, 0x1B59), (0x1BB0, 0x1BB9), (0x1C40, 0x1C49), (0x1C50, 0x1C59), (0xA620, 0xA629), (0xA8D0, 0xA8D9),
  (0xA900, 0xA909), (0xA9D0, 0xA9D9), (0xA9F0, 0xA9F9), (0xAA50, 0xAA59), (0xABF0, 0xABF9), (0xFF10, 0xFF19),
  (0x104A0, 0x104A9), (0x10D30, 0x10D39), (0x11066, 0x1106F), (0x110F0, 0x110F9), (0x11136, 0x1113F), (0x111D0, 0x111D9),
  (0x112F0, 0x112F9), (0x11450, 0x11459), (0x114D0, 0x114D9), (0x11650, 0x11659), (0x116C0, 0x116C9), (0x11730, 0x11739),
  (0x118E0, 0x118E9), (0x11950, 0x11959), (0x11C50, 0x11C59), (0x11D50, 0x11D59), (0x11DA0, 0x11DA9), (0x11F50, 0x11F59),
  (0x16A60, 0x16A69), (0x16AC0, 0x16AC9), (0x16B50, 0x16B59), (0x1D7CE, 0x1D7FF), (0x1E140, 0x1E149), (0x1E2F0, 0x1E2F9),
  (0x1E4F0, 0x1E4F9), (0x1E950, 0x1E959), (0x1FBF0, 0x1FBF9)]

/-- Membership of a code point in a range table (`unicode.Is` on a `RangeTable`). -/
def unicode.inTable (t : List (Nat × Nat)) (r : Nat) : Bool :=
  t.any (fun rg => decide (rg.1 ≤ r) && decide (r ≤ rg.2))

/-- Latin-1 code points whose `properties` entry has a letter bit (`pLmask`). -/
def unicode.latin1Letter (r : Nat) : Bool :=
  (decide (0x41 ≤ r) && decide (r ≤ 0x5A)) || (decide (0x61 ≤ r) && decide (r ≤ 0x7A)) ||
  decide (r = 0xAA) || decide (r = 0xB5) || decide (r = 0xBA) ||
  (decide (0xC0 ≤ r) && decide (r ≤ 0xD6)) || (decide (0xD8 ≤ r) && decide (r ≤ 0xF6)) ||
  (decide (0xF8 ≤ r) && decide (r ≤ 0xFF))

/-- Latin-1 code points whose `properties` entry has the number bit (`pN`):
the digits 0-9, superscripts ² ³ ¹ and the fractions ¼ ½ ¾. -/
def unicode.latin1Number (r : Nat) : Bool :=
  (decide (0x30 ≤ r) && decide (r ≤ 0x39)) || decide (r = 0xB2) || decide (r = 0xB3) ||
  decide (r = 0xB9) || (decide (0xBC ≤ r) && decide (r ≤ 0xBE))

/-- Go `unicode.IsLetter`: the rune is in category L. -/
def unicode.IsLetter (r : Char) : Bool :=
  if r.toNat ≤ 0xFF then unicode.latin1Letter r.toNat else unicode.inTable unicode.Letter r.toNat

/-- Go `unicode.IsNumber`: the rune is in category N (decimal digits, letter numbers such as
Roman numerals, and other numbers such as fractions and superscripts). -/
def unicode.IsNumber (r : Char) : Bool :=
  if r.toNat ≤ 0xFF then unicode.latin1Number r.toNat else unicode.inTable unicode.Number r.toNat

/-- Go `unicode.IsDigit`: the rune is a decimal digit (category Nd).  Not called by
`main.go`; it is the reading of "digit" that `countAlphanumeric` is compared with. -/
def unicode.IsDigit (r : Char) : Bool :=
  if r.toNat ≤ 0xFF then decide (0x30 ≤ r.toNat) && decide (r.toNat ≤ 0x39)
  else unicode.inTable unicode.Digit r.toNat

/-- Go `unicode.IsSpace`: in Latin-1 the runes `\t \n \v \f \r`, space, U+0085 and U+00A0;
above it the `White_Space` property. -/
def unicode.IsSpace (r : Char) : Bool :=
  let n := r.toNat
  if n ≤ 0xFF then
    (decide (0x09 ≤ n) && decide (n ≤ 0x0D)) || decide (n = 0x20) || decide (n = 0x85) ||
    decide (n = 0xA0)
  else
    decide (n = 0x1680) || (decide (0x2000 ≤ n) && decide (n ≤ 0x200A)) ||
    decide (n = 0x2028) || decide (n = 0x2029) || decide (n = 0x202F) || decide (n = 0x205F) ||
    decide (n = 0x3000)

/-! ## Package `strings` and built-ins on strings -/

/-- Go `len(s)` for a string: its length in UTF-8 bytes. -/
def len (s : List Char) : Nat := (s.map Char.utf8Size).sum

/-- Go `strings.TrimSpace`: drop leading and trailing runes satisfying `unicode.IsSpace`. -/
def strings.TrimSpace (s : List Char) : List Char :=
  ((s.dropWhile unicode.IsSpace).reverse.dropWhile unicode.IsSpace).reverse

/-- Go `strings.Split(s, sep)` for a one-byte separator: the pieces of `s` between
consecutive occurrences of `sep` (one more piece than there are occurrences). -/
def strings.Split (sep : Char) : List Char → List (List Char)
  | [] => [[]]
  | c :: cs =>
    if c = sep then [] :: strings.Split sep cs
    else
      match strings.Split sep cs with
      | [] => [[c]]
      | p :: ps => (c :: p) :: ps

/-! ## `float64` -/

/-- IEEE-754 binary64 value.  `fin neg m e` is the finite number `(-1)^neg * m * 2^e`, kept
in the canonical form of the format: `2^52 ≤ m < 2^53` with `-1074 ≤ e ≤ 971`, or
`m < 2^52` with `e = -1074` (subnormals and the two zeros). -/
inductive Float64 where
  | nan : Float64
  | inf (neg : Bool) : Float64
  | fin (neg : Bool) (m : Nat) (e : Int) : Float64
deriving DecidableEq, Repr

namespace Float64

/-- Numerator and denominator of `n / (d * 2^e)` as natural numbers. -/
def scaled (n d : Nat) (e : Int) : Nat × Nat :=
  if 0 ≤ e then (n, d * 2 ^ e.toNat) else (n * 2 ^ (-e).toNat, d)

/-- Number of binary digits of `n`, by halving at most `fuel` times. -/
def bitLenAux : Nat → Nat → Nat
  | 0, _ => 0
  | fuel + 1, n => if n = 0 then 0 else bitLenAux fuel (n / 2) + 1

/-- Number of binary digits of `n`: `0` for `0`, and `k` when `2^(k-1) ≤ n < 2^k`. -/
def bitLen (n : Nat) : Nat := bitLenAux n n

/-- Binary exponent of the unit in the last place for the positive rational `n / d`: the `e`
with `2^52 ≤ n / (d * 2^e) < 2^53`, but not below the subnormal exponent `-1074`. -/
def ulpExp (n d : Nat) : Int :=
  let e1 : Int := (bitLen n : Int) - (bitLen d : Int) - 52
  let s := scaled n d e1
  let e := if s.1 / s.2 < 2 ^ 52 then e1 - 1 else e1
  max e (-1074)

/-- Rounding of the rational `(-1)^neg * n / d` (`d > 0`) to binary64: nearest value, ties to
the even significand; `inf` when the rounded magnitude is `2^1024` or more. -/
def round (neg : Bool) (n d : Nat) : Float64 :=
  if n = 0 then fin neg 0 (-1074)
  else
    let e := ulpExp n d
    let s := scaled n d e
    let q := s.1 / s.2
    let r := s.1 % s.2
    let q1 := if 2 * r < s.2 then q else if 2 * r = s.2 ∧ q % 2 = 0 then q else q + 1
    let m := if q1 = 2 ^ 53 then 2 ^ 52 else q1
    let e1 := if q1 = 2 ^ 53 then e + 1 else e
    if 971 < e1 then inf neg else fin neg m e1

/-- Binary64 value nearest to the dyadic number `(-1)^neg * m * 2^e` (exact when that
number is representable). -/
def ofDyadic (neg : Bool) (m : Nat) (e : Int) : Float64 :=
  let s := scaled m 1 (-e)
  round neg s.1 s.2

/-- Comparison `x == 0` on float64: true for both zeros, false for NaN. -/
def isZero : Float64 → Bool
  | fin _ m _ => decide (m = 0)
  | _ => false

/-- Product `x * y` on float64: the exact product rounded once. -/
def mul : Float64 → Float64 → Float64
  | nan, _ => nan
  | _, nan => nan
  | inf s, inf t => inf (xor s t)
  | inf s, fin t k _ => if k = 0 then nan else inf (xor s t)
  | fin s m _, inf t => if m = 0 then nan else inf (xor s t)
  | fin s m e, fin t k f => ofDyadic (xor s t) (m * k) (e + f)

/-- Conversion `int(x)` of a float64: truncation toward zero.  When the truncated value is
outside the `int` range, or `x` is NaN or infinite, Go leaves the result to the
implementation; the amd64 result (the minimum `int`) is taken. -/
def toInt : Float64 → Int
  | fin s m e =>
    let mag : Nat := if 0 ≤ e then m * 2 ^ e.toNat else m / 2 ^ (-e).toNat
    let v : Int := if s then -(mag : Int) else (mag : Int)
    if -2 ^ 63 ≤ v ∧ v < 2 ^ 63 then v else -2 ^ 63
  | _ => -2 ^ 63

end Float64

/-! ## Package `math` -/

/-- Go `math.Mod(x, y)`: the floating-point remainder of `x / y`, exact, with the sign of
`x`; NaN when `x` is infinite or NaN, or `y` is zero or NaN; `x` when `y` is infinite. -/
def math.Mod : Float64 → Float64 → Float64
  | .nan, _ => .nan
  | .inf _, _ => .nan
  | _, .nan => .nan
  | .fin s m e, .inf _ => .fin s m e
  | .fin s m e, .fin _ k f =>
    if k = 0 then .nan
    else
      let c := min e f
      Float64.ofDyadic s ((m * 2 ^ (e - c).toNat) % (k * 2 ^ (f - c).toNat)) c

/-- Go `math.Ceil(x)`: the least integer value greater than or equal to `x`;
`Ceil(±0) = ±0`, `Ceil(±Inf) = ±Inf`, `Ceil(NaN) = NaN`. -/
def math.Ceil : Float64 → Float64
  | .nan => .nan
  | .inf s => .inf s
  | .fin s m e =>
    if 0 ≤ e then .fin s m e
    else
      let d := 2 ^ (-e).toNat
      let q := m / d
      Float64.ofDyadic s (if s then q else if m % d = 0 then q else q + 1) 0

/-- Go `math.Ldexp(frac, exp)`: `frac * 2^exp`.  The exponent arithmetic is on `int`, so the
sum of `exp` and the binary exponent of `frac` wraps; below `-1075` the result is a zero,
above `1023` an infinity, otherwise the scaled value rounded once. -/
def math.Ldexp : Float64 → Int → Float64
  | .nan, _ => .nan
  | .inf s, _ => .inf s
  | .fin s m e, exp =>
    if m = 0 then .fin s m e
    else
      let ex := wrapInt (exp + ((Float64.bitLen m : Int) - 1 + e))
      if ex < -1075 then .fin s 0 (-1074)
      else if 1023 < ex then .inf s
      else Float64.ofDyadic s m (ex - ((Float64.bitLen m : Int) - 1))

/-! ## Package `strconv` -/

/-- Value of a decimal digit character. -/
def strconv.digitVal (c : Char) : Nat := c.toNat - 48

/-- Value of a hexadecimal letter `a`-`f` or `A`-`F`, if `c` is one. -/
def strconv.hexVal (c : Char) : Option Nat :=
  if 'a' ≤ c ∧ c ≤ 'f' then some (c.toNat - 87)
  else if 'A' ≤ c ∧ c ≤ 'F' then some (c.toNat - 55)
  else none

/-- Go `commonPrefixLenIgnoreCase(s, pre)`: length of the longest common start of `s`,
with ASCII capitals lowered, and the lower-case `pre`. -/
def strconv.commonPrefixLenIgnoreCase : List Char → List Char → Nat
  | c :: s, p :: pre => if c.toLower = p then strconv.commonPrefixLenIgnoreCase s pre + 1 else 0
  | _, _ => 0

/-- Go `special(s)`: the value and the number of bytes used when `s` starts with a possibly
signed "inf" or "infinity", or with "nan", in any case. -/
def strconv.special (s : List Char) : Option (Float64 × Nat) :=
  match s with
  | [] => none
  | c :: rest =>
    if c = '+' ∨ c = '-' ∨ c = 'i' ∨ c = 'I' then
      let signed := decide (c = '+' ∨ c = '-')
      let body := if signed then rest else s
      let n0 := strconv.commonPrefixLenIgnoreCase body "infinity".data
      let n := if 3 < n0 ∧ n0 < 8 then 3 else n0
      if n = 3 ∨ n = 8 then some (Float64.inf (decide (c = '-')), (if signed then 1 else 0) + n)
      else none
    else if c = 'n' ∨ c = 'N' then
      if strconv.commonPrefixLenIgnoreCase s "nan".data = 3 then some (Float64.nan, 3) else none
    else none

/-- State of the mantissa loop of `readFloat`: the digits read so far as a number, how many
of them came after the point, and whether a point and a digit were seen. -/
structure strconv.Mantissa where
  mant : Nat
  frac : Nat
  sawdot : Bool
  sawdigits : Bool
deriving DecidableEq, Repr

/-- Append one digit of value `v` to the mantissa. -/
def strconv.Mantissa.push (st : strconv.Mantissa) (base v : Nat) : strconv.Mantissa :=
  { st with mant := st.mant * base + v, sawdigits := true,
            frac := if st.sawdot then st.frac + 1 else st.frac }

/-- Mantissa loop of `readFloat`: underscores are skipped, one point is allowed, digits of
the base are accumulated; stops at the first other byte and returns what is left. -/
def strconv.readMantissa (base : Nat) : strconv.Mantissa → List Char → strconv.Mantissa × List Char
  | st, [] => (st, [])
  | st, c :: cs =>
    if c = '_' then strconv.readMantissa base st cs
    else if c = '.' then
      if st.sawdot then (st, c :: cs)
      else strconv.readMantissa base { st with sawdot := true } cs
    else if c.isDigit then strconv.readMantissa base (st.push base (strconv.digitVal c)) cs
    else
      match (if base = 16 then strconv.hexVal c else none) with
      | some v => strconv.readMantissa base (st.push base v) cs
      | none => (st, c :: cs)

/-- Exponent loop of `readFloat`: decimal digits and underscores; the value saturates
(`if e < 10000 then e = e*10 + digit`). -/
def strconv.readExponent : Nat → List Char → Nat × List Char
  | e, [] => (e, [])
  | e, c :: cs =>
    if c = '_' then strconv.readExponent e cs
    else if c.isDigit then
      strconv.readExponent (if e < 10000 then e * 10 + strconv.digitVal c else e) cs
    else (e, c :: cs)

/-- Scan of `underscoreOK`: `saw` is the class of the last byte, `0` for a digit or base
marker, `1` for an underscore, `2` for the start of the number, `3` for anything else. -/
def strconv.underscoreScan (hex : Bool) : Nat → List Char → Bool
  | saw, [] => decide (saw ≠ 1)
  | saw, c :: cs =>
    if c.isDigit ∨ (hex = true ∧ (strconv.hexVal c).isSome) then strconv.underscoreScan hex 0 cs
    else if c = '_' then
      if saw ≠ 0 then false else strconv.underscoreScan hex 1 cs
    else if saw = 1 then false
    else strconv.underscoreScan hex 3 cs

/-- Go `underscoreOK(s)`: underscores appear only between digits or between a base marker
and a digit.  True for every string without an underscore. -/
def strconv.underscoreOK (s : List Char) : Bool :=
  let s1 := match s with
    | '-' :: r => r
    | '+' :: r => r
    | _ => s
  match s1 with
  | '0' :: b :: r =>
    if b.toLower = 'b' ∨ b.toLower = 'o' ∨ b.toLower = 'x' then
      strconv.underscoreScan (decide (b.toLower = 'x')) 0 r
    else strconv.underscoreScan false 2 s1
  | _ => strconv.underscoreScan false 2 s1

/-- Final step of `atof64`: the number `(-1)^neg * mant * base^ex` (with `base^ex = 2^ex` for
a hexadecimal mantissa, `10^ex` otherwise) rounded to binary64; a range error (`none`) when
the rounded value is infinite. -/
def strconv.atofValue (neg hex : Bool) (mant : Nat) (ex : Int) : Option Float64 :=
  let f := if hex then Float64.ofDyadic neg mant ex
    else if 0 ≤ ex then Float64.round neg (mant * 10 ^ ex.toNat) 1
    else Float64.round neg mant (10 ^ (-ex).toNat)
  match f with
  | .fin s m e => some (.fin s m e)
  | _ => none

/-- Go `strconv.ParseFloat(s, 64)`: `some f` for the correctly rounded value of a
well-formed decimal or hexadecimal floating-point text or of a special name, `none`
when Go returns an error (syntax error, or range error on overflow). -/
def strconv.ParseFloat (s : List Char) : Option Float64 :=
  match strconv.special s with
  | some (f, n) => if n = s.length then some f else none
  | none =>
    let neg := decide (s.head? = some '-')
    let s1 := if s.head? = some '+' ∨ s.head? = some '-' then s.tail else s
    let hex := decide (2 < s1.length ∧ s1.head? = some '0' ∧
      (s1.tail.head? = some 'x' ∨ s1.tail.head? = some 'X'))
    let r := strconv.readMantissa (if hex then 16 else 10) ⟨0, 0, false, false⟩
      (if hex then s1.drop 2 else s1)
    let scale : Int := if hex then 4 * (r.1.frac : Int) else (r.1.frac : Int)
    if r.1.sawdigits = false then none
    else
      match r.2 with
      | [] =>
        if hex = false ∧ strconv.underscoreOK s = true then
          strconv.atofValue neg hex r.1.mant (- scale)
        else none
      | c :: s3 =>
        if (hex = false ∧ (c = 'e' ∨ c = 'E')) ∨ (hex = true ∧ (c = 'p' ∨ c = 'P')) then
          let eneg := decide (s3.head? = some '-')
          let s4 := if s3.head? = some '+' ∨ s3.head? = some '-' then s3.tail else s3
          match s4 with
          | [] => none
          | d :: _ =>
            if d.isDigit then
              let x := strconv.readExponent 0 s4
              if x.2 = [] ∧ strconv.underscoreOK s = true then
                strconv.atofValue neg hex r.1.mant
                  ((if eneg then - (x.1 : Int) else (x.1 : Int)) - scale)
              else none
            else none
        else none

/-- Go `strconv.Atoi(s)`: an optional sign and one or more decimal digits, with a value in
the `int` range; `none` when Go returns an error. -/
def strconv.Atoi (s : List Char) : Option Int :=
  let neg := decide (s.head? = some '-')
  let ds := if s.head? = some '+' ∨ s.head? = some '-' then s.tail else s
  if ds = [] ∨ ds.all Char.isDigit = false then none
  else
    let n : Nat := ds.foldl (fun a c => a * 10 + strconv.digitVal c) 0
    let v : Int := if neg then - (n : Int) else (n : Int)
    if - 2 ^ 63 ≤ v ∧ v < 2 ^ 63 then some v else none

/-! ## Package `fmt`: `Sscanf` with the verb `%f` -/

/-- Go `fmt.isSpace`: the space table of the scanner (the same runes as `unicode.IsSpace`). -/
def fmt.isSpace (r : Char) : Bool := unicode.IsSpace r

/-- Go `(*ss).SkipSpace` as `Sscanf` runs it (newlines are not spaces): skips spaces, and a
carriage return standing before a newline; a newline is the error "unexpected newline"
(`none`). -/
def fmt.SkipSpace : List Char → Option (List Char)
  | [] => some []
  | r :: rest =>
    if r = '\r' ∧ rest.head? = some '\n' then fmt.SkipSpace rest
    else if r = '\n' then none
    else if fmt.isSpace r then fmt.SkipSpace rest
    else some (r :: rest)

/-- Go `(*ss).accept(ok)` on the pair of the token buffer and the unread input: when the next
rune is in `ok` it moves to the buffer. -/
def fmt.accept (ok : List Char) (st : List Char × List Char) : Bool × (List Char × List Char) :=
  match st.2 with
  | [] => (false, st)
  | r :: rest => if ok.contains r then (true, (st.1 ++ [r], rest)) else (false, st)

/-- Chain `s.accept(a) && s.accept(b) && ...`: stops at the first refusal, keeping what was
accepted before it in the buffer. -/
def fmt.acceptChain : List (List Char) → List Char × List Char → Bool × (List Char × List Char)
  | [], st => (true, st)
  | ok :: oks, st =>
    match fmt.accept ok st with
    | (true, st1) => fmt.acceptChain oks st1
    | (false, st1) => (false, st1)

/-- Loop `for s.accept(ok) {}`: moves the longest run of runes in `ok` to the buffer. -/
def fmt.acceptLoop (ok : List Char) (st : List Char × List Char) : List Char × List Char :=
  (st.1 ++ st.2.takeWhile ok.contains, st.2.dropWhile ok.contains)

/-- Go `(*ss).floatToken`: the text of a possible floating-point number at the start of the
input (which may be malformed for `ParseFloat`), and the input after it. -/
def fmt.floatToken (input : List Char) : List Char × List Char :=
  let nan := fmt.acceptChain ["nN".data, "aA".data, "nN".data] ([], input)
  if nan.1 then nan.2
  else
    let st2 := (fmt.accept "+-".data nan.2).2
    let inf := fmt.acceptChain ["iI".data, "nN".data, "fF".data] st2
    if inf.1 then inf.2
    else
      let hex := fmt.acceptChain ["0".data, "xX".data] inf.2
      let digits := if hex.1 then "0123456789aAbBcCdDeEfF_".data else "0123456789_".data
      let exp := if hex.1 then "pP".data else "eEpP".data
      let st5 := fmt.acceptLoop digits hex.2
      let dot := fmt.accept ".".data st5
      let st6 := if dot.1 then fmt.acceptLoop digits dot.2 else dot.2
      let ex := fmt.accept exp st6
      if ex.1 then fmt.acceptLoop "0123456789_".data (fmt.accept "+-".data ex.2).2
      else ex.2

/-- Go `(*ss).convertFloat(str, 64)`: `ParseFloat`, except that a decimal mantissa with a
`p` exponent is scaled by `math.Ldexp`; `none` when Go raises a scan error. -/
def fmt.convertFloat (str : List Char) : Option Float64 :=
  if str.contains 'p' ∧ ¬ (str.contains 'x' ∨ str.contains 'X') then
    match strconv.ParseFloat (str.takeWhile (fun c => c ≠ 'p')),
      strconv.Atoi ((str.dropWhile (fun c => c ≠ 'p')).tail) with
    | some f, some m => some (math.Ldexp f m)
    | _, _ => none
  else strconv.ParseFloat str

/-- Go `fmt.Sscanf(str, "%f", &v)` seen as the new value of `v`: leading spaces are skipped,
the float token is converted and stored; on any scan error (newline, end of input, malformed
or out-of-range number) `v` keeps its old value.  Input after the token is ignored. -/
def fmt.Sscanf (str : List Char) (v : Float64) : Float64 :=
  match (fmt.SkipSpace str).bind fmt.SkipSpace with
  | none => v
  | some [] => v
  | some (c :: cs) =>
    match fmt.convertFloat (fmt.floatToken (c :: cs)).1 with
    | some f => f
    | none => v

/-! ## Package `time`: `Parse` with the layouts "2006-01-02" and "15:04" -/

/-- Civil fields of a `time.Time` in UTC, as `Parse` builds it with `Date` from validated
fields (seconds and nanoseconds are zero for both layouts). -/
structure time.Time where
  Year : Nat
  Month : Nat
  Day : Nat
  Hour : Nat
  Minute : Nat
deriving DecidableEq, Repr

/-- Zero value `time.Time{}`: January 1, year 1, 00:00 UTC. -/
def time.zeroTime : time.Time := ⟨1, 1, 1, 0, 0⟩

/-- Go `isLeap`. -/
def time.isLeap (year : Nat) : Bool :=
  decide (year % 4 = 0) && (decide (year % 100 ≠ 0) || decide (year % 400 = 0))

/-- Go `daysBefore`: days in a non-leap year before the end of each month, from index 0. -/
def time.daysBefore : List Nat := [0, 31, 59, 90, 120, 151, 181, 212, 243, 273, 304, 334, 365]

/-- Go `daysIn(m, year)`: number of days of month `m` (1 to 12) in `year`. -/
def time.daysIn (m year : Nat) : Nat :=
  if m = 2 ∧ time.isLeap year = true then 29
  else time.daysBefore.getD m 0 - time.daysBefore.getD (m - 1) 0

/-- Instant of a `Time`, in minutes since 0000-01-01 00:00 UTC (the day count of `Date`:
days of the years before, of the months before, and of the month). -/
def time.Time.instant (t : time.Time) : Nat :=
  let leaps := (t.Year + 3) / 4 - (t.Year + 99) / 100 + (t.Year + 399) / 400
  let days := 365 * t.Year + leaps + time.daysBefore.getD (t.Month - 1) 0 +
    (if time.isLeap t.Year = true ∧ 3 ≤ t.Month then 1 else 0) + (t.Day - 1)
  (days * 24 + t.Hour) * 60 + t.Minute

/-- Go `t.After(u)`: the instant `t` is later than `u`. -/
def time.Time.After (t u : time.Time) : Bool := decide (u.instant < t.instant)

/-- Go `t.Before(u)`: the instant `t` is earlier than `u`. -/
def time.Time.Before (t u : time.Time) : Bool := decide (t.instant < u.instant)

/-- Go `getnum(s, fixed)`: a number of one or two leading digits and the text after it;
with `fixed` two digits are required.  `none` is `errBad`. -/
def time.getnum : List Char → Bool → Option (Nat × List Char)
  | [], _ => none
  | [a], fixed =>
    if a.isDigit then (if fixed then none else some (strconv.digitVal a, [])) else none
  | a :: b :: rest, fixed =>
    if a.isDigit then
      if b.isDigit then some (strconv.digitVal a * 10 + strconv.digitVal b, rest)
      else if fixed then none
      else some (strconv.digitVal a, b :: rest)
    else none

/-- Go `skip(value, sep)` for a separator of one byte that is not a space: `value` must
start with it. -/
def time.skip (value : List Char) (sep : Char) : Option (List Char) :=
  match value with
  | [] => none
  | c :: rest => if c = sep then some rest else none

/-- Go `time.Parse("2006-01-02", value)`: a four-digit year, "-", a two-digit month in 1 to
12, "-", a two-digit day, nothing after it, and the day must exist in that month of that
year.  `none` when `Parse` returns an error.  (The bytes that `Parse` tests are ASCII, so
testing runes decides the same.) -/
def time.ParseDate (value : List Char) : Option time.Time :=
  if value.length < 4 ∨ (value.take 4).all Char.isDigit = false then none
  else
    let year := (value.take 4).foldl (fun a c => a * 10 + strconv.digitVal c) 0
    match (time.skip (value.drop 4) '-').bind (fun v => time.getnum v true) with
    | none => none
    | some (month, v1) =>
      if month = 0 ∨ 12 < month then none
      else
        match (time.skip v1 '-').bind (fun v => time.getnum v true) with
        | none => none
        | some (day, v2) =>
          if v2 ≠ [] then none
          else if day < 1 ∨ time.daysIn month year < day then none
          else some ⟨year, month, day, 0, 0⟩

/-- Go `time.Parse("15:04", value)`: an hour of one or two digits below 24, ":", a two-digit
minute below 60, and nothing after it; the date fields default to January 1 of year 0.
`none` when `Parse` returns an error. -/
def time.ParseClock (value : List Char) : Option time.Time :=
  match time.getnum value false with
  | none => none
  | some (hour, v1) =>
    if 24 ≤ hour then none
    else
      match (time.skip v1 ':').bind (fun v => time.getnum v true) with
      | none => none
      | some (min, v2) =>
        if 60 ≤ min then none
        else if v2 ≠ [] then none
        else some ⟨0, 1, 1, hour, min⟩

/-! ## Points rules (`main.go`) -/

/-- Zero value of a `float64` variable (`var amount float64`). -/
def Float64.zero : Float64 := Float64.fin false 0 (-1074)

/-- Constant `0.25` as a `float64`. -/
def Float64.quarter : Float64 := Float64.round false 25 100

/-- Constant `0.2` as a `float64`: the binary64 value nearest to one fifth. -/
def Float64.fifth : Float64 := Float64.round false 2 10

/-- Go `countAlphanumeric`: number of runes of `s` that `unicode.IsLetter` or
`unicode.IsNumber` accepts.  The count is at most `len(s)`, so `count++` cannot overflow. -/
def countAlphanumeric (s : String) : Int :=
  s.data.foldl (fun count ch =>
    if unicode.IsLetter ch || unicode.IsNumber ch then count + 1 else count) 0

/-- Go `isRoundDollarAmount`: splitting `total` at "." gives two parts and the second is
"00". -/
def isRoundDollarAmount (total : String) : Bool :=
  let parts := strings.Split '.' total.data
  decide (parts.length = 2) && decide (parts.get? 1 = some "00".data)

/-- Go `isMultipleOfQuarter`: scans `total` as a float64 (zero when the scan fails) and
tests `math.Mod(amount, 0.25) == 0`. -/
def isMultipleOfQuarter (total : String) : Bool :=
  let amount := fmt.Sscanf total.data Float64.zero
  (math.Mod amount Float64.quarter).isZero

/-- Go `calculateItemDescriptionPoints`: when the byte length of the trimmed description is
divisible by 3, `int(math.Ceil(price * 0.2))` for the scanned price; otherwise 0. -/
def calculateItemDescriptionPoints (item : Item) : Int :=
  let description := strings.TrimSpace item.ShortDescription.data
  if len description % 3 = 0 then
    let price := fmt.Sscanf item.Price.data Float64.zero
    (math.Ceil (price.mul Float64.fifth)).toInt
  else 0

/-- Go `isPurchaseDateOdd`: the date parses and its day of the month is odd. -/
def isPurchaseDateOdd (dateStr : String) : Bool :=
  match time.ParseDate dateStr.data with
  | none => false
  | some date => decide (date.Day % 2 ≠ 0)

/-- Go `isWithinTimeRange`: the purchase time parses and is after the start and before the
end; a bound that fails to parse is the zero `Time`, its error being discarded. -/
def isWithinTimeRange (timeStr startStr endStr : String) : Bool :=
  match time.ParseClock timeStr.data with
  | none => false
  | some purchaseTime =>
    let startTime := (time.ParseClock startStr.data).getD time.zeroTime
    let endTime := (time.ParseClock endStr.data).getD time.zeroTime
    purchaseTime.After startTime && purchaseTime.Before endTime

/-- Go `calculatePoints`: the running total `points`, each `points += ...` being an `int`
addition. -/
def calculatePoints (receipt : Receipt) : Int :=
  let points : Int := 0
  let points := intAdd points (countAlphanumeric receipt.Retailer)
  let points := if isRoundDollarAmount receipt.Total then intAdd points 50 else points
  let points := if isMultipleOfQuarter receipt.Total then intAdd points 25 else points
  let points := intAdd points (((receipt.Items.length / 2 : Nat) : Int) * 5)
  let points := receipt.Items.foldl
    (fun points item => intAdd points (calculateItemDescriptionPoints item)) points
  let points := if isPurchaseDateOdd receipt.PurchaseDate then intAdd points 6 else points
  let points :=
    if isWithinTimeRange receipt.PurchaseTime "14:00" "16:00" then intAdd points 10 else points
  points

/-! ## Score store and handlers (`main.go`) -/

/-- The package variable `receipts` (`map[string]int`): an association list from identifier
to points. -/
structure Store where
  entries : List (String × Int)
deriving DecidableEq, Repr

/-- Lookup `receipts[id]` with its `found` flag: `none` when `id` is not a key. -/
def Store.get (receipts : Store) (id : String) : Option Int :=
  (receipts.entries.find? (fun e => e.1 = id)).map (fun e => e.2)

/-- Assignment `receipts[id] = points`: the entry of `id`, if any, is replaced. -/
def Store.put (receipts : Store) (id : String) (points : Int) : Store :=
  ⟨(id, points) :: receipts.entries.filter (fun e => e.1 ≠ id)⟩

/-- Number of entries, `len(receipts)`. -/
def Store.size (receipts : Store) : Nat := receipts.entries.length

/-- What a handler writes to the `http.ResponseWriter`. -/
inductive Body where
  | errorText (msg : String)
  | processResponse (ID : String)
  | pointsResponse (Points : Int)
deriving DecidableEq, Repr

/-- HTTP response: status code and body. -/
structure Response where
  status : Nat
  body : Body
deriving DecidableEq, Repr

/-- Go `processReceipt`.  `decoded` is the outcome of `json.NewDecoder(r.Body).Decode`, the
decoded receipt or the error text; `id` is the value that `uuid.New().String()` returns
when it is reached.  Returns the `receipts` map after the call and the response. -/
def processReceipt (receipts : Store) (decoded : Except String Receipt) (id : String) :
    Store × Response :=
  match decoded with
  | .error err => (receipts, ⟨400, .errorText err⟩)
  | .ok receipt =>
    let points := calculatePoints receipt
    (receipts.put id points, ⟨200, .processResponse id⟩)

/-- Go `getPoints` for the path variable `id`.  Returns the `receipts` map after the call and
the response. -/
def getPoints (receipts : Store) (id : String) : Store × Response :=
  match receipts.get id with
  | none => (receipts, ⟨404, .errorText "Receipt ID not found"⟩)
  | some points => (receipts, ⟨200, .pointsResponse points⟩)

/-- Request to the service: a POST to `/receipts/process` with the outcome of decoding its
body and the identifier the generator yields, or a GET of `/receipts/{id}/points`. -/
inductive Request where
  | process (decoded : Except String Receipt) (id : String)
  | points (id : String)

/-- Handling of one request by the router. -/
def handle (receipts : Store) : Request → Store × Response
  | .process decoded id => processReceipt receipts decoded id
  | .points id => getPoints receipts id

/-- The `receipts` map after a sequence of requests handled one after the other. -/
def run (receipts : Store) : List Request → Store
  | [] => receipts
  | q :: qs => run (handle receipts q).1 qs

/-- Every identifier generated during the sequence is new: not a key of the map at the time
it is generated. -/
def freshIdentifiers (receipts : Store) : List Request → Prop
  | [] => True
  | .process (.ok receipt) id :: qs =>
    receipts.get id = none ∧
      freshIdentifiers (processReceipt receipts (.ok receipt) id).1 qs
  | q :: qs => freshIdentifiers (handle receipts q).1 qs

/-- Number of requests of the sequence that are submissions with a decodable body. -/
def successfulSubmissions : List Request → Nat
  | [] => 0
  | .process (.ok _) _ :: qs => successfulSubmissions qs + 1
  | _ :: qs => successfulSubmissions qs

/-- Rule R7 as worded: `t` is a valid 24-hour time written HH:MM, strictly after 14:00
and strictly before 16:00. -/
def validTimeBetween2pmAnd4pm (t : String) : Prop :=
  ∃ h1 h2 m1 m2 : Char, t.data = [h1, h2, ':', m1, m2]
    ∧ h1.isDigit = true ∧ h2.isDigit = true ∧ m1.isDigit = true ∧ m2.isDigit = true
    ∧ strconv.digitVal h1 * 10 + strconv.digitVal h2 < 24
    ∧ strconv.digitVal m1 * 10 + strconv.digitVal m2 < 60
    ∧ 14 * 60 < (strconv.digitVal h1 * 10 + strconv.digitVal h2) * 60
        + (strconv.digitVal m1 * 10 + strconv.digitVal m2)
    ∧ (strconv.digitVal h1 * 10 + strconv.digitVal h2) * 60
        + (strconv.digitVal m1 * 10 + strconv.digitVal m2) < 16 * 60

/-- Number of days of a month (1 to 12) in the Gregorian calendar: 28 or 29 for February,
30 for April, June, September and November, 31 otherwise. -/
def calendarDays (year month : Nat) : Nat :=
  if month = 2 then
    (if year % 4 = 0 ∧ (year % 100 ≠ 0 ∨ year % 400 = 0) then 29 else 28)
  else if month = 4 ∨ month = 6 ∨ month = 9 ∨ month = 11 then 30
  else 31

/-- Rule R6 as worded: `d` is a valid calendar date written YYYY-MM-DD whose day of the
month is odd. -/
def validDateWithOddDay (d : String) : Prop :=
  ∃ y1 y2 y3 y4 m1 m2 d1 d2 : Char, d.data = [y1, y2, y3, y4, '-', m1, m2, '-', d1, d2]
    ∧ y1.isDigit = true ∧ y2.isDigit = true ∧ y3.isDigit = true ∧ y4.isDigit = true
    ∧ m1.isDigit = true ∧ m2.isDigit = true ∧ d1.isDigit = true ∧ d2.isDigit = true
    ∧ 1 ≤ strconv.digitVal m1 * 10 + strconv.digitVal m2
    ∧ strconv.digitVal m1 * 10 + strconv.digitVal m2 ≤ 12
    ∧ 1 ≤ strconv.digitVal d1 * 10 + strconv.digitVal d2
    ∧ strconv.digitVal d1 * 10 + strconv.digitVal d2
        ≤ calendarDays
            (((strconv.digitVal y1 * 10 + strconv.digitVal y2) * 10 + strconv.digitVal y3) * 10
              + strconv.digitVal y4)
            (strconv.digitVal m1 * 10 + strconv.digitVal m2)
    ∧ (strconv.digitVal d1 * 10 + strconv.digitVal d2) % 2 = 1

/-- A receipt with five items, to instantiate the theorems on. -/
def sampleReceipt : Receipt :=
  ⟨"Target", "2022-01-01", "13:01",
    [⟨"Mountain Dew 12PK", "6.49"⟩, ⟨"Emils Cheese Pizza", "12.25"⟩,
     ⟨"Knorr Creamy Chicken", "1.26"⟩, ⟨"Doritos Nacho Cheese", "3.35"⟩,
     ⟨"   Klarbrunn 12-PK 12 FL OZ  ", "12.00"⟩],
    "35.35"⟩

/-- Sum over the integers of the seven rule contributions of a receipt, as the rules are
worded: one point per alphanumeric character of the retailer, 50 for a round dollar total,
25 for a multiple of a quarter, 5 per pair of items, the description points of every item,
6 for an odd day and 10 for a purchase between 14:00 and 16:00. -/
def ruleSum (receipt : Receipt) : Int :=
  countAlphanumeric receipt.Retailer
    + (if isRoundDollarAmount receipt.Total then 50 else 0)
    + (if isMultipleOfQuarter receipt.Total then 25 else 0)
    + 5 * ((receipt.Items.length / 2 : Nat) : Int)
    + (receipt.Items.map calculateItemDescriptionPoints).sum
    + (if isPurchaseDateOdd receipt.PurchaseDate then 6 else 0)
    + (if isWithinTimeRange receipt.PurchaseTime "14:00" "16:00" then 10 else 0)

/-- Number written by a list of decimal digit characters, most significant first. -/
def digitsValue (l : List Char) : Nat := l.foldl (fun a c => a * 10 + strconv.digitVal c) 0

/-- The two cents digits named by rule R3 as worded: 00, 25, 50 or 75. -/
def centsAreQuarter (a b : Char) : Prop :=
  [a, b] = "00".data ∨ [a, b] = "25".data ∨ [a, b] = "50".data ∨ [a, b] = "75".data

/-! ## Properties of `int` addition -/

theorem wrapInt_add_left (a b : Int) : wrapInt (wrapInt a + b) = wrapInt (a + b) := by
  unfold wrapInt
  omega

theorem wrapInt_of_inRange (x : Int) (h1 : -2 ^ 63 ≤ x) (h2 : x < 2 ^ 63) : wrapInt x = x := by
  unfold wrapInt
  omega

theorem foldl_intAdd (f : Item → Int) (items : List Item) (a : Int) :
    items.foldl (fun points item => wrapInt (points + f item)) (wrapInt a)
      = wrapInt (a + (items.map f).sum) := by
  induction items generalizing a with
  | nil => simp
  | cons item rest ih =>
    simp only [List.foldl_cons, List.map_cons, List.sum_cons]
    rw [wrapInt_add_left, ih, add_assoc]

theorem calculatePoints_eq_wrap (receipt : Receipt) :
    calculatePoints receipt = wrapInt (ruleSum receipt) := by
  unfold calculatePoints ruleSum
  generalize countAlphanumeric receipt.Retailer = c
  generalize isRoundDollarAmount receipt.Total = b1
  generalize isMultipleOfQuarter receipt.Total = b2
  generalize isPurchaseDateOdd receipt.PurchaseDate = b3
  generalize isWithinTimeRange receipt.PurchaseTime "14:00" "16:00" = b4
  cases b1 <;> cases b2 <;> cases b3 <;> cases b4 <;>
    simp only [intAdd, if_true, if_false, Bool.false_eq_true, zero_add, add_zero,
      wrapInt_add_left, foldl_intAdd] <;>
    congr 1 <;> ring

theorem foldl_count (p : Char → Bool) (l : List Char) (a : Int) :
    l.foldl (fun count ch => if p ch then count + 1 else count) a = a + (l.countP p : Int) := by
  induction l generalizing a with
  | nil => simp
  | cons c cs ih =>
    simp only [List.foldl_cons, List.countP_cons]
    rw [ih]
    cases p c <;> simp
    ring

theorem countAlphanumeric_eq_countP (s : String) :
    countAlphanumeric s
      = (s.data.countP (fun ch => unicode.IsLetter ch || unicode.IsNumber ch) : Int) := by
  unfold countAlphanumeric
  rw [foldl_count (fun ch => unicode.IsLetter ch || unicode.IsNumber ch)]
  simp

theorem ruleSum_nonneg (receipt : Receipt)
    (hitems : ∀ item ∈ receipt.Items, 0 ≤ calculateItemDescriptionPoints item) :
    0 ≤ ruleSum receipt := by
  unfold ruleSum
  have h1 : 0 ≤ countAlphanumeric receipt.Retailer := by
    rw [countAlphanumeric_eq_countP]
    exact Int.natCast_nonneg _
  have h5 : 0 ≤ (receipt.Items.map calculateItemDescriptionPoints).sum := by
    apply List.sum_nonneg
    intro x hx
    obtain ⟨item, hmem, rfl⟩ := List.mem_map.mp hx
    exact hitems item hmem
  have h4 : (0 : Int) ≤ 5 * ((receipt.Items.length / 2 : Nat) : Int) := by positivity
  have h2 : (0 : Int) ≤ (if isRoundDollarAmount receipt.Total then 50 else 0) := by
    split <;> decide
  have h3 : (0 : Int) ≤ (if isMultipleOfQuarter receipt.Total then 25 else 0) := by
    split <;> decide
  have h6 : (0 : Int) ≤ (if isPurchaseDateOdd receipt.PurchaseDate then 6 else 0) := by
    split <;> decide
  have h7 : (0 : Int) ≤
      (if isWithinTimeRange receipt.PurchaseTime "14:00" "16:00" then 10 else 0) := by
    split <;> decide
  omega

/-! ## Properties of the score store -/

theorem Store.get_put_self (receipts : Store) (id : String) (points : Int) :
    (receipts.put id points).get id = some points := by
  simp [Store.put, Store.get]

theorem find_filter_of_ne (l : List (String × Int)) (id k : String) (h : k ≠ id) :
    (l.filter (fun e => decide (e.1 ≠ id))).find? (fun e => decide (e.1 = k))
      = l.find? (fun e => decide (e.1 = k)) := by
  induction l with
  | nil => rfl
  | cons e es ih =>
    by_cases he : e.1 = id
    · have h1 : decide (e.1 ≠ id) = false := by simp [he]
      have h2 : decide (e.1 = k) = false := by
        rw [he]
        exact decide_eq_false (fun x => h x.symm)
      rw [List.filter_cons, List.find?_cons]
      simp only [h1, h2, Bool.false_eq_true, if_false]
      exact ih
    · have h1 : decide (e.1 ≠ id) = true := by simp [he]
      rw [List.filter_cons]
      simp only [h1, if_true]
      rw [List.find?_cons, List.find?_cons, ih]

theorem Store.get_put_of_ne (receipts : Store) (id k : String) (points : Int) (h : k ≠ id) :
    (receipts.put id points).get k = receipts.get k := by
  have h2 : decide (id = k) = false := decide_eq_false (fun x => h x.symm)
  unfold Store.put Store.get
  rw [List.find?_cons]
  simp only [h2]
  rw [find_filter_of_ne _ id k h]

theorem Store.size_put_of_new (receipts : Store) (id : String) (points : Int)
    (h : receipts.get id = none) : (receipts.put id points).size = receipts.size + 1 := by
  simp only [Store.get, Option.map_eq_none', List.find?_eq_none] at h
  have hall : receipts.entries.filter (fun e => decide (e.1 ≠ id)) = receipts.entries := by
    rw [List.filter_eq_self]
    intro e he
    simpa using h e he
  unfold Store.put Store.size
  rw [hall]
  rfl

theorem Store.get_put_of_known (receipts : Store) (id k : String) (points v : Int)
    (hnew : receipts.get id = none) (hk : receipts.get k = some v) :
    (receipts.put id points).get k = some v := by
  have hne : k ≠ id := by
    intro e
    rw [e, hnew] at hk
    exact Option.noConfusion hk
  rw [Store.get_put_of_ne receipts id k points hne, hk]

/-- One request that generates only a new identifier keeps every record and adds one entry
exactly when it is a submission with a decodable body. -/
theorem handle_keeps_records (receipts : Store) (q : Request)
    (hfresh : freshIdentifiers receipts [q]) :
    (∀ id points, receipts.get id = some points → (handle receipts q).1.get id = some points)
    ∧ (handle receipts q).1.size = receipts.size + successfulSubmissions [q] := by
  cases q with
  | points id =>
    have hsame : (getPoints receipts id).1 = receipts := by
      unfold getPoints
      cases receipts.get id <;> rfl
    simp [handle, successfulSubmissions, hsame]
  | process decoded id =>
    cases decoded with
    | error err => simp [handle, processReceipt, successfulSubmissions]
    | ok receipt =>
      have hnew : receipts.get id = none := hfresh.1
      refine ⟨?_, ?_⟩
      · intro k v hk
        exact Store.get_put_of_known receipts id k _ v hnew hk
      · simpa [handle, processReceipt, successfulSubmissions] using
          Store.size_put_of_new receipts id _ hnew

theorem run_append (receipts : Store) (pre post : List Request) :
    run receipts (pre ++ post) = run (run receipts pre) post := by
  induction pre generalizing receipts with
  | nil => rfl
  | cons q qs ih => simp [run, ih]

theorem freshIdentifiers_cons (receipts : Store) (q : Request) (qs : List Request)
    (h : freshIdentifiers receipts (q :: qs)) :
    freshIdentifiers receipts [q] ∧ freshIdentifiers (handle receipts q).1 qs := by
  cases q with
  | points id => exact ⟨trivial, h⟩
  | process decoded id =>
    cases decoded with
    | error err => exact ⟨trivial, h⟩
    | ok receipt => exact ⟨⟨h.1, trivial⟩, h.2⟩

theorem freshIdentifiers_append (receipts : Store) (pre post : List Request)
    (h : freshIdentifiers receipts (pre ++ post)) : freshIdentifiers (run receipts pre) post := by
  induction pre generalizing receipts with
  | nil => exact h
  | cons q qs ih => exact ih _ (freshIdentifiers_cons receipts q (qs ++ post) h).2

/-! ## Properties of the `time` model -/

theorem digitVal_le (c : Char) (h : c.isDigit = true) : strconv.digitVal c ≤ 9 := by
  unfold strconv.digitVal
  simp only [Char.isDigit, Bool.and_eq_true, decide_eq_true_eq] at h
  have h2 : c.val.toNat ≤ 57 := h.2
  show c.val.toNat - 48 ≤ 9
  omega

theorem getnum_fixed_some (l : List Char) (n : Nat) (rest : List Char)
    (h : time.getnum l true = some (n, rest)) :
    ∃ a b, l = a :: b :: rest ∧ a.isDigit = true ∧ b.isDigit = true
      ∧ n = strconv.digitVal a * 10 + strconv.digitVal b := by
  match l, h with
  | [], h => simp [time.getnum] at h
  | [a], h => by_cases ha : a.isDigit = true <;> simp [time.getnum, ha] at h
  | a :: b :: r, h =>
    by_cases ha : a.isDigit = true <;> by_cases hb : b.isDigit = true <;>
      simp [time.getnum, ha, hb] at h
    exact ⟨a, b, by rw [h.2], ha, hb, h.1.symm⟩

theorem getnum_free_some (l : List Char) (n : Nat) (rest : List Char)
    (h : time.getnum l false = some (n, rest)) :
    (∃ a b, l = a :: b :: rest ∧ a.isDigit = true ∧ b.isDigit = true
      ∧ n = strconv.digitVal a * 10 + strconv.digitVal b) ∨ n ≤ 9 := by
  match l, h with
  | [], h => simp [time.getnum] at h
  | [a], h =>
    by_cases ha : a.isDigit = true <;> simp [time.getnum, ha] at h
    right
    rw [← h.1]
    exact digitVal_le a ha
  | a :: b :: r, h =>
    by_cases ha : a.isDigit = true <;> by_cases hb : b.isDigit = true <;>
      simp [time.getnum, ha, hb] at h
    · exact Or.inl ⟨a, b, by rw [h.2], ha, hb, h.1.symm⟩
    · right
      rw [← h.1]
      exact digitVal_le a ha

theorem skip_some (l rest : List Char) (sep : Char) (h : time.skip l sep = some rest) :
    l = sep :: rest := by
  match l, h with
  | [], h => simp [time.skip] at h
  | c :: r, h =>
    by_cases hc : c = sep <;> simp [time.skip, hc] at h
    rw [hc, h]

theorem instant_clock (h m : Nat) : (⟨0, 1, 1, h, m⟩ : time.Time).instant = h * 60 + m := by
  simp [time.Time.instant, time.daysBefore]

theorem ParseClock_two_digits (h1 h2 m1 m2 : Char) (d1 : h1.isDigit = true)
    (d2 : h2.isDigit = true) (d3 : m1.isDigit = true) (d4 : m2.isDigit = true)
    (hh : strconv.digitVal h1 * 10 + strconv.digitVal h2 < 24)
    (hm : strconv.digitVal m1 * 10 + strconv.digitVal m2 < 60) :
    time.ParseClock [h1, h2, ':', m1, m2]
      = some ⟨0, 1, 1, strconv.digitVal h1 * 10 + strconv.digitVal h2,
          strconv.digitVal m1 * 10 + strconv.digitVal m2⟩ := by
  have hh2 : ¬ 24 ≤ strconv.digitVal h1 * 10 + strconv.digitVal h2 := by omega
  have hm2 : ¬ 60 ≤ strconv.digitVal m1 * 10 + strconv.digitVal m2 := by omega
  simp [time.ParseClock, time.getnum, time.skip, d1, d2, d3, d4, hh2, hm2]

theorem ParseClock_some (l : List Char) (t : time.Time) (h : time.ParseClock l = some t) :
    t.instant = t.Hour * 60 + t.Minute ∧ t.Hour < 24 ∧ t.Minute < 60 ∧
    ((∃ h1 h2 m1 m2 : Char, l = [h1, h2, ':', m1, m2]
        ∧ h1.isDigit = true ∧ h2.isDigit = true ∧ m1.isDigit = true ∧ m2.isDigit = true
        ∧ t.Hour = strconv.digitVal h1 * 10 + strconv.digitVal h2
        ∧ t.Minute = strconv.digitVal m1 * 10 + strconv.digitVal m2)
      ∨ t.Hour ≤ 9) := by
  unfold time.ParseClock at h
  cases hg : time.getnum l false with
  | none => simp [hg] at h
  | some p =>
    obtain ⟨hour, v1⟩ := p
    simp only [hg] at h
    by_cases hh : 24 ≤ hour
    · simp [hh] at h
    · simp only [hh, if_false] at h
      cases hs : time.skip v1 ':' with
      | none => simp [hs] at h
      | some v =>
        simp only [hs, Option.some_bind] at h
        cases hg2 : time.getnum v true with
        | none => simp [hg2] at h
        | some p2 =>
          obtain ⟨min, v2⟩ := p2
          simp only [hg2] at h
          by_cases hm : 60 ≤ min
          · simp [hm] at h
          · simp only [hm, if_false] at h
            by_cases hv : v2 = []
            · simp only [hv, ne_eq, not_true_eq_false, if_false, Option.some.injEq] at h
              subst h
              refine ⟨instant_clock hour min, Nat.lt_of_not_le hh, Nat.lt_of_not_le hm, ?_⟩
              rcases getnum_free_some l hour v1 hg with ⟨a, b, hl, ha, hb, hn⟩ | h9
              · left
                obtain ⟨c, d, hv1, hc, hd, hmin⟩ := getnum_fixed_some v min v2 hg2
                have hv1' := skip_some v1 v ':' hs
                refine ⟨a, b, c, d, ?_, ha, hb, hc, hd, hn, hmin⟩
                rw [hl, hv1', hv1, hv]
              · exact Or.inr h9
            · simp [hv] at h

theorem daysIn_eq_calendarDays (year month : Nat) (h1 : 1 ≤ month) (h2 : month ≤ 12) :
    time.daysIn month year = calendarDays year month := by
  interval_cases month <;>
    simp [time.daysIn, calendarDays, time.daysBefore, time.isLeap]

theorem ParseDate_ten (y1 y2 y3 y4 m1 m2 d1 d2 : Char)
    (e1 : y1.isDigit = true) (e2 : y2.isDigit = true) (e3 : y3.isDigit = true)
    (e4 : y4.isDigit = true) (e5 : m1.isDigit = true) (e6 : m2.isDigit = true)
    (e7 : d1.isDigit = true) (e8 : d2.isDigit = true)
    (hm1 : 1 ≤ strconv.digitVal m1 * 10 + strconv.digitVal m2)
    (hm2 : strconv.digitVal m1 * 10 + strconv.digitVal m2 ≤ 12)
    (hd1 : 1 ≤ strconv.digitVal d1 * 10 + strconv.digitVal d2)
    (hd2 : strconv.digitVal d1 * 10 + strconv.digitVal d2
        ≤ time.daysIn (strconv.digitVal m1 * 10 + strconv.digitVal m2)
            (((strconv.digitVal y1 * 10 + strconv.digitVal y2) * 10 + strconv.digitVal y3) * 10
              + strconv.digitVal y4)) :
    time.ParseDate [y1, y2, y3, y4, '-', m1, m2, '-', d1, d2]
      = some ⟨((strconv.digitVal y1 * 10 + strconv.digitVal y2) * 10 + strconv.digitVal y3) * 10
              + strconv.digitVal y4,
          strconv.digitVal m1 * 10 + strconv.digitVal m2,
          strconv.digitVal d1 * 10 + strconv.digitVal d2, 0, 0⟩ := by
  have hm0 : ¬ strconv.digitVal m1 * 10 + strconv.digitVal m2 = 0 := by omega
  have hm3 : ¬ 12 < strconv.digitVal m1 * 10 + strconv.digitVal m2 := by omega
  have hd0 : ¬ strconv.digitVal d1 * 10 + strconv.digitVal d2 < 1 := by omega
  have hd3 : ¬ time.daysIn (strconv.digitVal m1 * 10 + strconv.digitVal m2)
            (((strconv.digitVal y1 * 10 + strconv.digitVal y2) * 10 + strconv.digitVal y3) * 10
              + strconv.digitVal y4) < strconv.digitVal d1 * 10 + strconv.digitVal d2 := by
    omega
  simp [time.ParseDate, time.getnum, time.skip, e1, e2, e3, e4, e5, e6, e7, e8, hm0, hm3,
    hd0, hd3]

theorem ParseDate_some (l : List Char) (t : time.Time) (h : time.ParseDate l = some t) :
    ∃ y1 y2 y3 y4 m1 m2 d1 d2 : Char, l = [y1, y2, y3, y4, '-', m1, m2, '-', d1, d2]
      ∧ y1.isDigit = true ∧ y2.isDigit = true ∧ y3.isDigit = true ∧ y4.isDigit = true
      ∧ m1.isDigit = true ∧ m2.isDigit = true ∧ d1.isDigit = true ∧ d2.isDigit = true
      ∧ t.Day = strconv.digitVal d1 * 10 + strconv.digitVal d2
      ∧ 1 ≤ strconv.digitVal m1 * 10 + strconv.digitVal m2
      ∧ strconv.digitVal m1 * 10 + strconv.digitVal m2 ≤ 12
      ∧ 1 ≤ t.Day
      ∧ t.Day ≤ time.daysIn (strconv.digitVal m1 * 10 + strconv.digitVal m2)
            (((strconv.digitVal y1 * 10 + strconv.digitVal y2) * 10 + strconv.digitVal y3) * 10
              + strconv.digitVal y4) := by
  match l, h with
  | [], h => simp [time.ParseDate] at h
  | [_], h => simp [time.ParseDate] at h
  | [_, _], h => simp [time.ParseDate] at h
  | [_, _, _], h => simp [time.ParseDate] at h
  | y1 :: y2 :: y3 :: y4 :: rest, h =>
    simp [time.ParseDate] at h
    obtain ⟨⟨e1, e2, e3, e4⟩, h⟩ := h
    cases hs : time.skip rest '-' with
    | none => simp [hs] at h
    | some v =>
      simp only [hs, Option.some_bind] at h
      cases hg : time.getnum v true with
      | none => simp [hg] at h
      | some pm =>
        obtain ⟨month, v1⟩ := pm
        simp only [hg] at h
        by_cases hmr : month = 0 ∨ 12 < month
        · simp [hmr] at h
        · simp only [hmr, if_false] at h
          cases hs2 : time.skip v1 '-' with
          | none => simp [hs2] at h
          | some w =>
            simp only [hs2, Option.some_bind] at h
            cases hg2 : time.getnum w true with
            | none => simp [hg2] at h
            | some pd =>
              obtain ⟨day, v2⟩ := pd
              simp only [hg2] at h
              by_cases hv : v2 = []
              · simp only [hv, if_true] at h
                by_cases hdr : day = 0 ∨ time.daysIn month
                    (((strconv.digitVal y1 * 10 + strconv.digitVal y2) * 10
                      + strconv.digitVal y3) * 10 + strconv.digitVal y4) < day
                · simp [hdr] at h
                · simp only [hdr, if_false, Option.some.injEq] at h
                  subst h
                  obtain ⟨m1, m2, hv', e5, e6, hmon⟩ := getnum_fixed_some v month v1 hg
                  obtain ⟨d1, d2, hw', e7, e8, hday⟩ := getnum_fixed_some w day v2 hg2
                  have hrest := skip_some rest v '-' hs
                  have hv1 := skip_some v1 w '-' hs2
                  refine ⟨y1, y2, y3, y4, m1, m2, d1, d2, ?_, e1, e2, e3, e4, e5, e6, e7, e8,
                    hday, ?_, ?_, ?_, ?_⟩
                  · rw [hrest, hv', hv1, hw', hv]
                  · omega
                  · omega
                  · show 1 ≤ day
                    omega
                  · show day ≤ _
                    rw [← hmon]
                    omega
              · simp [hv] at h

/-! ## Properties of `strings.Split` -/

theorem Split_of_not_mem (sep : Char) (l : List Char) (h : sep ∉ l) :
    strings.Split sep l = [l] := by
  induction l with
  | nil => rfl
  | cons c cs ih =>
    have hc : c ≠ sep := fun e => h (by rw [e]; exact List.mem_cons_self _ _)
    have hcs : sep ∉ cs := fun m => h (List.mem_cons_of_mem _ m)
    simp [strings.Split, hc, ih hcs]

theorem Split_append (sep : Char) (pre post : List Char) (h : sep ∉ pre) :
    strings.Split sep (pre ++ sep :: post) = pre :: strings.Split sep post := by
  induction pre with
  | nil => simp [strings.Split]
  | cons c cs ih =>
    have hc : c ≠ sep := fun e => h (by rw [e]; exact List.mem_cons_self _ _)
    have hcs : sep ∉ cs := fun m => h (List.mem_cons_of_mem _ m)
    simp [strings.Split, hc, ih hcs]

/-! ## Properties of `strings.TrimSpace` -/

theorem dropWhile_all_append (p : Char → Bool) (xs ys : List Char) (h : ∀ c ∈ xs, p c = true) :
    (xs ++ ys).dropWhile p = ys.dropWhile p := by
  induction xs with
  | nil => rfl
  | cons x xs ih =>
    have hx : p x = true := h x (List.mem_cons_self _ _)
    rw [List.cons_append, List.dropWhile_cons_of_pos hx]
    exact ih (fun c hc => h c (List.mem_cons_of_mem _ hc))

theorem dropWhile_all (p : Char → Bool) (xs : List Char) (h : ∀ c ∈ xs, p c = true) :
    xs.dropWhile p = [] := by
  have := dropWhile_all_append p xs [] h
  simpa using this

theorem dropWhile_head_stop (p : Char → Bool) (xs : List Char)
    (h : ∀ c, xs.head? = some c → p c = false) : xs.dropWhile p = xs := by
  cases xs with
  | nil => rfl
  | cons x xs =>
    have hx : p x = false := h x rfl
    rw [List.dropWhile_cons_of_neg (by simp [hx])]

/-- Trimming a text made of whitespace, a core that neither starts nor ends with
whitespace, and whitespace again leaves the core. -/
theorem TrimSpace_core (pre core post : List Char)
    (hpre : ∀ c ∈ pre, unicode.IsSpace c = true) (hpost : ∀ c ∈ post, unicode.IsSpace c = true)
    (hhead : ∀ c ∈ core.head?, unicode.IsSpace c = false)
    (hlast : ∀ c ∈ core.getLast?, unicode.IsSpace c = false) :
    strings.TrimSpace (pre ++ core ++ post) = core := by
  unfold strings.TrimSpace
  rw [List.append_assoc, dropWhile_all_append _ pre _ hpre]
  by_cases hc : core = []
  · subst hc
    rw [List.nil_append, dropWhile_all _ post hpost]
    rfl
  · have h1 : (core ++ post).dropWhile unicode.IsSpace = core ++ post := by
      apply dropWhile_head_stop
      intro c hcs
      apply hhead
      cases core with
      | nil => exact absurd rfl hc
      | cons x xs => simpa using hcs
    rw [h1, List.reverse_append,
      dropWhile_all_append _ post.reverse _ (fun c hcm => hpost c (List.mem_reverse.mp hcm))]
    rw [dropWhile_head_stop _ core.reverse (by
      intro c hcs
      apply hlast
      rw [List.head?_reverse] at hcs
      exact hcs)]
    exact List.reverse_reverse core

/-! ## Rules of the points calculation -/

/-- Claim C1, counterexample: two items priced at 4e19 are worth 8e18 points each, the seven
contributions sum to 16000000000000000005, which is not an `int`, and `calculatePoints`
returns -2446744073709551611. -/
theorem calculatePoints_overflow :
    ruleSum ⟨"", "", "", [⟨"abc", "40000000000000000000"⟩,
        ⟨"abc", "40000000000000000000"⟩], "0.10"⟩ = 16000000000000000005
    ∧ calculatePoints ⟨"", "", "", [⟨"abc", "40000000000000000000"⟩,
        ⟨"abc", "40000000000000000000"⟩], "0.10"⟩ = -2446744073709551611
    ∧ calculatePoints ⟨"", "", "", [⟨"abc", "40000000000000000000"⟩,
        ⟨"abc", "40000000000000000000"⟩], "0.10"⟩
      ≠ ruleSum ⟨"", "", "", [⟨"abc", "40000000000000000000"⟩,
        ⟨"abc", "40000000000000000000"⟩], "0.10"⟩ := by
  decide!

/-- Claim C1, amended: for every receipt whose seven rule contributions sum to an integer in
the range of the Go `int`, from `-2^63` to below `2^63`, `calculatePoints` is that sum; for
every receipt it is that sum reduced into the `int` range, the additions being those of
the Go `int`; and a receipt with 5 items has exactly 10 points from the pair rule. -/
theorem calculatePoints_is_sum_of_rules (receipt : Receipt) :
    calculatePoints receipt = wrapInt (ruleSum receipt)
    ∧ (-2 ^ 63 ≤ ruleSum receipt → ruleSum receipt < 2 ^ 63 →
        calculatePoints receipt = ruleSum receipt)
    ∧ (receipt.Items.length = 5 →
        calculatePoints receipt = wrapInt (
          countAlphanumeric receipt.Retailer
          + (if isRoundDollarAmount receipt.Total then 50 else 0)
          + (if isMultipleOfQuarter receipt.Total then 25 else 0)
          + 10
          + (receipt.Items.map calculateItemDescriptionPoints).sum
          + (if isPurchaseDateOdd receipt.PurchaseDate then 6 else 0)
          + (if isWithinTimeRange receipt.PurchaseTime "14:00" "16:00" then 10 else 0))) := by
  refine ⟨calculatePoints_eq_wrap receipt, ?_, ?_⟩
  · intro h1 h2
    rw [calculatePoints_eq_wrap, wrapInt_of_inRange _ h1 h2]
  · intro h5
    rw [calculatePoints_eq_wrap]
    unfold ruleSum
    rw [h5]
    rfl

/-- Claim C2, counterexample: one item whose description has three bytes and whose price is
"-10.00" gives a receipt with a negative point total; and two items priced at 4e19, each
worth 8e18 points, make the `int` sum wrap around to a negative total. -/
theorem calculatePoints_negative :
    calculatePoints ⟨"", "", "", [⟨"abc", "-10.00"⟩], "0.10"⟩ = -2
    ∧ ¬ (0 ≤ calculatePoints ⟨"", "", "", [⟨"abc", "-10.00"⟩], "0.10"⟩)
    ∧ calculateItemDescriptionPoints ⟨"abc", "40000000000000000000"⟩ = 8000000000000000000
    ∧ calculatePoints ⟨"", "", "", [⟨"abc", "40000000000000000000"⟩,
        ⟨"abc", "40000000000000000000"⟩], "0.10"⟩ = -2446744073709551611 := by
  decide!

/-- Claim C2, amended: `calculatePoints` is at least 0 for every receipt in which no item
has negative description points and whose rule contributions sum to less than `2^63`, the
bound of the Go `int`. -/
theorem calculatePoints_nonneg (receipt : Receipt)
    (hitems : ∀ item ∈ receipt.Items, 0 ≤ calculateItemDescriptionPoints item)
    (hsum : ruleSum receipt < 2 ^ 63) : 0 ≤ calculatePoints receipt := by
  have h0 := ruleSum_nonneg receipt hitems
  rw [calculatePoints_eq_wrap, wrapInt_of_inRange _ (by omega) hsum]
  exact h0

/-! ## Handlers and the score store -/

/-- Claim C3: after `processReceipt` has stored the result for a decoded receipt `r` under the
generated identifier `i`, `getPoints` for `i` answers 200 with exactly `calculatePoints r`. -/
theorem getPoints_after_processReceipt (receipts : Store) (r : Receipt) (i : String) :
    (processReceipt receipts (.ok r) i).2 = ⟨200, .processResponse i⟩
    ∧ (getPoints (processReceipt receipts (.ok r) i).1 i).2
        = ⟨200, .pointsResponse (calculatePoints r)⟩ := by
  refine ⟨rfl, ?_⟩
  simp [processReceipt, getPoints, Store.get_put_self]

/-- Claim C4: in a sequence of requests whose generated identifiers are all new, a call leaves
every record that was in the store before it unchanged, a submission with a decodable body
adds exactly one entry and any other call adds none; so records of the initial store keep
their points to the end. -/
theorem score_records_immutable (receipts : Store) (requests : List Request)
    (hfresh : freshIdentifiers receipts requests) :
    (∀ pre q post, requests = pre ++ q :: post →
      (∀ id points, (run receipts pre).get id = some points →
        (run receipts (pre ++ [q])).get id = some points)
      ∧ (run receipts (pre ++ [q])).size
          = (run receipts pre).size + successfulSubmissions [q])
    ∧ (∀ id points, receipts.get id = some points →
        (run receipts requests).get id = some points) := by
  have step : ∀ pre q post, requests = pre ++ q :: post →
      (∀ id points, (run receipts pre).get id = some points →
        (run receipts (pre ++ [q])).get id = some points)
      ∧ (run receipts (pre ++ [q])).size
          = (run receipts pre).size + successfulSubmissions [q] := by
    intro pre q post hsplit
    rw [hsplit] at hfresh
    have hq := (freshIdentifiers_cons _ q post (freshIdentifiers_append receipts pre _ hfresh)).1
    have hrun : run receipts (pre ++ [q]) = (handle (run receipts pre) q).1 := by
      rw [run_append]
      rfl
    rw [hrun]
    exact handle_keeps_records (run receipts pre) q hq
  refine ⟨step, ?_⟩
  clear step
  induction requests generalizing receipts with
  | nil => intro id points h; exact h
  | cons q qs ih =>
    intro id points h
    have hc := freshIdentifiers_cons receipts q qs hfresh
    exact ih _ hc.2 id points ((handle_keeps_records receipts q hc.1).1 id points h)

/-- Claim C5: for an identifier that is not a key of the store `getPoints` answers 404 with
"Receipt ID not found" and no points, and for every identifier it leaves the store as it
was. -/
theorem getPoints_unknown_identifier (receipts : Store) (id : String) :
    (receipts.get id = none →
      (getPoints receipts id).2 = ⟨404, .errorText "Receipt ID not found"⟩)
    ∧ (getPoints receipts id).1 = receipts := by
  unfold getPoints
  cases h : receipts.get id <;> simp

/-- Claim C6: when the request body fails to decode, `processReceipt` answers 400 with the
decoder's error and the store after the call is the store before it, whatever identifier
the generator would have produced; every lookup answers as before. -/
theorem processReceipt_decode_failure (receipts : Store) (err id : String) :
    processReceipt receipts (.error err) id = (receipts, ⟨400, .errorText err⟩)
    ∧ (∀ k, (processReceipt receipts (.error err) id).1.get k = receipts.get k) := by
  exact ⟨rfl, fun _ => rfl⟩

/-- Claim C7: `isWithinTimeRange t "14:00" "16:00"` holds exactly when `t` is a valid HH:MM
time strictly after 14:00 and strictly before 16:00; "14:33" is inside, the bounds "14:00"
and "16:00" are not, and a string that does not parse as a time is not. -/
theorem isWithinTimeRange_iff (t : String) :
    (isWithinTimeRange t "14:00" "16:00" = true ↔ validTimeBetween2pmAnd4pm t)
    ∧ (time.ParseClock t.data = none → isWithinTimeRange t "14:00" "16:00" = false)
    ∧ isWithinTimeRange "14:33" "14:00" "16:00" = true
    ∧ isWithinTimeRange "14:00" "14:00" "16:00" = false
    ∧ isWithinTimeRange "16:00" "14:00" "16:00" = false := by
  have hs : time.ParseClock "14:00".data = some ⟨0, 1, 1, 14, 0⟩ := by decide
  have he : time.ParseClock "16:00".data = some ⟨0, 1, 1, 16, 0⟩ := by decide
  refine ⟨⟨?_, ?_⟩, ?_, by decide, by decide, by decide⟩
  · intro h
    unfold isWithinTimeRange at h
    cases hp : time.ParseClock t.data with
    | none => simp [hp] at h
    | some pt =>
      simp only [hp, hs, he, Option.getD_some, time.Time.After, time.Time.Before,
        Bool.and_eq_true, decide_eq_true_eq, instant_clock] at h
      obtain ⟨hinst, hh, hm, hshape⟩ := ParseClock_some t.data pt hp
      rw [hinst] at h
      rcases hshape with ⟨h1, h2, m1, m2, hl, d1, d2, d3, d4, hH, hM⟩ | h9
      · refine ⟨h1, h2, m1, m2, hl, d1, d2, d3, d4, ?_, ?_, ?_, ?_⟩ <;> omega
      · omega
  · rintro ⟨h1, h2, m1, m2, hl, d1, d2, d3, d4, hh, hm, hlo, hhi⟩
    unfold isWithinTimeRange
    rw [hl, ParseClock_two_digits h1 h2 m1 m2 d1 d2 d3 d4 hh hm]
    simp only [hs, he, Option.getD_some, time.Time.After, time.Time.Before,
      Bool.and_eq_true, decide_eq_true_eq, instant_clock]
    omega
  · intro hnone
    unfold isWithinTimeRange
    rw [hnone]

/-- Claim C8: `isPurchaseDateOdd d` holds exactly when `d` is a valid calendar date written
YYYY-MM-DD with an odd day of the month; "2022-01-01" is, "2022-01-02" is not, and a
malformed, empty or calendar-invalid date gives false, not an error. -/
theorem isPurchaseDateOdd_iff (d : String) :
    (isPurchaseDateOdd d = true ↔ validDateWithOddDay d)
    ∧ (time.ParseDate d.data = none → isPurchaseDateOdd d = false)
    ∧ isPurchaseDateOdd "2022-01-01" = true
    ∧ isPurchaseDateOdd "2022-01-02" = false
    ∧ isPurchaseDateOdd "2022-02-31" = false
    ∧ isPurchaseDateOdd "" = false
    ∧ isPurchaseDateOdd "01/03/2022" = false
    ∧ time.ParseDate "2022-02-31".data = none := by
  refine ⟨⟨?_, ?_⟩, ?_, by decide, by decide, by decide, by decide, by decide, by decide⟩
  · intro h
    unfold isPurchaseDateOdd at h
    cases hp : time.ParseDate d.data with
    | none => simp [hp] at h
    | some date =>
      simp only [hp, ne_eq, decide_not, Bool.not_eq_true', decide_eq_false_iff_not] at h
      obtain ⟨y1, y2, y3, y4, m1, m2, d1, d2, hl, e1, e2, e3, e4, e5, e6, e7, e8, hday, hm1,
        hm2, hd1, hd2⟩ := ParseDate_some d.data date hp
      rw [daysIn_eq_calendarDays _ _ hm1 hm2] at hd2
      rw [hday] at h hd1 hd2
      exact ⟨y1, y2, y3, y4, m1, m2, d1, d2, hl, e1, e2, e3, e4, e5, e6, e7, e8, hm1, hm2,
        hd1, hd2, by omega⟩
  · rintro ⟨y1, y2, y3, y4, m1, m2, d1, d2, hl, e1, e2, e3, e4, e5, e6, e7, e8, hm1, hm2,
      hd1, hd2, hodd⟩
    rw [← daysIn_eq_calendarDays _ _ hm1 hm2] at hd2
    unfold isPurchaseDateOdd
    rw [hl, ParseDate_ten y1 y2 y3 y4 m1 m2 d1 d2 e1 e2 e3 e4 e5 e6 e7 e8 hm1 hm2 hd1 hd2]
    simp only [ne_eq, decide_not, Bool.not_eq_true', decide_eq_false_iff_not]
    omega
  · intro hnone
    unfold isPurchaseDateOdd
    rw [hnone]

/-- Claim C9, counterexample: the fraction "½" is neither a letter nor a digit, yet
`countAlphanumeric` counts it, so the count is not the number of letters and digits. -/
theorem countAlphanumeric_counts_fraction :
    countAlphanumeric "½" = 1
    ∧ unicode.IsLetter '½' = false ∧ unicode.IsDigit '½' = false
    ∧ "½".data.countP (fun ch => unicode.IsLetter ch || unicode.IsDigit ch) = 0 := by
  decide

/-- Claim C9, amended: `countAlphanumeric s` is the number of characters of `s` that are a
letter or a number in the sense of `unicode.IsNumber` (digits, and also other numeric
characters); characters that are neither contribute nothing, and "Target" yields 6.
Letters and digits of other scripts and the Roman numeral Ⅷ count, currency signs,
dashes, combining marks and pictographs do not; U+31350 (an ideograph) and U+1E4F0 (a
digit), assigned in Unicode 15.0.0, count, as do U+16AC0 and U+10570. -/
theorem countAlphanumeric_counts_letters_and_numbers (s : String) :
    countAlphanumeric s
      = (s.data.countP (fun ch => unicode.IsLetter ch || unicode.IsNumber ch) : Int)
    ∧ countAlphanumeric "Target" = 6
    ∧ countAlphanumeric " -&.,$!" = 0
    ∧ countAlphanumeric "M&M Corner Market 2" = 15
    ∧ countAlphanumeric "日本 Ⅷ ٣ Ж" = 5
    ∧ countAlphanumeric "€ — ☺" = 0
    ∧ countAlphanumeric (String.mk ['e', Char.ofNat 0x301]) = 1
    ∧ countAlphanumeric (String.mk [Char.ofNat 0x1F600]) = 0
    ∧ countAlphanumeric (String.mk [Char.ofNat 0x31350]) = 1
    ∧ countAlphanumeric (String.mk [Char.ofNat 0x1E4F0]) = 1
    ∧ countAlphanumeric (String.mk [Char.ofNat 0x16AC0]) = 1
    ∧ countAlphanumeric (String.mk [Char.ofNat 0x10570]) = 1
    ∧ countAlphanumeric (String.mk [Char.ofNat 0x323B0]) = 0 := by
  exact ⟨countAlphanumeric_eq_countP s, by decide, by decide, by decide, by decide!,
    by decide!, by decide!, by decide!, by decide!, by decide!, by decide!, by decide!,
    by decide!⟩

/-- Claim C10: for a total with exactly one decimal point, `isRoundDollarAmount` holds exactly
when the text after the point is "00"; "35.00" is a round dollar amount, "35.0", "35.000"
and "35.10" are not, and a total without a decimal point never is. -/
theorem isRoundDollarAmount_iff (whole frac : String) :
    ('.' ∉ whole.data → '.' ∉ frac.data →
      (isRoundDollarAmount (whole ++ "." ++ frac) = true ↔ frac = "00"))
    ∧ ('.' ∉ whole.data → isRoundDollarAmount whole = false)
    ∧ isRoundDollarAmount "35.00" = true
    ∧ isRoundDollarAmount "35.0" = false
    ∧ isRoundDollarAmount "35.000" = false
    ∧ isRoundDollarAmount "35.10" = false
    ∧ isRoundDollarAmount "35" = false := by
  refine ⟨?_, ?_, by decide, by decide, by decide, by decide, by decide⟩
  · intro hw hf
    have hdata : (whole ++ "." ++ frac).data = whole.data ++ '.' :: frac.data := by
      simp [String.data_append]
    unfold isRoundDollarAmount
    rw [hdata, Split_append '.' _ _ hw, Split_of_not_mem '.' _ hf]
    simp [String.ext_iff]
  · intro hw
    unfold isRoundDollarAmount
    rw [Split_of_not_mem '.' _ hw]
    simp

/-! ## Properties of the `float64` model -/

theorem bitLenAux_spec (fuel n : Nat) (h : n ≤ fuel) :
    n < 2 ^ Float64.bitLenAux fuel n
      ∧ (n ≠ 0 → 2 ^ (Float64.bitLenAux fuel n - 1) ≤ n ∧ 1 ≤ Float64.bitLenAux fuel n) := by
  induction fuel generalizing n with
  | zero =>
    have h0 : n = 0 := by omega
    subst h0
    simp [Float64.bitLenAux]
  | succ f ih =>
    unfold Float64.bitLenAux
    by_cases h0 : n = 0
    · simp [h0]
    · simp only [h0, if_false]
      have hle : n / 2 ≤ f := by omega
      obtain ⟨h1, h2⟩ := ih (n / 2) hle
      refine ⟨?_, fun _ => ⟨?_, by omega⟩⟩
      · rw [pow_succ]
        omega
      · simp only [Nat.add_sub_cancel]
        by_cases h3 : n / 2 = 0
        · have hk : Float64.bitLenAux f (n / 2) = 0 := by
            rw [h3]
            cases f <;> simp [Float64.bitLenAux]
          rw [hk]
          simp
          omega
        · obtain ⟨h4, h5⟩ := h2 h3
          have hp : 2 ^ Float64.bitLenAux f (n / 2)
              = 2 * 2 ^ (Float64.bitLenAux f (n / 2) - 1) := by
            rw [← pow_succ']
            congr 1
            omega
          rw [hp]
          omega

theorem bitLen_spec (n : Nat) (h : n ≠ 0) :
    2 ^ (Float64.bitLen n - 1) ≤ n ∧ n < 2 ^ Float64.bitLen n ∧ 1 ≤ Float64.bitLen n := by
  obtain ⟨h1, h2⟩ := bitLenAux_spec n n le_rfl
  exact ⟨(h2 h).1, h1, (h2 h).2⟩

theorem scaled_spec (n d : Nat) (e : Int) (hd : 0 < d) :
    0 < (Float64.scaled n d e).2
      ∧ ((Float64.scaled n d e).1 : ℚ) / (Float64.scaled n d e).2 = (n : ℚ) / d / 2 ^ e := by
  have hd' : (d : ℚ) ≠ 0 := by positivity
  unfold Float64.scaled
  by_cases he : 0 ≤ e
  · simp only [he, if_true]
    have h2 : (2 : ℚ) ^ e = 2 ^ e.toNat := by
      rw [← zpow_natCast, Int.toNat_of_nonneg he]
    refine ⟨by positivity, ?_⟩
    rw [h2]
    push_cast
    rw [div_div]
  · simp only [he, if_false]
    have hne : 0 ≤ -e := by omega
    have h2 : (2 : ℚ) ^ e = (2 ^ (-e).toNat)⁻¹ := by
      rw [← zpow_natCast, Int.toNat_of_nonneg hne, zpow_neg, inv_inv]
    refine ⟨hd, ?_⟩
    rw [h2]
    push_cast
    field_simp

theorem ulpExp_spec (n d : Nat) (hn : 0 < n) (hd : 0 < d) :
    -1074 ≤ Float64.ulpExp n d
      ∧ (Float64.ulpExp n d = -1074 ∨ (2 : ℚ) ^ 52 * 2 ^ Float64.ulpExp n d ≤ (n : ℚ) / d)
      ∧ (n : ℚ) / d < 2 ^ 53 * 2 ^ Float64.ulpExp n d := by
  obtain ⟨hn1, hn2, hn3⟩ := bitLen_spec n (by omega)
  obtain ⟨hd1, hd2, hd3⟩ := bitLen_spec d (by omega)
  have hnq : (0 : ℚ) < n := by exact_mod_cast hn
  have hdq : (0 : ℚ) < d := by exact_mod_cast hd
  have hn1q : (2 : ℚ) ^ (Float64.bitLen n - 1) ≤ n := by exact_mod_cast hn1
  have hn2q : (n : ℚ) < 2 ^ Float64.bitLen n := by exact_mod_cast hn2
  have hd1q : (2 : ℚ) ^ (Float64.bitLen d - 1) ≤ d := by exact_mod_cast hd1
  have hd2q : (d : ℚ) < 2 ^ Float64.bitLen d := by exact_mod_cast hd2
  set e1 : Int := (Float64.bitLen n : Int) - (Float64.bitLen d : Int) - 52 with he1
  have hlow : (2 : ℚ) ^ (e1 + 51) < (n : ℚ) / d := by
    have hexp : e1 + 51 = ((Float64.bitLen n - 1 : ℕ) : ℤ) - (Float64.bitLen d : ℕ) := by
      rw [he1]
      push_cast [Nat.cast_sub hn3]
      ring
    rw [hexp, zpow_sub₀ (by norm_num), zpow_natCast, zpow_natCast]
    rw [div_lt_div_iff₀ (by positivity) hdq]
    calc (2 : ℚ) ^ (Float64.bitLen n - 1) * d ≤ n * d := by
          exact mul_le_mul_of_nonneg_right hn1q hdq.le
      _ < n * 2 ^ Float64.bitLen d := by
          exact mul_lt_mul_of_pos_left hd2q hnq
  have hup : (n : ℚ) / d < 2 ^ (e1 + 53) := by
    have hexp : e1 + 53 = ((Float64.bitLen n : ℕ) : ℤ) - (Float64.bitLen d - 1 : ℕ) := by
      rw [he1]
      push_cast [Nat.cast_sub hd3]
      ring
    rw [hexp, zpow_sub₀ (by norm_num), zpow_natCast, zpow_natCast]
    rw [div_lt_div_iff₀ hdq (by positivity)]
    calc (n : ℚ) * 2 ^ (Float64.bitLen d - 1) ≤ n * d := by
          exact mul_le_mul_of_nonneg_left hd1q hnq.le
      _ < 2 ^ Float64.bitLen n * d := by
          exact mul_lt_mul_of_pos_right hn2q hdq
  obtain ⟨hs2, hsq⟩ := scaled_spec n d e1 hd
  have hs2q : (0 : ℚ) < ((Float64.scaled n d e1).2 : ℚ) := by exact_mod_cast hs2
  have h2e1 : (0 : ℚ) < 2 ^ e1 := by positivity
  -- bounds for the exponent before clamping
  have key : ∃ e0 : Int, Float64.ulpExp n d = max e0 (-1074)
      ∧ (2 : ℚ) ^ 52 * 2 ^ e0 ≤ (n : ℚ) / d ∧ (n : ℚ) / d < 2 ^ 53 * 2 ^ e0 := by
    by_cases hq : (Float64.scaled n d e1).1 / (Float64.scaled n d e1).2 < 2 ^ 52
    · refine ⟨e1 - 1, ?_, ?_, ?_⟩
      · unfold Float64.ulpExp
        simp only [← he1, hq, if_true]
      · have : (2 : ℚ) ^ 52 * 2 ^ (e1 - 1) = 2 ^ (e1 + 51) := by
          rw [show e1 + 51 = 52 + (e1 - 1) by ring, zpow_add₀ (by norm_num)]
          norm_num
        rw [this]
        exact hlow.le
      · rw [Nat.div_lt_iff_lt_mul hs2] at hq
        have hq2 : ((Float64.scaled n d e1).1 : ℚ) < 2 ^ 52 * (Float64.scaled n d e1).2 := by
          exact_mod_cast hq
        have hq3 : ((Float64.scaled n d e1).1 : ℚ) / (Float64.scaled n d e1).2 < 2 ^ 52 := by
          rw [div_lt_iff₀ hs2q]
          exact hq2
        rw [hsq, div_lt_iff₀ h2e1] at hq3
        have : (2 : ℚ) ^ 53 * 2 ^ (e1 - 1) = 2 ^ 52 * 2 ^ e1 := by
          rw [zpow_sub₀ (by norm_num)]
          norm_num
          ring
        rw [this]
        exact hq3
    · refine ⟨e1, ?_, ?_, ?_⟩
      · unfold Float64.ulpExp
        simp only [← he1, hq, if_false]
      · have hq1 : 2 ^ 52 ≤ (Float64.scaled n d e1).1 / (Float64.scaled n d e1).2 := by omega
        rw [Nat.le_div_iff_mul_le hs2] at hq1
        have hq2 : (2 : ℚ) ^ 52 * (Float64.scaled n d e1).2 ≤ (Float64.scaled n d e1).1 := by
          exact_mod_cast hq1
        have hq3 : (2 : ℚ) ^ 52 ≤ ((Float64.scaled n d e1).1 : ℚ) / (Float64.scaled n d e1).2 := by
          rw [le_div_iff₀ hs2q]
          exact hq2
        rw [hsq, le_div_iff₀ h2e1] at hq3
        exact hq3
      · have : (2 : ℚ) ^ 53 * 2 ^ e1 = 2 ^ (e1 + 53) := by
          rw [show e1 + 53 = 53 + e1 by ring, zpow_add₀ (by norm_num)]
          norm_num
        rw [this]
        exact hup
  obtain ⟨e0, he, hN, hU⟩ := key
  rw [he]
  refine ⟨le_max_right _ _, ?_, ?_⟩
  · by_cases hc : e0 ≤ -1074
    · left
      exact max_eq_right hc
    · right
      rw [max_eq_left (by omega)]
      exact hN
  · by_cases hc : e0 ≤ -1074
    · rw [max_eq_right hc]
      have hmono : (2 : ℚ) ^ e0 ≤ 2 ^ (-1074 : ℤ) := zpow_le_zpow_right₀ (by norm_num) hc
      calc (n : ℚ) / d < 2 ^ 53 * 2 ^ e0 := hU
        _ ≤ 2 ^ 53 * 2 ^ (-1074 : ℤ) := by
            exact mul_le_mul_of_nonneg_left hmono (by positivity)
    · rw [max_eq_left (by omega)]
      exact hU

theorem round_spec (neg : Bool) (n d : Nat) (hn : 0 < n) (hd : 0 < d) :
    ∃ q1 : Nat, q1 ≤ 2 ^ 53
      ∧ |(q1 : ℚ) * 2 ^ Float64.ulpExp n d - (n : ℚ) / d| ≤ 2 ^ Float64.ulpExp n d / 2
      ∧ ((Float64.round neg n d = Float64.inf neg ∧ 971 ≤ Float64.ulpExp n d)
        ∨ ∃ m e, Float64.round neg n d = Float64.fin neg m e ∧ m < 2 ^ 53
            ∧ (m : ℚ) * 2 ^ e = (q1 : ℚ) * 2 ^ Float64.ulpExp n d
            ∧ Float64.ulpExp n d ≤ e ∧ e ≤ 971) := by
  obtain ⟨hu1, _, hU⟩ := ulpExp_spec n d hn hd
  obtain ⟨hb, hsq⟩ := scaled_spec n d (Float64.ulpExp n d) hd
  set u := Float64.ulpExp n d with hu
  set a := (Float64.scaled n d u).1 with ha
  set b := (Float64.scaled n d u).2 with hb'
  have hbq : (0 : ℚ) < b := by exact_mod_cast hb
  have h2u : (0 : ℚ) < 2 ^ u := by positivity
  -- the quotient is below 2^53
  have hq53 : a / b < 2 ^ 53 := by
    rw [Nat.div_lt_iff_lt_mul hb]
    have h1 : (a : ℚ) / b < 2 ^ 53 := by
      rw [hsq, div_lt_iff₀ h2u]
      exact hU
    rw [div_lt_iff₀ hbq] at h1
    exact_mod_cast h1
  have hdm : a = b * (a / b) + a % b := (Nat.div_add_mod a b).symm
  have hr : a % b < b := Nat.mod_lt _ hb
  set q := a / b with hq
  set r := a % b with hr'
  set c := b * q with hc
  -- the rounded quotient
  obtain ⟨q1, hq1⟩ : ∃ q1 : Nat,
      q1 = if 2 * r < b then q else if 2 * r = b ∧ q % 2 = 0 then q else q + 1 := ⟨_, rfl⟩
  have hq1b : (q1 * b = c ∧ 2 * r ≤ b) ∨ (q1 * b = c + b ∧ b ≤ 2 * r) := by
    by_cases h1 : 2 * r < b
    · left
      rw [hq1, if_pos h1]
      exact ⟨by rw [hc, Nat.mul_comm], by omega⟩
    · by_cases h2 : 2 * r = b ∧ q % 2 = 0
      · left
        rw [hq1, if_neg h1, if_pos h2]
        exact ⟨by rw [hc, Nat.mul_comm], by omega⟩
      · right
        rw [hq1, if_neg h1, if_neg h2]
        exact ⟨by rw [hc]; ring, by omega⟩
  have hq1le : q1 ≤ 2 ^ 53 := by
    have : q1 ≤ q + 1 := by
      rw [hq1]
      split_ifs <;> omega
    omega
  have herr : |(q1 : ℚ) * 2 ^ u - (n : ℚ) / d| ≤ 2 ^ u / 2 := by
    have hx : (n : ℚ) / d = (a : ℚ) / b * 2 ^ u := by
      rw [hsq]
      field_simp
      ring
    have haq : (a : ℚ) = c + r := by exact_mod_cast hdm
    have hfac : (q1 : ℚ) * 2 ^ u - (a : ℚ) / b * 2 ^ u
        = ((q1 : ℚ) * b - a) / b * 2 ^ u := by
      field_simp
      ring
    rw [hx, hfac, abs_mul, abs_div, abs_of_pos hbq, abs_of_pos h2u]
    have hnum : |(q1 : ℚ) * b - a| ≤ b / 2 := by
      rcases hq1b with ⟨h1, h2⟩ | ⟨h1, h2⟩
      · have h1q : (q1 : ℚ) * b = c := by exact_mod_cast h1
        have h2q : (2 : ℚ) * r ≤ b := by exact_mod_cast h2
        have hr0 : (0 : ℚ) ≤ r := by positivity
        rw [h1q, haq, abs_le]
        constructor <;> linarith
      · have h1q : (q1 : ℚ) * b = c + b := by exact_mod_cast h1
        have h2q : (b : ℚ) ≤ 2 * r := by exact_mod_cast h2
        have hrb : (r : ℚ) < b := by exact_mod_cast hr
        rw [h1q, haq, abs_le]
        constructor <;> linarith
    calc |(q1 : ℚ) * b - a| / b * 2 ^ u ≤ (b / 2) / b * 2 ^ u := by
          apply mul_le_mul_of_nonneg_right _ h2u.le
          exact div_le_div_of_nonneg_right hnum hbq.le
      _ = 2 ^ u / 2 := by
          field_simp
          ring
  refine ⟨q1, hq1le, herr, ?_⟩
  have hround : Float64.round neg n d
      = if 971 < (if q1 = 2 ^ 53 then u + 1 else u) then Float64.inf neg
        else Float64.fin neg (if q1 = 2 ^ 53 then 2 ^ 52 else q1)
          (if q1 = 2 ^ 53 then u + 1 else u) := by
    have hn0 : ¬ n = 0 := by omega
    rw [hq1]
    unfold Float64.round
    simp only [hn0, if_false]
  rw [hround]
  by_cases h53 : q1 = 2 ^ 53
  · simp only [h53, if_true]
    by_cases hov : 971 < u + 1
    · left
      simp only [hov, if_true]
      exact ⟨trivial, by omega⟩
    · right
      simp only [hov, if_false]
      refine ⟨2 ^ 52, u + 1, rfl, by norm_num, ?_, by omega, by omega⟩
      rw [zpow_add₀ (by norm_num)]
      push_cast
      ring
  · simp only [h53, if_false]
    by_cases hov : 971 < u
    · left
      simp only [hov, if_true]
      exact ⟨trivial, by omega⟩
    · right
      simp only [hov, if_false]
      exact ⟨q1, u, rfl, by omega, rfl, le_rfl, by omega⟩

theorem quarter_eq : Float64.quarter = Float64.fin false (2 ^ 52) (-54) := by decide!

theorem fifth_eq : Float64.fifth = Float64.fin false 7205759403792794 (-55) := by decide!

theorem round_zero (neg : Bool) (d : Nat) : Float64.round neg 0 d = Float64.fin neg 0 (-1074) := by
  simp [Float64.round]

theorem round_isZero (neg : Bool) (n d : Nat) (hn : 0 < n) (hd : 0 < d)
    (hx : (2 : ℚ) ^ (-1074 : ℤ) ≤ (n : ℚ) / d) : (Float64.round neg n d).isZero = false := by
  obtain ⟨hu1, hN, hU⟩ := ulpExp_spec n d hn hd
  obtain ⟨q1, _, herr, hres⟩ := round_spec neg n d hn hd
  have h2u : (0 : ℚ) < 2 ^ Float64.ulpExp n d := by positivity
  have hxu : (2 : ℚ) ^ Float64.ulpExp n d ≤ (n : ℚ) / d := by
    rcases hN with h | h
    · rw [h]
      exact hx
    · have : (2 : ℚ) ^ Float64.ulpExp n d ≤ 2 ^ 52 * 2 ^ Float64.ulpExp n d := by
        nlinarith
      linarith
  have hq1 : 0 < (q1 : ℚ) * 2 ^ Float64.ulpExp n d := by
    have := (abs_le.mp herr).1
    linarith
  rcases hres with ⟨h, _⟩ | ⟨m, e, h, _, hv, _, _⟩
  · rw [h]
    rfl
  · rw [h]
    have hm : m ≠ 0 := by
      rintro rfl
      rw [← hv] at hq1
      simp at hq1
    simp [Float64.isZero, hm]

theorem ofDyadic_isZero (s : Bool) (r : Nat) (c : Int) (hc : -1074 ≤ c) :
    (Float64.ofDyadic s r c).isZero = true ↔ r = 0 := by
  obtain ⟨hb, hsq⟩ := scaled_spec r 1 (-c) Nat.one_pos
  simp only [Float64.ofDyadic]
  constructor
  · intro h
    by_contra hr
    have hr1 : 1 ≤ r := by omega
    have ha : 0 < (Float64.scaled r 1 (-c)).1 := by
      unfold Float64.scaled
      split_ifs
      · exact hr1
      · positivity
    have hx : (2 : ℚ) ^ (-1074 : ℤ)
        ≤ ((Float64.scaled r 1 (-c)).1 : ℚ) / (Float64.scaled r 1 (-c)).2 := by
      have h1 : (2 : ℚ) ^ (-1074 : ℤ) ≤ 2 ^ c := zpow_le_zpow_right₀ (by norm_num) hc
      have h2 : (1 : ℚ) ≤ r := by exact_mod_cast hr1
      have h3 : (0 : ℚ) < 2 ^ c := by positivity
      have h4 : (r : ℚ) / ((1 : ℕ) : ℚ) / 2 ^ (-c) = r * 2 ^ c := by
        rw [zpow_neg]
        field_simp
      rw [hsq, h4]
      calc (2 : ℚ) ^ (-1074 : ℤ) ≤ 1 * 2 ^ c := by rw [one_mul]; exact h1
        _ ≤ r * 2 ^ c := mul_le_mul_of_nonneg_right h2 h3.le
    rw [round_isZero s _ _ ha hb hx] at h
    exact Bool.noConfusion h
  · rintro rfl
    have ha : (Float64.scaled 0 1 (-c)).1 = 0 := by
      unfold Float64.scaled
      split_ifs <;> simp
    rw [ha, round_zero]
    rfl

/-- The value of a finite float is a whole number of quarters exactly when its remainder
modulo 0.25 compares equal to zero. -/
theorem Mod_quarter_isZero (s : Bool) (m : Nat) (e : Int) (he : -1074 ≤ e) :
    (math.Mod (Float64.fin s m e) Float64.quarter).isZero = true
      ↔ ∃ i : Nat, (m : ℚ) * 2 ^ e = (i : ℚ) / 4 := by
  rw [quarter_eq]
  unfold math.Mod
  have hk : ¬ (2 ^ 52 = 0) := by norm_num
  simp only [hk, if_false]
  have hc : -1074 ≤ min e (-54) := le_min he (by norm_num)
  rw [ofDyadic_isZero s _ _ hc]
  set c := min e (-54) with hcdef
  have hce : c ≤ e := min_le_left _ _
  have hc54 : c ≤ -54 := min_le_right _ _
  have hA : ((m * 2 ^ (e - c).toNat : ℕ) : ℚ) = (m : ℚ) * 2 ^ (e - c) := by
    push_cast
    rw [← zpow_natCast, Int.toNat_of_nonneg (by omega)]
  have hB : ((2 ^ 52 * 2 ^ (-54 - c).toNat : ℕ) : ℚ) = 2 ^ (-2 - c) := by
    push_cast
    rw [← zpow_natCast (2 : ℚ) (-54 - c).toNat, Int.toNat_of_nonneg (by omega),
      show (-2 - c : ℤ) = 52 + (-54 - c) by ring, zpow_add₀ (by norm_num)]
    norm_num
  have h2c : (0 : ℚ) < 2 ^ c := by positivity
  have hsplit1 : (2 : ℚ) ^ (e - c) = 2 ^ e / 2 ^ c := zpow_sub₀ (by norm_num) _ _
  have hsplit2 : (2 : ℚ) ^ (-2 - c) = 1 / 4 / 2 ^ c := by
    rw [zpow_sub₀ (by norm_num)]
    norm_num
  rw [← Nat.dvd_iff_mod_eq_zero]
  constructor
  · rintro ⟨j, hj⟩
    refine ⟨j, ?_⟩
    have hq : ((m * 2 ^ (e - c).toNat : ℕ) : ℚ) = ((2 ^ 52 * 2 ^ (-54 - c).toNat * j : ℕ) : ℚ) := by
      rw [hj]
    rw [Nat.cast_mul (2 ^ 52 * 2 ^ (-54 - c).toNat) j, hA, hB, hsplit1, hsplit2] at hq
    have key : (m : ℚ) * 2 ^ e = ((m : ℚ) * (2 ^ e / 2 ^ c)) * 2 ^ c := by
      field_simp
    rw [key, hq]
    field_simp
    ring
  · rintro ⟨i, hi⟩
    refine ⟨i, ?_⟩
    have hq : ((m * 2 ^ (e - c).toNat : ℕ) : ℚ) = ((2 ^ 52 * 2 ^ (-54 - c).toNat * i : ℕ) : ℚ) := by
      rw [Nat.cast_mul (2 ^ 52 * 2 ^ (-54 - c).toNat) i, hA, hB, hsplit1, hsplit2]
      rw [← mul_div_assoc, hi]
      ring
    exact_mod_cast hq

theorem round_quarter_of_multiple (n d i : Nat) (hn : 0 < n) (hd : 0 < d)
    (hx : (n : ℚ) / d = (i : ℚ) / 4) (m : Nat) (e : Int)
    (hr : Float64.round false n d = Float64.fin false m e) :
    ∃ j : Nat, (m : ℚ) * 2 ^ e = (j : ℚ) / 4 := by
  obtain ⟨q1, _, herr, hres⟩ := round_spec false n d hn hd
  rcases hres with ⟨h, _⟩ | ⟨m', e', h, _, hv, _, _⟩
  · rw [h] at hr
    exact Float64.noConfusion hr
  · rw [h] at hr
    injection hr with _ hm he
    subst hm he
    rw [hv]
    set u := Float64.ulpExp n d with hu
    have h2u : (0 : ℚ) < 2 ^ u := by positivity
    by_cases hu2 : -2 ≤ u
    · refine ⟨q1 * 2 ^ (u + 2).toNat, ?_⟩
      push_cast
      rw [← zpow_natCast (2 : ℚ) (u + 2).toNat, Int.toNat_of_nonneg (by omega),
        zpow_add₀ (by norm_num)]
      norm_num
      ring
    · refine ⟨i, ?_⟩
      have hk : (0 : ℤ) ≤ -2 - u := by omega
      have hx2 : (i : ℚ) / 4 = ((i * 2 ^ (-2 - u).toNat : ℕ) : ℚ) * 2 ^ u := by
        push_cast
        rw [← zpow_natCast (2 : ℚ) (-2 - u).toNat, Int.toNat_of_nonneg hk, mul_assoc,
          ← zpow_add₀ (by norm_num)]
        norm_num
        ring
      rw [hx, hx2, ← sub_mul, abs_mul, abs_of_pos h2u] at herr
      have h1 : |(q1 : ℚ) - ((i * 2 ^ (-2 - u).toNat : ℕ) : ℚ)| ≤ 1 / 2 := by
        by_contra hcon
        have hcon' := lt_of_not_le hcon
        have := mul_lt_mul_of_pos_right hcon' h2u
        linarith
      have h1' := abs_le.mp h1
      have h2 : ((q1 : ℤ) - ((i * 2 ^ (-2 - u).toNat : ℕ) : ℤ)) = 0 := by
        have h3 : (((q1 : ℤ) - ((i * 2 ^ (-2 - u).toNat : ℕ) : ℤ) : ℤ) : ℚ) < 1 := by
          push_cast
          push_cast at h1'
          linarith [h1'.2]
        have h4 : (-1 : ℚ) < (((q1 : ℤ) - ((i * 2 ^ (-2 - u).toNat : ℕ) : ℤ) : ℤ) : ℚ) := by
          push_cast
          push_cast at h1'
          linarith [h1'.1]
        have h3' : ((q1 : ℤ) - ((i * 2 ^ (-2 - u).toNat : ℕ) : ℤ)) < 1 := by exact_mod_cast h3
        have h4' : (-1 : ℤ) < ((q1 : ℤ) - ((i * 2 ^ (-2 - u).toNat : ℕ) : ℤ)) := by
          exact_mod_cast h4
        omega
      have h5 : (q1 : ℚ) = ((i * 2 ^ (-2 - u).toNat : ℕ) : ℚ) := by
        have : (q1 : ℤ) = ((i * 2 ^ (-2 - u).toNat : ℕ) : ℤ) := by omega
        exact_mod_cast this
      rw [h5, ← hx2]

theorem round_not_quarter (N : Nat) (hN0 : 0 < N) (hN : N < 100 * 2 ^ 47) (h25 : ¬ 25 ∣ N) :
    ∃ m e, Float64.round false N 100 = Float64.fin false m e ∧ -1074 ≤ e
      ∧ ¬ ∃ i : Nat, (m : ℚ) * 2 ^ e = (i : ℚ) / 4 := by
  obtain ⟨hu1, hNn, hU⟩ := ulpExp_spec N 100 hN0 (by norm_num)
  obtain ⟨q1, _, herr, hres⟩ := round_spec false N 100 hN0 (by norm_num)
  set u := Float64.ulpExp N 100 with hu
  have hxlt : ((N : ℕ) : ℚ) / ((100 : ℕ) : ℚ) < 2 ^ 47 := by
    rw [div_lt_iff₀ (by norm_num)]
    have : (N : ℚ) < 100 * 2 ^ 47 := by exact_mod_cast hN
    push_cast
    linarith
  have hu6 : u ≤ -6 := by
    rcases hNn with h | h
    · omega
    · by_contra hcon
      have h5 : (2 : ℚ) ^ (-5 : ℤ) ≤ 2 ^ u := zpow_le_zpow_right₀ (by norm_num) (by omega)
      have h6 : (2 : ℚ) ^ 52 * 2 ^ (-5 : ℤ) = 2 ^ 47 := by norm_num
      have h7 : (2 : ℚ) ^ 52 * 2 ^ (-5 : ℤ) ≤ 2 ^ 52 * 2 ^ u :=
        mul_le_mul_of_nonneg_left h5 (by positivity)
      linarith
  have h2u : (2 : ℚ) ^ u ≤ 1 / 64 := by
    have h6 : (2 : ℚ) ^ (-6 : ℤ) = 1 / 64 := by norm_num
    rw [← h6]
    exact zpow_le_zpow_right₀ (by norm_num) hu6
  rcases hres with ⟨_, h971⟩ | ⟨m, e, h, _, hv, hue, _⟩
  · omega
  · refine ⟨m, e, h, by omega, ?_⟩
    rintro ⟨i, hi⟩
    rw [hv] at hi
    rw [hi] at herr
    have herr2 := abs_le.mp herr
    push_cast at herr2
    have h1 : ((25 * i : ℤ) : ℚ) - (N : ℤ) < 1 := by
      push_cast
      linarith [herr2.2]
    have h2 : (-1 : ℚ) < ((25 * i : ℤ) : ℚ) - (N : ℤ) := by
      push_cast
      linarith [herr2.1]
    have h3 : (25 * i : ℤ) - (N : ℤ) < 1 := by exact_mod_cast h1
    have h4 : (-1 : ℤ) < (25 * i : ℤ) - (N : ℤ) := by exact_mod_cast h2
    apply h25
    exact ⟨i, by omega⟩

/-! ## Scanning a decimal amount -/

theorem isDigit_mem (c : Char) (h : c.isDigit = true) : c ∈ "0123456789".data := by
  have hc : c = Char.ofNat c.toNat := (Char.ofNat_toNat c).symm
  simp only [Char.isDigit, Bool.and_eq_true, decide_eq_true_eq] at h
  have h2 : 48 ≤ c.val.toNat := h.1
  have h3 : c.val.toNat ≤ 57 := h.2
  have h2' : 48 ≤ c.toNat := h2
  have h3' : c.toNat ≤ 57 := h3
  generalize c.toNat = n at hc h2' h3'
  interval_cases n <;> (subst hc; decide)

theorem digit_prop (P : Char → Prop) (hP : ∀ c ∈ "0123456789".data, P c) (c : Char)
    (h : c.isDigit = true) : P c :=
  hP c (isDigit_mem c h)

theorem takeWhile_append_stop (p : Char → Bool) (l r : List Char) (x : Char)
    (hl : ∀ c ∈ l, p c = true) (hx : p x = false) :
    (l ++ x :: r).takeWhile p = l ∧ (l ++ x :: r).dropWhile p = x :: r := by
  induction l with
  | nil => simp [List.takeWhile, List.dropWhile, hx]
  | cons c cs ih =>
    have hc : p c = true := hl c (List.mem_cons_self _ _)
    have ih' := ih (fun y hy => hl y (List.mem_cons_of_mem _ hy))
    simp [List.takeWhile, List.dropWhile, hc, ih'.1, ih'.2]

theorem takeWhile_all (p : Char → Bool) (l : List Char) (hl : ∀ c ∈ l, p c = true) :
    l.takeWhile p = l ∧ l.dropWhile p = [] := by
  induction l with
  | nil => simp
  | cons c cs ih =>
    have hc : p c = true := hl c (List.mem_cons_self _ _)
    have ih' := ih (fun y hy => hl y (List.mem_cons_of_mem _ hy))
    simp [List.takeWhile, List.dropWhile, hc, ih'.1, ih'.2]

theorem SkipSpace_digit (c : Char) (rest : List Char) (h : c.isDigit = true) :
    fmt.SkipSpace (c :: rest) = some (c :: rest) := by
  have h1 : c ≠ '\r' ∧ c ≠ '\n' ∧ fmt.isSpace c = false :=
    digit_prop (fun c => c ≠ '\r' ∧ c ≠ '\n' ∧ fmt.isSpace c = false) (by decide) c h
  simp [fmt.SkipSpace, h1.1, h1.2.1, h1.2.2]

theorem accept_refuse (ok buf : List Char) (c : Char) (rest : List Char)
    (h : ok.contains c = false) :
    fmt.accept ok (buf, c :: rest) = (false, (buf, c :: rest)) := by
  simp only [fmt.accept, h, Bool.false_eq_true, if_false]

theorem accept_take (ok buf : List Char) (c : Char) (rest : List Char)
    (h : ok.contains c = true) :
    fmt.accept ok (buf, c :: rest) = (true, (buf ++ [c], rest)) := by
  simp only [fmt.accept, h, if_true]

theorem accept_nil (ok buf : List Char) : fmt.accept ok (buf, []) = (false, (buf, [])) := rfl

theorem acceptChain_refuse (ok : List Char) (oks : List (List Char)) (buf : List Char) (c : Char)
    (rest : List Char) (h : ok.contains c = false) :
    fmt.acceptChain (ok :: oks) (buf, c :: rest) = (false, (buf, c :: rest)) := by
  simp only [fmt.acceptChain, accept_refuse ok buf c rest h]

theorem floatToken_decimal (ds fs : List Char) (hds : ds ≠ [])
    (h1 : ∀ c ∈ ds, c.isDigit = true) (h2 : ∀ c ∈ fs, c.isDigit = true) :
    fmt.floatToken (ds ++ '.' :: fs) = (ds ++ '.' :: fs, []) := by
  obtain ⟨c, ds', rfl⟩ := List.exists_cons_of_ne_nil hds
  have hc : c.isDigit = true := h1 c (List.mem_cons_self _ _)
  have hds' : ∀ y ∈ ds', y.isDigit = true := fun y hy => h1 y (List.mem_cons_of_mem _ hy)
  have hdig : ∀ y, y.isDigit = true → "0123456789_".data.contains y = true :=
    digit_prop (fun y => "0123456789_".data.contains y = true) (by decide)
  have hdot : "0123456789_".data.contains '.' = false := by decide
  have hcn : "nN".data.contains c = false
      ∧ "+-".data.contains c = false ∧ "iI".data.contains c = false :=
    digit_prop (fun y => "nN".data.contains y = false
      ∧ "+-".data.contains y = false ∧ "iI".data.contains y = false) (by decide) c hc
  have hnan := acceptChain_refuse "nN".data ["aA".data, "nN".data] [] c (ds' ++ '.' :: fs) hcn.1
  have hsign := accept_refuse "+-".data [] c (ds' ++ '.' :: fs) hcn.2.1
  have hinf := acceptChain_refuse "iI".data ["nN".data, "fF".data] [] c (ds' ++ '.' :: fs)
    hcn.2.2
  -- the "0x" test takes at most a leading zero
  have hhex : ∃ buf tail, fmt.acceptChain ["0".data, "xX".data] ([], c :: ds' ++ '.' :: fs)
      = (false, (buf, tail ++ '.' :: fs))
      ∧ buf ++ tail = c :: ds' ∧ (∀ y ∈ tail, y.isDigit = true) := by
    by_cases h0 : "0".data.contains c = true
    · have hx : ∀ z zs, ds' ++ '.' :: fs = z :: zs → "xX".data.contains z = false := by
        intro z zs hz
        cases ds' with
        | nil =>
          simp only [List.nil_append, List.cons.injEq] at hz
          rw [← hz.1]
          decide
        | cons d dd =>
          simp only [List.cons_append, List.cons.injEq] at hz
          rw [← hz.1]
          exact digit_prop (fun y => "xX".data.contains y = false) (by decide) d
            (hds' d (List.mem_cons_self _ _))
      refine ⟨[c], ds', ?_, rfl, hds'⟩
      cases hr : ds' ++ '.' :: fs with
      | nil => simp at hr
      | cons z zs =>
        have hxz := hx z zs hr
        simp only [fmt.acceptChain, List.cons_append, hr, accept_take "0".data [] c _ h0,
          accept_refuse "xX".data _ z zs hxz, List.nil_append]
    · have h0' : "0".data.contains c = false := by simpa using h0
      refine ⟨[], c :: ds', ?_, rfl, h1⟩
      exact acceptChain_refuse "0".data ["xX".data] [] c (ds' ++ '.' :: fs) h0'
  obtain ⟨buf, tail, hhex1, hhex2, hhex3⟩ := hhex
  have hloop1 : fmt.acceptLoop "0123456789_".data (buf, tail ++ '.' :: fs)
      = (c :: ds', '.' :: fs) := by
    have ht := takeWhile_append_stop "0123456789_".data.contains tail fs '.'
      (fun y hy => hdig y (hhex3 y hy)) hdot
    simp only [fmt.acceptLoop, ht.1, ht.2, hhex2]
  have hloop2 : fmt.acceptLoop "0123456789_".data (c :: ds' ++ ['.'], fs)
      = (c :: ds' ++ '.' :: fs, []) := by
    have ht := takeWhile_all "0123456789_".data.contains fs (fun y hy => hdig y (h2 y hy))
    simp only [fmt.acceptLoop, ht.1, ht.2]
    simp
  have hpoint : fmt.accept ".".data (c :: ds', '.' :: fs) = (true, (c :: ds' ++ ['.'], fs)) :=
    accept_take ".".data _ '.' fs (by decide)
  unfold fmt.floatToken
  simp only [List.cons_append] at hnan hsign hinf hhex1 ⊢
  simp only [hnan, hsign, hinf, hhex1, Bool.false_eq_true, if_false, hloop1, hpoint, if_true,
    hloop2, accept_nil]
  rfl

theorem convertFloat_decimal (ds fs : List Char)
    (h1 : ∀ c ∈ ds, c.isDigit = true) (h2 : ∀ c ∈ fs, c.isDigit = true) :
    fmt.convertFloat (ds ++ '.' :: fs) = strconv.ParseFloat (ds ++ '.' :: fs) := by
  have hp : (ds ++ '.' :: fs).contains 'p' = false := by
    have hd : ∀ y, y.isDigit = true → y ≠ 'p' :=
      digit_prop (fun y => y ≠ 'p') (by decide)
    rw [Bool.eq_false_iff]
    intro hcon
    rw [List.contains_iff_exists_mem_beq] at hcon
    obtain ⟨y, hy, hyp⟩ := hcon
    have hyp' : y = 'p' := by
      have : 'p' = y := by simpa using hyp
      exact this.symm
    rcases List.mem_append.mp hy with h | h
    · exact hd y (h1 y h) hyp'
    · rcases List.mem_cons.mp h with h | h
      · rw [h] at hyp'
        revert hyp'
        decide
      · exact hd y (h2 y h) hyp'
  unfold fmt.convertFloat
  simp only [hp, Bool.false_eq_true, false_and, if_false]

theorem pushAll (base : Nat) (l : List Char) (st : strconv.Mantissa) :
    l.foldl (fun st c => st.push base (strconv.digitVal c)) st
      = ⟨l.foldl (fun a c => a * base + strconv.digitVal c) st.mant,
          if st.sawdot then st.frac + l.length else st.frac,
          st.sawdot, st.sawdigits || !l.isEmpty⟩ := by
  induction l generalizing st with
  | nil => cases st; simp
  | cons c cs ih =>
    rw [List.foldl_cons, ih]
    cases st with
    | mk mant frac sawdot sawdigits =>
      cases sawdot <;> simp [strconv.Mantissa.push]
      omega

theorem readMantissa_digits (l rest : List Char) (st : strconv.Mantissa)
    (hl : ∀ c ∈ l, c.isDigit = true) :
    strconv.readMantissa 10 st (l ++ rest)
      = strconv.readMantissa 10
          (l.foldl (fun st c => st.push 10 (strconv.digitVal c)) st) rest := by
  induction l generalizing st with
  | nil => rfl
  | cons c cs ih =>
    have hc : c.isDigit = true := hl c (List.mem_cons_self _ _)
    have hne : c ≠ '_' ∧ c ≠ '.' := digit_prop (fun y => y ≠ '_' ∧ y ≠ '.') (by decide) c hc
    rw [List.cons_append, List.foldl_cons, ← ih _ (fun y hy => hl y (List.mem_cons_of_mem _ hy))]
    simp [strconv.readMantissa, hne.1, hne.2, hc]

theorem readMantissa_decimal (ds fs : List Char) (hds : ds ≠ [])
    (h1 : ∀ c ∈ ds, c.isDigit = true) (h2 : ∀ c ∈ fs, c.isDigit = true) :
    strconv.readMantissa 10 ⟨0, 0, false, false⟩ (ds ++ '.' :: fs)
      = (⟨digitsValue (ds ++ fs), fs.length, true, true⟩, []) := by
  rw [readMantissa_digits ds _ _ h1, pushAll]
  have hstep : ∀ st : strconv.Mantissa, st.sawdot = false →
      strconv.readMantissa 10 st ('.' :: fs)
        = strconv.readMantissa 10 { st with sawdot := true } (fs ++ []) := by
    intro st hst
    simp [strconv.readMantissa, hst]
  rw [hstep _ rfl, readMantissa_digits fs [] _ h2, pushAll]
  have hne : ds.isEmpty = false := by
    cases ds with
    | nil => exact absurd rfl hds
    | cons _ _ => rfl
  simp [strconv.readMantissa, digitsValue, hne, List.foldl_append]

theorem underscoreScan_plain (l : List Char) (saw : Nat)
    (hl : ∀ c ∈ l, c.isDigit = true ∨ c = '.') (hsaw : saw ≠ 1) :
    strconv.underscoreScan false saw l = true := by
  induction l generalizing saw with
  | nil => simp [strconv.underscoreScan, hsaw]
  | cons c cs ih =>
    have hcs : ∀ y ∈ cs, y.isDigit = true ∨ y = '.' := fun y hy => hl y (List.mem_cons_of_mem _ hy)
    rcases hl c (List.mem_cons_self _ _) with hc | hc
    · simp [strconv.underscoreScan, hc, ih 0 hcs (by omega)]
    · subst hc
      have hd : ('.' : Char).isDigit = false := by decide
      have hu : ('.' : Char) ≠ '_' := by decide
      simp [strconv.underscoreScan, hd, hu, hsaw, ih 3 hcs (by omega)]

theorem underscoreOK_decimal (ds fs : List Char) (hds : ds ≠ [])
    (h1 : ∀ c ∈ ds, c.isDigit = true) (h2 : ∀ c ∈ fs, c.isDigit = true) :
    strconv.underscoreOK (ds ++ '.' :: fs) = true := by
  have hall : ∀ c ∈ ds ++ '.' :: fs, c.isDigit = true ∨ c = '.' := by
    intro c hc
    rcases List.mem_append.mp hc with h | h
    · exact Or.inl (h1 c h)
    · rcases List.mem_cons.mp h with h | h
      · exact Or.inr h
      · exact Or.inl (h2 c h)
  obtain ⟨c, ds', rfl⟩ := List.exists_cons_of_ne_nil hds
  have hc : c.isDigit = true := h1 c (List.mem_cons_self _ _)
  have hsign : c ≠ '-' ∧ c ≠ '+' := digit_prop (fun y => y ≠ '-' ∧ y ≠ '+') (by decide) c hc
  have hplain := underscoreScan_plain _ 2 hall (by omega)
  have hlow : ∀ b, (b.isDigit = true ∨ b = '.') →
      ¬ (b.toLower = 'b' ∨ b.toLower = 'o' ∨ b.toLower = 'x') := by
    intro b hb
    rcases hb with hb | hb
    · exact digit_prop (fun y => ¬ (y.toLower = 'b' ∨ y.toLower = 'o' ∨ y.toLower = 'x'))
        (by decide) b hb
    · subst hb
      decide
  unfold strconv.underscoreOK
  split
  · rename_i heq
    simp only [List.cons_append, List.cons.injEq] at heq
    exact absurd heq.1 hsign.1
  · rename_i heq
    simp only [List.cons_append, List.cons.injEq] at heq
    exact absurd heq.1 hsign.2
  · dsimp only
    split
    · rename_i b r heq
      have hb : b.isDigit = true ∨ b = '.' := by
        apply hall
        rw [heq]
        simp
      simp only [hlow b hb, if_false]
      exact hplain
    · exact hplain

theorem special_digit (c : Char) (rest : List Char) (h : c.isDigit = true) :
    strconv.special (c :: rest) = none := by
  have hne : ¬ (c = '+' ∨ c = '-' ∨ c = 'i' ∨ c = 'I') ∧ ¬ (c = 'n' ∨ c = 'N') :=
    digit_prop (fun y => ¬ (y = '+' ∨ y = '-' ∨ y = 'i' ∨ y = 'I') ∧ ¬ (y = 'n' ∨ y = 'N'))
      (by decide) c h
  simp only [strconv.special, hne.1, hne.2, if_false]

theorem ParseFloat_decimal (ds fs : List Char) (hds : ds ≠ [])
    (h1 : ∀ c ∈ ds, c.isDigit = true) (h2 : ∀ c ∈ fs, c.isDigit = true) :
    strconv.ParseFloat (ds ++ '.' :: fs)
      = strconv.atofValue false false (digitsValue (ds ++ fs)) (-(fs.length : Int)) := by
  have hmant := readMantissa_decimal ds fs hds h1 h2
  have hok := underscoreOK_decimal ds fs hds h1 h2
  obtain ⟨c, ds', rfl⟩ := List.exists_cons_of_ne_nil hds
  have hc : c.isDigit = true := h1 c (List.mem_cons_self _ _)
  have hsign : c ≠ '-' ∧ c ≠ '+' := digit_prop (fun y => y ≠ '-' ∧ y ≠ '+') (by decide) c hc
  have hsecond : ¬ ((ds' ++ '.' :: fs).head? = some 'x' ∨ (ds' ++ '.' :: fs).head? = some 'X') := by
    cases ds' with
    | nil => simp
    | cons d dd =>
      have hd : d ≠ 'x' ∧ d ≠ 'X' := digit_prop (fun y => y ≠ 'x' ∧ y ≠ 'X') (by decide) d
        (h1 d (by simp))
      simp [hd.1, hd.2]
  unfold strconv.ParseFloat
  rw [List.cons_append] at hmant hok ⊢
  rw [special_digit c _ hc]
  simp only [List.head?_cons, Option.some.injEq, hsign.1, hsign.2, or_self, if_false,
    List.tail_cons, hsecond, and_false, decide_False, Bool.false_eq_true, hmant, hok, and_self,
    if_true, Nat.cast_inj]
  rfl

/-- Scanning a decimal amount (one or more digits, a point, digits): the stored value is the
number rounded to binary64, and the old value when the rounding overflows. -/
theorem Sscanf_decimal (ds fs : List Char) (hds : ds ≠ [])
    (h1 : ∀ c ∈ ds, c.isDigit = true) (h2 : ∀ c ∈ fs, c.isDigit = true) (v : Float64) :
    fmt.Sscanf (ds ++ '.' :: fs) v
      = match strconv.atofValue false false (digitsValue (ds ++ fs)) (-(fs.length : Int)) with
        | some f => f
        | none => v := by
  have htok := floatToken_decimal ds fs hds h1 h2
  have hconv := convertFloat_decimal ds fs h1 h2
  have hparse := ParseFloat_decimal ds fs hds h1 h2
  obtain ⟨c, ds', rfl⟩ := List.exists_cons_of_ne_nil hds
  have hc : c.isDigit = true := h1 c (List.mem_cons_self _ _)
  unfold fmt.Sscanf
  rw [List.cons_append] at htok hconv hparse ⊢
  rw [SkipSpace_digit c _ hc]
  simp only [Option.some_bind, SkipSpace_digit c _ hc, htok, hconv, hparse]

theorem atofValue_two (N : Nat) :
    strconv.atofValue false false N (-((2 : Nat) : Int))
      = match Float64.round false N 100 with
        | .fin s m e => some (.fin s m e)
        | _ => none := by
  unfold strconv.atofValue
  simp

theorem digitsValue_append_two (ds : List Char) (a b : Char) :
    digitsValue (ds ++ [a, b])
      = digitsValue ds * 100 + (strconv.digitVal a * 10 + strconv.digitVal b) := by
  simp only [digitsValue, List.foldl_append, List.foldl_cons, List.foldl_nil]
  ring

theorem Mod_zero_quarter : (math.Mod Float64.zero Float64.quarter).isZero = true := by decide!

/-- A total written with two decimals whose number of cents is a multiple of 25 passes the
test of `isMultipleOfQuarter`, whatever its magnitude. -/
theorem isMultipleOfQuarter_of_multiple (ds : List Char) (a b : Char) (hds : ds ≠ [])
    (h1 : ∀ c ∈ ds, c.isDigit = true) (ha : a.isDigit = true) (hb : b.isDigit = true)
    (h25 : 25 ∣ digitsValue (ds ++ [a, b])) :
    isMultipleOfQuarter (String.mk (ds ++ ['.', a, b])) = true := by
  have h2 : ∀ c ∈ [a, b], c.isDigit = true := by
    intro c hc
    simp only [List.mem_cons, List.mem_singleton, List.not_mem_nil, or_false] at hc
    rcases hc with rfl | rfl
    · exact ha
    · exact hb
  unfold isMultipleOfQuarter
  rw [show (String.mk (ds ++ ['.', a, b])).data = ds ++ '.' :: [a, b] from rfl,
    Sscanf_decimal ds [a, b] hds h1 h2]
  rw [show (-(([a, b] : List Char).length : Int)) = -((2 : Nat) : Int) from rfl, atofValue_two]
  set N := digitsValue (ds ++ [a, b]) with hN
  by_cases hN0 : N = 0
  · rw [hN0, round_zero]
    exact Mod_zero_quarter
  · have hNpos : 0 < N := Nat.pos_of_ne_zero hN0
    obtain ⟨i, hi⟩ := h25
    have hx : ((N : ℕ) : ℚ) / ((100 : ℕ) : ℚ) = (i : ℚ) / 4 := by
      rw [hi]
      push_cast
      ring
    obtain ⟨hu1, _, _⟩ := ulpExp_spec N 100 hNpos (by norm_num)
    obtain ⟨q1, _, _, hres⟩ := round_spec false N 100 hNpos (by norm_num)
    rcases hres with ⟨h, _⟩ | ⟨m, e, h, _, _, hue, _⟩
    · rw [h]
      exact Mod_zero_quarter
    · rw [h]
      dsimp only
      rw [Mod_quarter_isZero false m e (by omega)]
      exact round_quarter_of_multiple N 100 i hNpos (by norm_num) hx m e h

/-- A total written with two decimals, below `2^47`, whose number of cents is not a multiple
of 25 fails the test of `isMultipleOfQuarter`. -/
theorem isMultipleOfQuarter_of_not_multiple (ds : List Char) (a b : Char) (hds : ds ≠ [])
    (h1 : ∀ c ∈ ds, c.isDigit = true) (ha : a.isDigit = true) (hb : b.isDigit = true)
    (hlt : digitsValue (ds ++ [a, b]) < 100 * 2 ^ 47)
    (h25 : ¬ 25 ∣ digitsValue (ds ++ [a, b])) :
    isMultipleOfQuarter (String.mk (ds ++ ['.', a, b])) = false := by
  have h2 : ∀ c ∈ [a, b], c.isDigit = true := by
    intro c hc
    simp only [List.mem_cons, List.mem_singleton, List.not_mem_nil, or_false] at hc
    rcases hc with rfl | rfl
    · exact ha
    · exact hb
  unfold isMultipleOfQuarter
  rw [show (String.mk (ds ++ ['.', a, b])).data = ds ++ '.' :: [a, b] from rfl,
    Sscanf_decimal ds [a, b] hds h1 h2]
  rw [show (-(([a, b] : List Char).length : Int)) = -((2 : Nat) : Int) from rfl, atofValue_two]
  have hNpos : 0 < digitsValue (ds ++ [a, b]) := by
    rcases Nat.eq_zero_or_pos (digitsValue (ds ++ [a, b])) with h | h
    · rw [h] at h25
      exact absurd (dvd_zero 25) h25
    · exact h
  obtain ⟨m, e, h, he, hno⟩ := round_not_quarter _ hNpos hlt h25
  rw [h]
  dsimp only
  rw [Bool.eq_false_iff]
  intro hcon
  exact hno ((Mod_quarter_isZero false m e he).mp hcon)

theorem centsAreQuarter_iff (a b : Char) (ha : a.isDigit = true) (hb : b.isDigit = true) :
    centsAreQuarter a b ↔ (strconv.digitVal a * 10 + strconv.digitVal b) % 25 = 0 := by
  have h : ∀ x ∈ "0123456789".data, ∀ y ∈ "0123456789".data,
      (centsAreQuarter x y ↔ (strconv.digitVal x * 10 + strconv.digitVal y) % 25 = 0) := by
    unfold centsAreQuarter
    decide
  exact h a (isDigit_mem a ha) b (isDigit_mem b hb)

theorem dvd_digitsValue_two (ds : List Char) (a b : Char) :
    25 ∣ digitsValue (ds ++ [a, b])
      ↔ (strconv.digitVal a * 10 + strconv.digitVal b) % 25 = 0 := by
  rw [digitsValue_append_two]
  omega

/-! ## Ceiling and conversion to `int` -/

/-- A positive rational within half a unit in the last place of a multiple of that unit
rounds to this multiple. -/
theorem round_eq_of_close (n d c : Nat) (hn : 0 < n) (hd : 0 < d)
    (hclose : |(n : ℚ) / d - (c : ℚ) * 2 ^ Float64.ulpExp n d| < 2 ^ Float64.ulpExp n d / 2)
    (hfin : (n : ℚ) / d < 2 ^ 1023) :
    ∃ m e, Float64.round false n d = Float64.fin false m e ∧ m < 2 ^ 53 ∧ -1074 ≤ e
      ∧ (m : ℚ) * 2 ^ e = (c : ℚ) * 2 ^ Float64.ulpExp n d := by
  obtain ⟨hu1, hN, hU⟩ := ulpExp_spec n d hn hd
  obtain ⟨q1, _, herr, hres⟩ := round_spec false n d hn hd
  set u := Float64.ulpExp n d with hu
  have h2u : (0 : ℚ) < 2 ^ u := by positivity
  have hq : (q1 : ℚ) = c := by
    have h1 : |((q1 : ℚ) - c) * 2 ^ u| < 2 ^ u := by
      have : ((q1 : ℚ) - c) * 2 ^ u
          = ((q1 : ℚ) * 2 ^ u - (n : ℚ) / d) + ((n : ℚ) / d - (c : ℚ) * 2 ^ u) := by ring
      rw [this]
      calc |((q1 : ℚ) * 2 ^ u - (n : ℚ) / d) + ((n : ℚ) / d - (c : ℚ) * 2 ^ u)|
          ≤ |(q1 : ℚ) * 2 ^ u - (n : ℚ) / d| + |(n : ℚ) / d - (c : ℚ) * 2 ^ u| := abs_add _ _
        _ < 2 ^ u / 2 + 2 ^ u / 2 := add_lt_add_of_le_of_lt herr hclose
        _ = 2 ^ u := by ring
    rw [abs_mul, abs_of_pos h2u] at h1
    have h2 : |(q1 : ℚ) - c| < 1 := by
      by_contra hcon
      have hge : (1 : ℚ) ≤ |(q1 : ℚ) - c| := le_of_not_lt hcon
      have := mul_le_mul_of_nonneg_right hge h2u.le
      linarith
    have h3 := abs_lt.mp h2
    have h4 : ((q1 : ℤ) - (c : ℤ) : ℤ) < 1 := by
      have : (((q1 : ℤ) - (c : ℤ) : ℤ) : ℚ) < 1 := by
        push_cast
        linarith [h3.2]
      exact_mod_cast this
    have h5 : (-1 : ℤ) < ((q1 : ℤ) - (c : ℤ) : ℤ) := by
      have : (-1 : ℚ) < (((q1 : ℤ) - (c : ℤ) : ℤ) : ℚ) := by
        push_cast
        linarith [h3.1]
      exact_mod_cast this
    have h6 : (q1 : ℤ) = c := by omega
    exact_mod_cast h6
  rcases hres with ⟨_, h971⟩ | ⟨m, e, h, hm, hv, hue, _⟩
  · exfalso
    rcases hN with h | h
    · omega
    · have h1 : (2 : ℚ) ^ (971 : ℤ) ≤ 2 ^ u := zpow_le_zpow_right₀ (by norm_num) h971
      have h2 : (2 : ℚ) ^ 52 * 2 ^ (971 : ℤ) = 2 ^ 1023 := by norm_num
      have h3 : (2 : ℚ) ^ 52 * 2 ^ (971 : ℤ) ≤ 2 ^ 52 * 2 ^ u :=
        mul_le_mul_of_nonneg_left h1 (by positivity)
      linarith
  · exact ⟨m, e, h, hm, by omega, by rw [hv, hq]⟩

/-- The unit in the last place of a rational below `2^53` is at most 1. -/
theorem ulpExp_nonpos (n d : Nat) (hn : 0 < n) (hd : 0 < d) (hx : (n : ℚ) / d < 2 ^ 53) :
    Float64.ulpExp n d ≤ 0 := by
  obtain ⟨hu1, hN, hU⟩ := ulpExp_spec n d hn hd
  rcases hN with h | h
  · omega
  · by_contra hcon
    have h1 : (2 : ℚ) ^ (1 : ℤ) ≤ 2 ^ Float64.ulpExp n d :=
      zpow_le_zpow_right₀ (by norm_num) (by omega)
    have h3 : (2 : ℚ) ^ 52 * 2 ^ (1 : ℤ) ≤ 2 ^ 52 * 2 ^ Float64.ulpExp n d :=
      mul_le_mul_of_nonneg_left h1 (by positivity)
    have h2 : (2 : ℚ) ^ 52 * 2 ^ (1 : ℤ) = 2 ^ 53 := by norm_num
    linarith

/-- A whole number `k` as a multiple of a unit `2^u` with `u ≤ 0`. -/
theorem nat_as_multiple (k : Nat) (u : Int) (hu : u ≤ 0) :
    (k : ℚ) = ((k * 2 ^ (-u).toNat : ℕ) : ℚ) * 2 ^ u := by
  push_cast
  rw [← zpow_natCast (2 : ℚ) (-u).toNat, Int.toNat_of_nonneg (by omega), mul_assoc,
    ← zpow_add₀ (by norm_num)]
  simp

/-- Conversion to `int` of a finite non-negative float whose value is the whole number `k`. -/
theorem toInt_of_value (m : Nat) (e : Int) (k : Nat) (hk : k < 2 ^ 63)
    (hv : (m : ℚ) * 2 ^ e = (k : ℚ)) : (Float64.fin false m e).toInt = (k : Int) := by
  have hmag : (if 0 ≤ e then m * 2 ^ e.toNat else m / 2 ^ (-e).toNat) = k := by
    by_cases he : 0 ≤ e
    · simp only [he, if_true]
      have : ((m * 2 ^ e.toNat : ℕ) : ℚ) = (k : ℚ) := by
        push_cast
        rw [← zpow_natCast (2 : ℚ) e.toNat, Int.toNat_of_nonneg he]
        exact hv
      exact_mod_cast this
    · simp only [he, if_false]
      have hm : m = k * 2 ^ (-e).toNat := by
        have : (m : ℚ) = ((k * 2 ^ (-e).toNat : ℕ) : ℚ) := by
          push_cast
          rw [← zpow_natCast (2 : ℚ) (-e).toNat, Int.toNat_of_nonneg (by omega), ← hv,
            mul_assoc, ← zpow_add₀ (by norm_num)]
          simp
        exact_mod_cast this
      rw [hm, Nat.mul_div_cancel _ (by positivity)]
  unfold Float64.toInt
  simp only [hmag, Bool.false_eq_true, if_false]
  have h1 : -(2 : ℤ) ^ 63 ≤ (k : ℤ) := by
    have : (0 : ℤ) ≤ (k : ℤ) := Int.natCast_nonneg k
    omega
  have h2 : (k : ℤ) < 2 ^ 63 := by exact_mod_cast hk
  simp only [h1, h2, and_self, if_true]

theorem toInt_round_nat (k : Nat) (hk : k < 2 ^ 53) : (Float64.round false k 1).toInt = (k : Int) := by
  by_cases h0 : k = 0
  · subst h0
    rw [round_zero]
    exact toInt_of_value 0 (-1074) 0 (by norm_num) (by simp)
  · have hpos : 0 < k := Nat.pos_of_ne_zero h0
    have hx : ((k : ℕ) : ℚ) / ((1 : ℕ) : ℚ) < 2 ^ 53 := by
      have : (k : ℚ) < 2 ^ 53 := by exact_mod_cast hk
      simpa using this
    have hu := ulpExp_nonpos k 1 hpos Nat.one_pos hx
    have hmul := nat_as_multiple k (Float64.ulpExp k 1) hu
    obtain ⟨m, e, h, _, _, hv⟩ := round_eq_of_close k 1 (k * 2 ^ (-Float64.ulpExp k 1).toNat)
      hpos Nat.one_pos (by
        rw [← hmul]
        simp only [Nat.cast_one, div_one, sub_self, abs_zero]
        positivity) (by
        have h2 : (2 : ℚ) ^ 53 < 2 ^ 1023 := by norm_num
        linarith)
    rw [h]
    apply toInt_of_value m e k (by omega)
    rw [hv, ← hmul]

theorem ofDyadic_zero_exp (s : Bool) (k : Nat) : Float64.ofDyadic s k 0 = Float64.round s k 1 := by
  simp [Float64.ofDyadic, Float64.scaled]

/-- Ceiling and conversion to `int` of a finite non-negative float whose value lies in
`(K - 1, K]`: the result is `K`. -/
theorem Ceil_toInt (m : Nat) (e : Int) (K : Nat) (hK : K < 2 ^ 53)
    (hlo : (K : ℚ) - 1 < (m : ℚ) * 2 ^ e) (hhi : (m : ℚ) * 2 ^ e ≤ K) :
    (math.Ceil (Float64.fin false m e)).toInt = (K : Int) := by
  unfold math.Ceil
  by_cases he : 0 ≤ e
  · simp only [he, if_true]
    apply toInt_of_value m e K (by omega)
    have hM : ((m * 2 ^ e.toNat : ℕ) : ℚ) = (m : ℚ) * 2 ^ e := by
      push_cast
      rw [← zpow_natCast (2 : ℚ) e.toNat, Int.toNat_of_nonneg he]
    rw [← hM] at hlo hhi ⊢
    have h1 : ((K : ℤ) - 1 : ℤ) < ((m * 2 ^ e.toNat : ℕ) : ℤ) := by
      have : (((K : ℤ) - 1 : ℤ) : ℚ) < (((m * 2 ^ e.toNat : ℕ) : ℤ) : ℚ) := by
        push_cast
        push_cast at hlo
        exact hlo
      exact_mod_cast this
    have h2 : ((m * 2 ^ e.toNat : ℕ) : ℤ) ≤ (K : ℤ) := by exact_mod_cast hhi
    have h3 : (m * 2 ^ e.toNat : ℕ) = K := by omega
    rw [h3]
  · simp only [he, if_false, Bool.false_eq_true]
    have hdpos : 0 < 2 ^ (-e).toNat := by positivity
    set d := 2 ^ (-e).toNat with hd
    have hdq : (0 : ℚ) < (d : ℚ) := by exact_mod_cast hdpos
    have hval : (m : ℚ) * 2 ^ e = (m : ℚ) / d := by
      rw [hd]
      push_cast
      rw [← zpow_natCast (2 : ℚ) (-e).toNat, Int.toNat_of_nonneg (by omega), zpow_neg,
        div_inv_eq_mul]
    rw [hval] at hlo hhi
    rw [lt_div_iff₀ hdq] at hlo
    rw [div_le_iff₀ hdq] at hhi
    have hlo' : (K : ℤ) * d - d < m := by
      have : (((K : ℤ) * d - d : ℤ) : ℚ) < ((m : ℤ) : ℚ) := by
        push_cast
        linarith
      exact_mod_cast this
    have hhi' : (m : ℤ) ≤ (K : ℤ) * d := by
      have : ((m : ℤ) : ℚ) ≤ (((K : ℤ) * d : ℤ) : ℚ) := by
        push_cast
        exact hhi
      exact_mod_cast this
    have hdm : (m : ℤ) = (d : ℤ) * ((m / d : ℕ) : ℤ) + ((m % d : ℕ) : ℤ) := by
      exact_mod_cast (Nat.div_add_mod m d).symm
    have hr : ((m % d : ℕ) : ℤ) < d := by exact_mod_cast Nat.mod_lt m hdpos
    have hr0 : (0 : ℤ) ≤ ((m % d : ℕ) : ℤ) := Int.natCast_nonneg _
    have hdz : (0 : ℤ) < (d : ℤ) := by exact_mod_cast hdpos
    have hK' : (if m % d = 0 then m / d else m / d + 1) = K := by
      by_cases hrz : m % d = 0
      · simp only [hrz, if_true]
        rw [hrz] at hdm
        simp only [Nat.cast_zero, add_zero] at hdm
        have h1 : ((m / d : ℕ) : ℤ) ≤ K := by
          by_contra hcon
          have hle : (K : ℤ) + 1 ≤ ((m / d : ℕ) : ℤ) := by omega
          have := mul_le_mul_of_nonneg_left hle hdz.le
          linarith
        have h2 : (K : ℤ) ≤ ((m / d : ℕ) : ℤ) := by
          by_contra hcon
          have hle : ((m / d : ℕ) : ℤ) + 1 ≤ (K : ℤ) := by omega
          have := mul_le_mul_of_nonneg_left hle hdz.le
          linarith
        omega
      · simp only [hrz, if_false]
        have hrpos : (0 : ℤ) < ((m % d : ℕ) : ℤ) := by
          have : 0 < m % d := Nat.pos_of_ne_zero hrz
          exact_mod_cast this
        have h1 : ((m / d : ℕ) : ℤ) < K := by
          by_contra hcon
          have hle : (K : ℤ) ≤ ((m / d : ℕ) : ℤ) := by omega
          have := mul_le_mul_of_nonneg_left hle hdz.le
          linarith
        have h2 : (K : ℤ) ≤ ((m / d : ℕ) : ℤ) + 1 := by
          by_contra hcon
          have hle : ((m / d : ℕ) : ℤ) + 2 ≤ (K : ℤ) := by omega
          have := mul_le_mul_of_nonneg_left hle hdz.le
          linarith
        omega
    rw [hK', ofDyadic_zero_exp]
    exact toInt_round_nat K hK

theorem pow_neg_1022_le : (2 : ℚ) ^ (-1022 : ℤ) ≤ 1 / 1024 := by
  have h : (2 : ℚ) ^ (-1022 : ℤ) ≤ 2 ^ (-10 : ℤ) := zpow_le_zpow_right₀ (by norm_num) (by norm_num)
  have h2 : (2 : ℚ) ^ (-10 : ℤ) = 1 / 1024 := by norm_num
  rw [← h2]
  exact h

theorem pow_53_lt_1023 : (2 : ℚ) ^ 53 < 2 ^ 1023 :=
  pow_lt_pow_right₀ (by norm_num) (by norm_num)

/-- Relative error of rounding: a positive rational in the normal range rounds to a finite
float within `2^-53` of it, relatively. -/
theorem round_rel (n d : Nat) (hn : 0 < n) (hd : 0 < d)
    (hlow' : (1 : ℚ) / 1024 ≤ (n : ℚ) / d) (hfin' : (n : ℚ) / d < 2 ^ 53) :
    ∃ m e, Float64.round false n d = Float64.fin false m e ∧ m < 2 ^ 53 ∧ -1074 ≤ e
      ∧ |(m : ℚ) * 2 ^ e - (n : ℚ) / d| ≤ (n : ℚ) / d / 2 ^ 53 := by
  have hlow : (2 : ℚ) ^ (-1022 : ℤ) ≤ (n : ℚ) / d := le_trans pow_neg_1022_le hlow'
  have hfin : (n : ℚ) / d < 2 ^ 1023 := lt_trans hfin' pow_53_lt_1023
  obtain ⟨hu1, hN, hU⟩ := ulpExp_spec n d hn hd
  obtain ⟨q1, _, herr, hres⟩ := round_spec false n d hn hd
  set u := Float64.ulpExp n d with hu
  have hnorm : (2 : ℚ) ^ 52 * 2 ^ u ≤ (n : ℚ) / d := by
    rcases hN with h | h
    · rw [h]
      have : (2 : ℚ) ^ 52 * 2 ^ (-1074 : ℤ) = 2 ^ (-1022 : ℤ) := by
        rw [show (-1022 : ℤ) = 52 + (-1074) by norm_num, zpow_add₀ (by norm_num)]
        norm_num
      rw [this]
      exact hlow
    · exact h
  rcases hres with ⟨_, h971⟩ | ⟨m, e, h, hm, hv, hue, _⟩
  · exfalso
    have h1 : (2 : ℚ) ^ (971 : ℤ) ≤ 2 ^ u := zpow_le_zpow_right₀ (by norm_num) h971
    have h2 : (2 : ℚ) ^ 52 * 2 ^ (971 : ℤ) = 2 ^ 1023 := by norm_num
    have h3 : (2 : ℚ) ^ 52 * 2 ^ (971 : ℤ) ≤ 2 ^ 52 * 2 ^ u :=
      mul_le_mul_of_nonneg_left h1 (by positivity)
    linarith
  · refine ⟨m, e, h, hm, by omega, ?_⟩
    rw [hv]
    have : (2 : ℚ) ^ u / 2 ≤ (n : ℚ) / d / 2 ^ 53 := by
      rw [le_div_iff₀ (by positivity)]
      have h53 : (2 : ℚ) ^ 53 = 2 * 2 ^ 52 := by norm_num
      rw [h53]
      linarith
    linarith

/-- Quotient and fraction of `ofDyadic`: the argument of the rounding is `M * 2^t`. -/
theorem ofDyadic_scaled (M : Nat) (t : Int) (hM : 0 < M) :
    0 < (Float64.scaled M 1 (-t)).1 ∧ 0 < (Float64.scaled M 1 (-t)).2
      ∧ ((Float64.scaled M 1 (-t)).1 : ℚ) / (Float64.scaled M 1 (-t)).2 = (M : ℚ) * 2 ^ t := by
  obtain ⟨hb, hsq⟩ := scaled_spec M 1 (-t) Nat.one_pos
  refine ⟨?_, hb, ?_⟩
  · unfold Float64.scaled
    split_ifs
    · exact hM
    · positivity
  · rw [hsq, zpow_neg]
    field_simp

theorem mul_fifth (m : Nat) (e : Int) :
    (Float64.fin false m e).mul Float64.fifth
      = Float64.round false (Float64.scaled (m * 7205759403792794) 1 (-(e + -55))).1
          (Float64.scaled (m * 7205759403792794) 1 (-(e + -55))).2 := by
  rw [fifth_eq]
  rfl

/-- Points of a price of `N` cents: scanning the amount, multiplying by the float64 `0.2`,
taking the ceiling and converting gives the exact `N / 500` rounded up, below `10^14`
cents. -/
theorem ceil_fifth_of_cents (N : Nat) (hN : N < 10 ^ 14) :
    (math.Ceil ((Float64.round false N 100).mul Float64.fifth)).toInt
      = (((N + 499) / 500 : ℕ) : Int) := by
  by_cases hN0 : N = 0
  · subst hN0
    rw [round_zero]
    decide!
  have hNpos : 0 < N := Nat.pos_of_ne_zero hN0
  have hNq : (N : ℚ) < 10 ^ 14 := by exact_mod_cast hN
  have hN1 : (1 : ℚ) ≤ N := by exact_mod_cast hNpos
  have hx_eq : ((N : ℕ) : ℚ) / ((100 : ℕ) : ℚ) = (N : ℚ) / 100 := by norm_num
  have h55 : (2 : ℚ) ^ (-55 : ℤ) = 1 / 36028797018963968 := by norm_num
  have h1023 := pow_53_lt_1023
  have htarget0 : N % 500 = 0 → (N + 499) / 500 = N / 500 := by
    intro h
    omega
  have htarget1 : N % 500 ≠ 0 → (N + 499) / 500 = N / 500 + 1 := by
    intro h
    omega
  have h53v : (2 : ℚ) ^ 53 = 9007199254740992 := by norm_num
  set k := N / 500 with hk
  have hkr : N = 500 * k + N % 500 := (Nat.div_add_mod N 500).symm
  have hrlt : N % 500 < 500 := Nat.mod_lt _ (by norm_num)
  have hk53 : k + 1 < 2 ^ 53 := by
    have : k ≤ N / 500 := le_rfl
    have h2 : (2 : ℕ) ^ 53 = 9007199254740992 := by norm_num
    omega
  have hk53' : k < 2 ^ 53 := by omega
  by_cases hr : N % 500 = 0
  · -- the price is a whole multiple of 5
    have hN5 : N = 500 * k := by omega
    have hkpos : 0 < k := by omega
    have hkq : (1 : ℚ) ≤ k := by exact_mod_cast hkpos
    have hkq2 : (k : ℚ) < 10 ^ 12 := by
      have : k < 10 ^ 12 := by omega
      exact_mod_cast this
    have hx5 : ((N : ℕ) : ℚ) / ((100 : ℕ) : ℚ) = ((5 * k : ℕ) : ℚ) := by
      rw [hN5]
      push_cast
      ring
    have hxlt : ((N : ℕ) : ℚ) / ((100 : ℕ) : ℚ) < 2 ^ 53 := by
      rw [hx5, h53v]
      push_cast
      linarith
    have hu := ulpExp_nonpos N 100 hNpos (by norm_num) hxlt
    obtain ⟨m, e, h, hm, he, hv⟩ := round_eq_of_close N 100
      (5 * k * 2 ^ (-Float64.ulpExp N 100).toNat) hNpos (by norm_num) (by
        rw [← nat_as_multiple (5 * k) _ hu, hx5]
        simp only [sub_self, abs_zero]
        positivity) (by linarith)
    rw [← nat_as_multiple (5 * k) _ hu] at hv
    have hmpos : 0 < m := by
      rcases Nat.eq_zero_or_pos m with h0 | h0
      · rw [h0] at hv
        push_cast at hv
        linarith
      · exact h0
    rw [h, mul_fifth]
    obtain ⟨ha, hb, hab⟩ := ofDyadic_scaled (m * 7205759403792794) (e + -55)
      (Nat.mul_pos hmpos (by norm_num))
    set a := (Float64.scaled (m * 7205759403792794) 1 (-(e + -55))).1 with hadef
    set b := (Float64.scaled (m * 7205759403792794) 1 (-(e + -55))).2 with hbdef
    have hP : (a : ℚ) / b = (k : ℚ) + (k : ℚ) / 18014398509481984 := by
      rw [hab, zpow_add₀ (by norm_num), h55]
      push_cast
      have : (m : ℚ) * 7205759403792794 * (2 ^ e * (1 / 36028797018963968))
          = ((m : ℚ) * 2 ^ e) * (7205759403792794 / 36028797018963968) := by ring
      rw [this, hv]
      push_cast
      ring
    have hPlt : (a : ℚ) / b < 2 ^ 53 := by
      rw [hP, h53v]
      linarith
    obtain ⟨_, _, hU⟩ := ulpExp_spec a b ha hb
    have hu' := ulpExp_nonpos a b ha hb hPlt
    obtain ⟨m', e', h', hm', he', hv'⟩ := round_eq_of_close a b
      (k * 2 ^ (-Float64.ulpExp a b).toNat) ha hb (by
        rw [← nat_as_multiple k _ hu', hP]
        have hpos : (0 : ℚ) < (k : ℚ) / 18014398509481984 := by positivity
        rw [show (k : ℚ) + (k : ℚ) / 18014398509481984 - k = (k : ℚ) / 18014398509481984 by ring,
          abs_of_pos hpos]
        rw [hP, h53v] at hU
        linarith) (by linarith)
    rw [← nat_as_multiple k _ hu'] at hv'
    rw [h', Ceil_toInt m' e' k hk53' (by rw [hv']; linarith) (by rw [hv']), htarget0 hr]
  · -- the price is not a multiple of 5: the product lies strictly between k and k + 1
    have hr1 : 1 ≤ N % 500 := Nat.pos_of_ne_zero hr
    have hNk : (N : ℚ) = 500 * (k : ℚ) + ((N % 500 : ℕ) : ℚ) := by exact_mod_cast hkr
    have hrq1 : (1 : ℚ) ≤ ((N % 500 : ℕ) : ℚ) := by exact_mod_cast hr1
    have hrq2 : ((N % 500 : ℕ) : ℚ) ≤ 499 := by
      have : N % 500 ≤ 499 := by omega
      exact_mod_cast this
    have hk0 : (0 : ℚ) ≤ k := Nat.cast_nonneg k
    obtain ⟨m, e, h, hm, he, herr⟩ := round_rel N 100 hNpos (by norm_num)
      (by rw [hx_eq]; linarith) (by rw [hx_eq, h53v]; linarith)
    rw [hx_eq] at herr
    have herr2 := abs_le.mp herr
    have hvpos : (0 : ℚ) < (m : ℚ) * 2 ^ e := by
      rw [h53v] at herr2
      linarith [herr2.1]
    have hmpos : 0 < m := by
      rcases Nat.eq_zero_or_pos m with h0 | h0
      · rw [h0] at hvpos
        simp at hvpos
      · exact h0
    rw [h, mul_fifth]
    obtain ⟨ha, hb, hab⟩ := ofDyadic_scaled (m * 7205759403792794) (e + -55)
      (Nat.mul_pos hmpos (by norm_num))
    set a := (Float64.scaled (m * 7205759403792794) 1 (-(e + -55))).1 with hadef
    set b := (Float64.scaled (m * 7205759403792794) 1 (-(e + -55))).2 with hbdef
    have hP : (a : ℚ) / b = ((m : ℚ) * 2 ^ e) * (7205759403792794 / 36028797018963968) := by
      rw [hab, zpow_add₀ (by norm_num), h55]
      push_cast
      ring
    rw [h53v] at herr2
    obtain ⟨m', e', h', hm', he', herr'⟩ := round_rel a b ha hb
      (by rw [hP]; linarith [herr2.1]) (by rw [hP, h53v]; linarith [herr2.2])
    have herr3 := abs_le.mp herr'
    rw [hP, h53v] at herr3
    rw [h', Ceil_toInt m' e' (k + 1) hk53 (by push_cast; linarith [herr3.1, herr2.1])
      (by push_cast; linarith [herr3.2, herr2.2]), htarget1 hr]

theorem round_cents_fin (N : Nat) (hN : N < 10 ^ 14) :
    ∃ m e, Float64.round false N 100 = Float64.fin false m e := by
  by_cases hN0 : N = 0
  · exact ⟨0, -1074, by rw [hN0, round_zero]⟩
  · have hNpos : 0 < N := Nat.pos_of_ne_zero hN0
    have hNq : (N : ℚ) < 10 ^ 14 := by exact_mod_cast hN
    have hN1 : (1 : ℚ) ≤ N := by exact_mod_cast hNpos
    have hx_eq : ((N : ℕ) : ℚ) / ((100 : ℕ) : ℚ) = (N : ℚ) / 100 := by norm_num
    have h53v : (2 : ℚ) ^ 53 = 9007199254740992 := by norm_num
    obtain ⟨m, e, h, _⟩ := round_rel N 100 hNpos (by norm_num)
      (by rw [hx_eq]; linarith) (by rw [hx_eq, h53v]; linarith)
    exact ⟨m, e, h⟩

theorem ceil_cents (N : Nat) :
    ⌈((N : ℚ) / 100) * (2 / 10)⌉ = (((N + 499) / 500 : ℕ) : Int) := by
  rw [Int.ceil_eq_iff]
  have h1 : N ≤ 500 * ((N + 499) / 500) := by omega
  have h2 : 500 * ((N + 499) / 500) < N + 500 := by omega
  have h1q : (N : ℚ) ≤ 500 * (((N + 499) / 500 : ℕ) : ℚ) := by exact_mod_cast h1
  have h2q : 500 * (((N + 499) / 500 : ℕ) : ℚ) < (N : ℚ) + 500 := by exact_mod_cast h2
  rw [Int.cast_natCast]
  constructor <;> linarith

/-- Points of an item whose price is a currency amount below `10^12`: the exact ceiling of a
fifth of the price when the byte length of the trimmed description is divisible by 3. -/
theorem itemPoints_currency (description : String) (ds : List Char) (a b : Char) (hds : ds ≠ [])
    (h1 : ∀ c ∈ ds, c.isDigit = true) (ha : a.isDigit = true) (hb : b.isDigit = true)
    (hlt : digitsValue ds < 10 ^ 12)
    (hlen : len (strings.TrimSpace description.data) % 3 = 0) :
    calculateItemDescriptionPoints ⟨description, String.mk (ds ++ ['.', a, b])⟩
      = ⌈((digitsValue (ds ++ [a, b]) : ℚ) / 100) * (2 / 10)⌉ := by
  have h2 : ∀ c ∈ [a, b], c.isDigit = true := by
    intro c hc
    simp only [List.mem_cons, List.mem_singleton, List.not_mem_nil, or_false] at hc
    rcases hc with rfl | rfl
    · exact ha
    · exact hb
  have hN : digitsValue (ds ++ [a, b]) < 10 ^ 14 := by
    rw [digitsValue_append_two]
    have h9a := digitVal_le a ha
    have h9b := digitVal_le b hb
    omega
  obtain ⟨m, e, hfin⟩ := round_cents_fin _ hN
  have hscan : fmt.Sscanf (ds ++ '.' :: [a, b]) Float64.zero
      = Float64.round false (digitsValue (ds ++ [a, b])) 100 := by
    rw [Sscanf_decimal ds [a, b] hds h1 h2,
      show (-(([a, b] : List Char).length : Int)) = -((2 : Nat) : Int) from rfl, atofValue_two,
      hfin]
  unfold calculateItemDescriptionPoints
  simp only [hlen, if_true]
  rw [hscan, ceil_fifth_of_cents _ hN, ceil_cents]

/-! ## Rules that depend on the total, the items and the bounds -/

/-- Claim C13, the code at the failing inputs: a total without numeric content leaves the
scanned amount at 0.0, `math.Mod(0, 0.25) == 0` holds, and the receipt whose fields are all
empty and that has no items scores 25. -/
theorem isMultipleOfQuarter_unparsable_total :
    fmt.Sscanf "".data Float64.zero = Float64.zero
    ∧ fmt.Sscanf "abc".data Float64.zero = Float64.zero
    ∧ isMultipleOfQuarter "" = true
    ∧ isMultipleOfQuarter "abc" = true
    ∧ isRoundDollarAmount "" = false
    ∧ calculatePoints ⟨"", "", "", [], ""⟩ = 25
    ∧ calculatePoints ⟨"", "", "", [], "abc"⟩ = 25 := by
  decide!

/-- Claim C14: a permutation of the item list leaves `calculatePoints` unchanged; the pair
count and the sum of the per-item scores are the same. -/
theorem calculatePoints_perm (receipt : Receipt) (items : List Item)
    (h : receipt.Items.Perm items) :
    calculatePoints { receipt with Items := items } = calculatePoints receipt
    ∧ items.length / 2 = receipt.Items.length / 2
    ∧ (items.map calculateItemDescriptionPoints).sum
        = (receipt.Items.map calculateItemDescriptionPoints).sum := by
  have hlen : items.length = receipt.Items.length := h.length_eq.symm
  have hsum : (items.map calculateItemDescriptionPoints).sum
      = (receipt.Items.map calculateItemDescriptionPoints).sum :=
    ((h.map calculateItemDescriptionPoints).sum_eq).symm
  refine ⟨?_, by rw [hlen], hsum⟩
  rw [calculatePoints_eq_wrap, calculatePoints_eq_wrap]
  unfold ruleSum
  simp only [hlen, hsum]

/-- Claim C16, counterexample: with the end bound "bad", which does not parse, the purchase
time "15:00" is reported inside the range that starts at "14:00". -/
theorem isWithinTimeRange_bad_end :
    time.ParseClock "bad".data = none
    ∧ isWithinTimeRange "15:00" "14:00" "bad" = true := by
  decide

/-- Claim C16, amended: when the start bound does not parse the result is false whatever the
purchase time and the end bound are; when the end bound does not parse the result is
whether the purchase time parses and is after the start bound (the zero `Time` when that
one does not parse either). -/
theorem isWithinTimeRange_unparsable_bound (t startStr endStr : String) :
    (time.ParseClock startStr.data = none → isWithinTimeRange t startStr endStr = false)
    ∧ (time.ParseClock endStr.data = none →
        isWithinTimeRange t startStr endStr
          = match time.ParseClock t.data with
            | none => false
            | some purchaseTime =>
              purchaseTime.After ((time.ParseClock startStr.data).getD time.zeroTime)) := by
  have hzero : time.zeroTime.instant = 527040 := by decide
  refine ⟨?_, ?_⟩
  · intro hs
    unfold isWithinTimeRange
    cases hp : time.ParseClock t.data with
    | none => rfl
    | some pt =>
      obtain ⟨hinst, hh, hm, _⟩ := ParseClock_some t.data pt hp
      have hafter : pt.After time.zeroTime = false := by
        unfold time.Time.After
        rw [hinst, hzero]
        exact decide_eq_false (by omega)
      simp [hs, hafter]
  · intro he
    unfold isWithinTimeRange
    cases hp : time.ParseClock t.data with
    | none => rfl
    | some pt =>
      obtain ⟨hinst, hh, hm, _⟩ := ParseClock_some t.data pt hp
      have hbefore : pt.Before time.zeroTime = true := by
        unfold time.Time.Before
        rw [hinst, hzero]
        exact decide_eq_true (by omega)
      simp [he, hbefore]

/-- Claim C18: the test on the trimmed description is on its length in UTF-8 bytes.  For a
description made of whitespace, a core that neither starts nor ends with whitespace, and
whitespace again (the core is the trimmed description): when the byte length of the core
is divisible by 3 the result is `int(math.Ceil(price * 0.2))` for the scanned price,
otherwise it is 0.  The description "日" has one character and three bytes, and with the
price "10.00" it scores 2, also with whitespace around it; "日ab" has three characters
and five bytes and scores 0, and " ab" scores 0. -/
theorem calculateItemDescriptionPoints_byte_length (pre core post : List Char) (price : String)
    (hpre : ∀ c ∈ pre, unicode.IsSpace c = true) (hpost : ∀ c ∈ post, unicode.IsSpace c = true)
    (hhead : ∀ c ∈ core.head?, unicode.IsSpace c = false)
    (hlast : ∀ c ∈ core.getLast?, unicode.IsSpace c = false) :
    (len core % 3 = 0 →
      calculateItemDescriptionPoints ⟨String.mk (pre ++ core ++ post), price⟩
        = (math.Ceil ((fmt.Sscanf price.data Float64.zero).mul Float64.fifth)).toInt)
    ∧ (len core % 3 ≠ 0 →
      calculateItemDescriptionPoints ⟨String.mk (pre ++ core ++ post), price⟩ = 0)
    ∧ (strings.TrimSpace "日".data).length = 1
    ∧ (strings.TrimSpace "日".data).length % 3 ≠ 0
    ∧ len (strings.TrimSpace "日".data) = 3
    ∧ calculateItemDescriptionPoints ⟨"日", "10.00"⟩ = 2
    ∧ strings.TrimSpace " 日  ".data = "日".data
    ∧ calculateItemDescriptionPoints ⟨" 日  ", "10.00"⟩ = 2
    ∧ "日ab".data.length = 3 ∧ len "日ab".data = 5
    ∧ calculateItemDescriptionPoints ⟨"日ab", "10.00"⟩ = 0
    ∧ strings.TrimSpace " ab".data = "ab".data
    ∧ calculateItemDescriptionPoints ⟨" ab", "10.00"⟩ = 0
    ∧ calculateItemDescriptionPoints ⟨String.mk ['\t', 'a', 'b', 'c', '\n'], "10.00"⟩ = 2
    ∧ ∃ it : Item, (strings.TrimSpace it.ShortDescription.data).length % 3 ≠ 0
        ∧ calculateItemDescriptionPoints it ≠ 0 := by
  have htrim := TrimSpace_core pre core post hpre hpost hhead hlast
  have hex : calculateItemDescriptionPoints ⟨"日", "10.00"⟩ = 2 := by decide!
  refine ⟨?_, ?_, by decide, by decide, by decide, hex, by decide, by decide!, by decide,
    by decide, by decide!, by decide, by decide!, by decide!, ⟨⟨"日", "10.00"⟩, by decide, ?_⟩⟩
  · intro h
    unfold calculateItemDescriptionPoints
    rw [if_pos (by rw [htrim]; exact h)]
  · intro h
    unfold calculateItemDescriptionPoints
    rw [if_neg (by rw [htrim]; exact h)]
  · rw [hex]
    decide

/-- Claim C12, counterexample: the total "140737488355328.26" has the cents digits 26, yet
it scans to the same float64 as "140737488355328.25" and passes the test. -/
theorem isMultipleOfQuarter_large_total :
    isMultipleOfQuarter "140737488355328.26" = true
    ∧ ¬ centsAreQuarter '2' '6'
    ∧ fmt.Sscanf "140737488355328.26".data Float64.zero
        = fmt.Sscanf "140737488355328.25".data Float64.zero := by
  refine ⟨by decide!, ?_, by decide!⟩
  unfold centsAreQuarter
  decide

/-- Claim C12, amended: for a total written as one or more digits, a point and two digits,
cents digits 00, 25, 50 or 75 always pass the test of `isMultipleOfQuarter`; and when the
whole part is below `2^47` the test passes exactly for those cents digits.  "12.25"
passes and "12.26" does not. -/
theorem isMultipleOfQuarter_currency (ds : List Char) (a b : Char) (hds : ds ≠ [])
    (h1 : ∀ c ∈ ds, c.isDigit = true) (ha : a.isDigit = true) (hb : b.isDigit = true) :
    (centsAreQuarter a b → isMultipleOfQuarter (String.mk (ds ++ ['.', a, b])) = true)
    ∧ (digitsValue ds < 2 ^ 47 →
        (isMultipleOfQuarter (String.mk (ds ++ ['.', a, b])) = true ↔ centsAreQuarter a b))
    ∧ isMultipleOfQuarter "12.25" = true
    ∧ isMultipleOfQuarter "12.26" = false := by
  have hyes : centsAreQuarter a b →
      isMultipleOfQuarter (String.mk (ds ++ ['.', a, b])) = true := by
    intro hc
    apply isMultipleOfQuarter_of_multiple ds a b hds h1 ha hb
    rw [dvd_digitsValue_two]
    exact (centsAreQuarter_iff a b ha hb).mp hc
  refine ⟨hyes, ?_, by decide!, by decide!⟩
  intro hlt
  refine ⟨?_, hyes⟩
  intro htrue
  by_contra hc
  have h25 : ¬ 25 ∣ digitsValue (ds ++ [a, b]) := by
    rw [dvd_digitsValue_two]
    exact fun h => hc ((centsAreQuarter_iff a b ha hb).mpr h)
  have hbound : digitsValue (ds ++ [a, b]) < 100 * 2 ^ 47 := by
    rw [digitsValue_append_two]
    have h9a := digitVal_le a ha
    have h9b := digitVal_le b hb
    omega
  rw [isMultipleOfQuarter_of_not_multiple ds a b hds h1 ha hb hbound h25] at htrue
  exact Bool.noConfusion htrue

/-- Claim C17: a total of one or more digits followed by ".00", of any magnitude, is a round
dollar amount and passes the test of `isMultipleOfQuarter`, so it adds 50 + 25 = 75 to the
points of every receipt that carries it. -/
theorem round_dollar_total (ds : List Char) (hds : ds ≠ [])
    (h1 : ∀ c ∈ ds, c.isDigit = true) :
    isRoundDollarAmount (String.mk (ds ++ ".00".data)) = true
    ∧ isMultipleOfQuarter (String.mk (ds ++ ".00".data)) = true
    ∧ (∀ receipt : Receipt, receipt.Total = String.mk (ds ++ ".00".data) →
        calculatePoints receipt = wrapInt (
          countAlphanumeric receipt.Retailer + 50 + 25
          + 5 * ((receipt.Items.length / 2 : Nat) : Int)
          + (receipt.Items.map calculateItemDescriptionPoints).sum
          + (if isPurchaseDateOdd receipt.PurchaseDate then 6 else 0)
          + (if isWithinTimeRange receipt.PurchaseTime "14:00" "16:00" then 10 else 0)))
    ∧ isRoundDollarAmount "35.00" = true ∧ isMultipleOfQuarter "35.00" = true
    ∧ isRoundDollarAmount "0.00" = true ∧ isMultipleOfQuarter "0.00" = true := by
  have hround : isRoundDollarAmount (String.mk (ds ++ ".00".data)) = true := by
    have hnd : '.' ∉ ds := by
      intro hmem
      have := h1 '.' hmem
      revert this
      decide
    unfold isRoundDollarAmount
    rw [show (String.mk (ds ++ ".00".data)).data = ds ++ '.' :: ['0', '0'] from rfl,
      Split_append '.' _ _ hnd, Split_of_not_mem '.' _ (by decide)]
    rfl
  have hquarter : isMultipleOfQuarter (String.mk (ds ++ ".00".data)) = true := by
    apply isMultipleOfQuarter_of_multiple ds '0' '0' hds h1 (by decide) (by decide)
    rw [dvd_digitsValue_two]
    decide
  refine ⟨hround, hquarter, ?_, by decide, by decide!, by decide, by decide!⟩
  intro receipt htotal
  rw [calculatePoints_eq_wrap]
  unfold ruleSum
  rw [htotal, hround, hquarter]
  rfl

/-- Claim C11, counterexample: the price "5.0000000000000000001" scans to the float64 5, so
an item with the description "abc" scores 1, while the ceiling of a fifth of the decimal
number 5.0000000000000000001 is 2. -/
theorem calculateItemDescriptionPoints_long_price :
    calculateItemDescriptionPoints ⟨"abc", "5.0000000000000000001"⟩ = 1
    ∧ len (strings.TrimSpace "abc".data) % 3 = 0
    ∧ ⌈((50000000000000000001 : ℚ) / 10 ^ 19) * (2 / 10)⌉ = 2 := by
  refine ⟨by decide!, by decide, ?_⟩
  rw [Int.ceil_eq_iff]
  norm_num

/-- Claim C11, amended: take an item whose description is whitespace, a core that neither
starts nor ends with whitespace, and whitespace again (the core is the trimmed
description), and whose price is written as one or more digits, a point and two digits,
with a whole part below `10^12`.  Its points are the exact ceiling of `price * 0.2` when
the byte length of the core is a multiple of 3 (also when it is 0, the description being
empty or all whitespace), and 0 otherwise; a description of length 6 with the price
"10.00" gives 2 and "Gatorade" gives 0; " ab" gives 0 and " abc " gives 2. -/
theorem calculateItemDescriptionPoints_currency (pre core post ds : List Char) (a b : Char)
    (hpre : ∀ c ∈ pre, unicode.IsSpace c = true) (hpost : ∀ c ∈ post, unicode.IsSpace c = true)
    (hhead : ∀ c ∈ core.head?, unicode.IsSpace c = false)
    (hlast : ∀ c ∈ core.getLast?, unicode.IsSpace c = false)
    (hds : ds ≠ []) (h1 : ∀ c ∈ ds, c.isDigit = true)
    (ha : a.isDigit = true) (hb : b.isDigit = true) (hlt : digitsValue ds < 10 ^ 12) :
    (len core % 3 = 0 →
      calculateItemDescriptionPoints
          ⟨String.mk (pre ++ core ++ post), String.mk (ds ++ ['.', a, b])⟩
        = ⌈((digitsValue (ds ++ [a, b]) : ℚ) / 100) * (2 / 10)⌉)
    ∧ (len core % 3 ≠ 0 →
      calculateItemDescriptionPoints
          ⟨String.mk (pre ++ core ++ post), String.mk (ds ++ ['.', a, b])⟩ = 0)
    ∧ calculateItemDescriptionPoints ⟨"Danish", "10.00"⟩ = 2
    ∧ calculateItemDescriptionPoints ⟨"", "10.00"⟩ = 2
    ∧ calculateItemDescriptionPoints ⟨" ", "10.00"⟩ = 2
    ∧ calculateItemDescriptionPoints ⟨String.mk [' ', '\t', '\n', ' '], "10.00"⟩ = 2
    ∧ calculateItemDescriptionPoints ⟨" ab", "10.00"⟩ = 0
    ∧ calculateItemDescriptionPoints ⟨" abc ", "10.00"⟩ = 2
    ∧ calculateItemDescriptionPoints ⟨"a b", "10.00"⟩ = 2
    ∧ calculateItemDescriptionPoints ⟨"Gatorade", "2.25"⟩ = 0 := by
  have htrim := TrimSpace_core pre core post hpre hpost hhead hlast
  refine ⟨?_, ?_, by decide!, by decide!, by decide!, by decide!, by decide!, by decide!,
    by decide!, by decide!⟩
  · intro h
    exact itemPoints_currency (String.mk (pre ++ core ++ post)) ds a b hds h1 ha hb hlt
      (by rw [htrim]; exact h)
  · intro h
    unfold calculateItemDescriptionPoints
    rw [if_neg (by rw [htrim]; exact h)]

/-! ## Instances of the theorems -/

/-- Instance of C1 on the sample receipt: its rule sum is in the `int` range, so its points
are that sum, 28. -/
theorem calculatePoints_is_sum_of_rules_witness :
    -2 ^ 63 ≤ ruleSum sampleReceipt ∧ ruleSum sampleReceipt < 2 ^ 63
    ∧ sampleReceipt.Items.length = 5
    ∧ calculatePoints sampleReceipt = ruleSum sampleReceipt
    ∧ calculatePoints sampleReceipt = wrapInt (6 + 0 + 0 + 10 + (0 + 3 + 0 + 0 + 3) + 6 + 0) :=
  ⟨by decide!, by decide!, rfl,
    (calculatePoints_is_sum_of_rules sampleReceipt).2.1 (by decide!) (by decide!),
    ((calculatePoints_is_sum_of_rules sampleReceipt).2.2 rfl).trans (by decide!)⟩

/-- Instance of C2 as amended on the sample receipt. -/
theorem calculatePoints_nonneg_witness :
    (∀ item ∈ sampleReceipt.Items, 0 ≤ calculateItemDescriptionPoints item)
    ∧ ruleSum sampleReceipt < 2 ^ 63
    ∧ 0 ≤ calculatePoints sampleReceipt :=
  ⟨by decide!, by decide!, calculatePoints_nonneg sampleReceipt (by decide!) (by decide!)⟩

/-- Instance of C4: a record stored under "a" survives a submission under the new
identifier "b" and a lookup. -/
theorem score_records_immutable_witness :
    freshIdentifiers ⟨[("a", 5)]⟩ [.process (.ok sampleReceipt) "b", .points "a"]
    ∧ (run ⟨[("a", 5)]⟩ [.process (.ok sampleReceipt) "b", .points "a"]).get "a" = some 5 :=
  ⟨⟨by decide, trivial⟩,
    (score_records_immutable ⟨[("a", 5)]⟩ [.process (.ok sampleReceipt) "b", .points "a"]
      ⟨by decide, trivial⟩).2 "a" 5 (by decide)⟩

/-- Instance of C5: looking up "b" in a store holding only "a". -/
theorem getPoints_unknown_identifier_witness :
    (⟨[("a", 5)]⟩ : Store).get "b" = none
    ∧ (getPoints ⟨[("a", 5)]⟩ "b").2 = ⟨404, .errorText "Receipt ID not found"⟩ :=
  ⟨by decide, (getPoints_unknown_identifier ⟨[("a", 5)]⟩ "b").1 (by decide)⟩

/-- Instance of C7: "abc" does not parse as a time. -/
theorem isWithinTimeRange_iff_witness :
    time.ParseClock "abc".data = none ∧ isWithinTimeRange "abc" "14:00" "16:00" = false :=
  ⟨by decide, (isWithinTimeRange_iff "abc").2.1 (by decide)⟩

/-- Instance of C8: month 13 does not parse as a date. -/
theorem isPurchaseDateOdd_iff_witness :
    time.ParseDate "2022-13-01".data = none ∧ isPurchaseDateOdd "2022-13-01" = false :=
  ⟨by decide, (isPurchaseDateOdd_iff "2022-13-01").2.1 (by decide)⟩

/-- Instance of C10 on "35" and "00". -/
theorem isRoundDollarAmount_iff_witness :
    '.' ∉ "35".data ∧ '.' ∉ "00".data
    ∧ (isRoundDollarAmount ("35" ++ "." ++ "00") = true ↔ "00" = "00") :=
  ⟨by decide, by decide, (isRoundDollarAmount_iff "35" "00").1 (by decide) (by decide)⟩

/-- Instance of C14: the first two items of the sample receipt exchanged. -/
theorem calculatePoints_perm_witness :
    sampleReceipt.Items.Perm
      [⟨"Emils Cheese Pizza", "12.25"⟩, ⟨"Mountain Dew 12PK", "6.49"⟩,
       ⟨"Knorr Creamy Chicken", "1.26"⟩, ⟨"Doritos Nacho Cheese", "3.35"⟩,
       ⟨"   Klarbrunn 12-PK 12 FL OZ  ", "12.00"⟩]
    ∧ calculatePoints { sampleReceipt with Items :=
        [⟨"Emils Cheese Pizza", "12.25"⟩, ⟨"Mountain Dew 12PK", "6.49"⟩,
         ⟨"Knorr Creamy Chicken", "1.26"⟩, ⟨"Doritos Nacho Cheese", "3.35"⟩,
         ⟨"   Klarbrunn 12-PK 12 FL OZ  ", "12.00"⟩] } = calculatePoints sampleReceipt :=
  ⟨List.Perm.swap _ _ _, (calculatePoints_perm sampleReceipt _ (List.Perm.swap _ _ _)).1⟩

/-- Instance of C16 as amended: the start bound "bad" does not parse. -/
theorem isWithinTimeRange_unparsable_bound_witness :
    time.ParseClock "bad".data = none ∧ isWithinTimeRange "15:00" "bad" "16:00" = false :=
  ⟨by decide, (isWithinTimeRange_unparsable_bound "15:00" "bad" "16:00").1 (by decide)⟩

/-- Instance of C18: "日" between blanks has a core of three bytes, " ab" one of two. -/
theorem calculateItemDescriptionPoints_byte_length_witness :
    (∀ c ∈ " ".data, unicode.IsSpace c = true) ∧ (∀ c ∈ "  ".data, unicode.IsSpace c = true)
    ∧ (∀ c ∈ "日".data.head?, unicode.IsSpace c = false)
    ∧ (∀ c ∈ "日".data.getLast?, unicode.IsSpace c = false)
    ∧ len "日".data % 3 = 0
    ∧ calculateItemDescriptionPoints ⟨String.mk (" ".data ++ "日".data ++ "  ".data), "10.00"⟩
        = (math.Ceil ((fmt.Sscanf "10.00".data Float64.zero).mul Float64.fifth)).toInt
    ∧ len "ab".data % 3 ≠ 0
    ∧ calculateItemDescriptionPoints ⟨String.mk (" ".data ++ "ab".data ++ []), "10.00"⟩ = 0 :=
  ⟨by decide, by decide, by decide, by decide, by decide,
    (calculateItemDescriptionPoints_byte_length " ".data "日".data "  ".data "10.00"
      (by decide) (by decide) (by decide) (by decide)).1 (by decide),
    by decide,
    (calculateItemDescriptionPoints_byte_length " ".data "ab".data [] "10.00"
      (by decide) (by decide) (by decide) (by decide)).2.1 (by decide)⟩

/-- Instance of C12 as amended on the total "12.25". -/
theorem isMultipleOfQuarter_currency_witness :
    "12".data ≠ [] ∧ (∀ c ∈ "12".data, c.isDigit = true)
    ∧ ('2' : Char).isDigit = true ∧ ('5' : Char).isDigit = true
    ∧ digitsValue "12".data < 2 ^ 47
    ∧ (isMultipleOfQuarter (String.mk ("12".data ++ ['.', '2', '5'])) = true
        ↔ centsAreQuarter '2' '5') :=
  ⟨by decide, by decide, by decide, by decide, by decide,
    (isMultipleOfQuarter_currency "12".data '2' '5' (by decide) (by decide) (by decide)
      (by decide)).2.1 (by decide)⟩

/-- Instance of C17 on a total of one hundred digits followed by ".00". -/
theorem round_dollar_total_witness :
    (List.replicate 100 '7') ≠ [] ∧ (∀ c ∈ List.replicate 100 '7', c.isDigit = true)
    ∧ isRoundDollarAmount (String.mk (List.replicate 100 '7' ++ ".00".data)) = true
    ∧ isMultipleOfQuarter (String.mk (List.replicate 100 '7' ++ ".00".data)) = true :=
  ⟨by decide, by decide,
    (round_dollar_total (List.replicate 100 '7') (by decide) (by decide)).1,
    (round_dollar_total (List.replicate 100 '7') (by decide) (by decide)).2.1⟩

/-- Instance of C11 as amended: "   Klarbrunn 12-PK 12 FL OZ  " has a core of 24 bytes
between three and two blanks, and at "12.00" it scores the ceiling of 2.4, which is 3. -/
theorem calculateItemDescriptionPoints_currency_witness :
    (∀ c ∈ "   ".data, unicode.IsSpace c = true) ∧ (∀ c ∈ "  ".data, unicode.IsSpace c = true)
    ∧ (∀ c ∈ "Klarbrunn 12-PK 12 FL OZ".data.head?, unicode.IsSpace c = false)
    ∧ (∀ c ∈ "Klarbrunn 12-PK 12 FL OZ".data.getLast?, unicode.IsSpace c = false)
    ∧ "12".data ≠ [] ∧ (∀ c ∈ "12".data, c.isDigit = true)
    ∧ ('0' : Char).isDigit = true
    ∧ digitsValue "12".data < 10 ^ 12
    ∧ len "Klarbrunn 12-PK 12 FL OZ".data % 3 = 0
    ∧ calculateItemDescriptionPoints
        ⟨String.mk ("   ".data ++ "Klarbrunn 12-PK 12 FL OZ".data ++ "  ".data),
          String.mk ("12".data ++ ['.', '0', '0'])⟩
        = ⌈((digitsValue ("12".data ++ ['0', '0']) : ℚ) / 100) * (2 / 10)⌉ :=
  ⟨by decide, by decide, by decide, by decide, by decide, by decide, by decide, by decide,
    by decide,
    (calculateItemDescriptionPoints_currency "   ".data "Klarbrunn 12-PK 12 FL OZ".data
      "  ".data "12".data '0' '0' (by decide) (by decide) (by decide) (by decide)
      (by decide) (by decide) (by decide) (by decide) (by decide)).1 (by decide)⟩

end FetchAssignment
